import Mathlib

/-!
# Packed-cell Game of Life engine (`main.c`)

A shallow embedding of the cellular-automaton core of `main.c`: the packed
cell macros, the toroidal grid, trait inheritance (`random_genc`,
`choose_genc`, `baby_genc`), the two scans of a tick (`one_step`, `update`),
`fill`, `init_grid_from_string` and `toggle_cell`, of the digest function
`sha256` and of the key loop of `run_tui`, followed by the theorems that settle
the specification's claims about them.

Conventions of the embedding.
* `cell_t` is `unsigned int`: a cell is a natural number below `2^32`, and every
  store into the grid is reduced modulo `2^32`.
* `grid->data[i][j]` is `g.data i j`; the scans never change `width`/`height`.
* `rand()` is a stream of draws with a read position (`Rng`).
* `for (i = 0; i < n; i++)` is `forLoop n`.
* The functions named `..._checked` are the same statements with a test in front of
  every raw `+= 1` and `-= 1`; they return `none` when a test fails.
-/

namespace Gol

/-! # Part I: the embedding and the vocabulary of the statements -/

/-! ## Packed cells -/

/-- Number of values of a 32-bit `unsigned int`. -/
def U32 : Nat := 4294967296

/-- C's `~m` for a 32-bit mask `m`, read as an `unsigned int`. -/
def NOT (m : Nat) : Nat := U32 - 1 - m

def TAG_MASK : Nat := ((1 <<< 8) - 1) <<< 16

def GENC_MASK : Nat := ((1 <<< 8) - 1) <<< 8

def SUM_MASK : Nat := ((1 <<< 8) - 1) <<< 0

def ELEM_TAG (e : Nat) : Nat := e &&& TAG_MASK

def ELEM_GENC (e : Nat) : Nat := e &&& GENC_MASK

def ELEM_SUM (e : Nat) : Nat := e &&& SUM_MASK

def ELEM_NO_TAG (e : Nat) : Nat := e &&& (GENC_MASK ||| SUM_MASK)

def ELEM_NO_GENC (e : Nat) : Nat := e &&& (TAG_MASK ||| SUM_MASK)

def MAKE_TAG (t : Nat) : Nat := t <<< 16

def MAKE_GENC (r : Nat) : Nat := r <<< 8

def MAKE_SUM (s : Nat) : Nat := s <<< 0

/-- Tag Empty. -/
def NO_ELEM : Nat := MAKE_TAG 0

/-- Tag Born. -/
def BORN_ELEM : Nat := MAKE_TAG 1

/-- Tag Alive. -/
def ELEM : Nat := MAKE_TAG 2

/-- Tag Dying. -/
def DEAD_ELEM : Nat := MAKE_TAG 3

/-! ## Grid -/

/-- The C struct `grid_t`; `bounded` records that the cells are `unsigned int`. -/
structure grid_t where
  data : Nat → Nat → Nat
  width : Nat
  height : Nat
  bounded : ∀ i j, data i j < U32

/-- The store `grid->data[i][j] = v` (truncated to 32 bits). -/
def set_cell (g : grid_t) (i j v : Nat) : grid_t :=
  { data := fun a b => if a = i ∧ b = j then v % U32 else g.data a b
    width := g.width
    height := g.height
    bounded := by
      intro a b
      by_cases h : a = i ∧ b = j
      · simp only [h, and_self, if_true]
        exact Nat.mod_lt _ (by decide)
      · simp only [h, if_false]
        exact g.bounded a b }

/-- The statement `grid->data[i][j] += 1` on the whole packed value. -/
def add1 (g : grid_t) (i j : Nat) : grid_t := set_cell g i j (g.data i j + 1)

/-- The statement `grid->data[i][j] -= 1` on the whole packed value (unsigned wrap-around). -/
def sub1 (g : grid_t) (i j : Nat) : grid_t := set_cell g i j (g.data i j + (U32 - 1))

/-- A grid of the given size whose cell `(i,j)` holds `f i j` (as an `unsigned int`). -/
def grid_of (w h : Nat) (f : Nat → Nat → Nat) : grid_t :=
  { data := fun i j => f i j % U32
    width := w
    height := h
    bounded := fun _ _ => Nat.mod_lt _ (by decide) }

/-- The loop `for (int i = 0; i < n; i++) body(i)`. -/
def forLoop {σ : Type} (n : Nat) (body : Nat → σ → σ) (s : σ) : σ :=
  match n with
  | 0 => s
  | k + 1 => body k (forLoop k body s)

/-- The index `(i > 0) ? i - 1 : n - 1`. -/
def prevIdx (n i : Nat) : Nat := if i > 0 then i - 1 else n - 1

/-- The index `(i < n - 1) ? i + 1 : 0` (the comparison is on C `int`s). -/
def nextIdx (n i : Nat) : Nat := if (i : Int) < (n : Int) - 1 then i + 1 else 0

/-! ## Random draws -/

/-- The state of libc's generator: the sequence `rand()` will return and how many
values have been consumed. -/
structure Rng where
  draws : Nat → Nat
  pos : Nat

/-- One call of `rand()`. -/
def rand (r : Rng) : Nat × Rng := (r.draws r.pos, { draws := r.draws, pos := r.pos + 1 })

/-! ## Trait inheritance -/

def random_genc (e : Nat) (rng : Rng) : Bool × Rng :=
  let g := ELEM_GENC e >>> 8
  let d := rand rng
  (decide (d.1 % 3 < g), d.2)

def choose_genc (e : Nat) (rp : Nat) (rng : Rng) : Nat × Rng :=
  if ELEM_TAG e ≥ ELEM then
    let t := random_genc e rng
    if t.1 then (rp + 1, t.2) else (rp, t.2)
  else (rp, rng)

def baby_genc (grid : grid_t) (i j : Nat) (rng : Rng) : Nat × Rng :=
  let jm1 := prevIdx grid.height j
  let jp1 := nextIdx grid.height j
  let im1 := prevIdx grid.width i
  let ip1 := nextIdx grid.width i
  let r : Nat × Rng := (0, rng)
  let r := choose_genc (grid.data im1 jm1) r.1 r.2
  let r := choose_genc (grid.data im1 j) r.1 r.2
  let r := choose_genc (grid.data im1 jp1) r.1 r.2
  let r := choose_genc (grid.data i jm1) r.1 r.2
  let r := choose_genc (grid.data i jp1) r.1 r.2
  let r := choose_genc (grid.data ip1 jm1) r.1 r.2
  let r := choose_genc (grid.data ip1 j) r.1 r.2
  let r := choose_genc (grid.data ip1 jp1) r.1 r.2
  (MAKE_GENC r.1, r.2)

/-! ## The two scans of a tick -/

/-- The variables a scan carries: the grid, the generator and `modif`. -/
structure Scan where
  grid : grid_t
  rng : Rng
  modif : Nat

/-- Body of the inner loop of `one_step` at cell `(i,j)`. -/
def one_step_cell (i j : Nat) (s : Scan) : Scan :=
  let e := s.grid.data i j
  if ELEM_SUM e = MAKE_SUM 3 then
    if ELEM_TAG e = NO_ELEM then
      let b := baby_genc s.grid i j s.rng
      let r := b.1 % U32
      let r := r ||| ELEM_SUM e
      { grid := set_cell s.grid i j (BORN_ELEM ||| r), rng := b.2, modif := 1 }
    else s
  else if ELEM_SUM e = MAKE_SUM 0 ∨ ELEM_SUM e = MAKE_SUM 1 ∨ ELEM_SUM e = MAKE_SUM 4
      ∨ ELEM_SUM e = MAKE_SUM 5 ∨ ELEM_SUM e = MAKE_SUM 6 ∨ ELEM_SUM e = MAKE_SUM 7
      ∨ ELEM_SUM e = MAKE_SUM 8 then
    if ELEM_TAG e = ELEM then
      let r := ELEM_NO_TAG e
      { grid := set_cell s.grid i j (DEAD_ELEM ||| r), rng := s.rng, modif := 1 }
    else s
  else s

/-- The classify scan; the result carries the grid, the generator and the return value. -/
def one_step (grid : grid_t) (rng : Rng) : Scan :=
  forLoop grid.width (fun i s => forLoop grid.height (fun j s => one_step_cell i j s) s)
    { grid := grid, rng := rng, modif := 0 }

/-- Body of the inner loop of `update` at cell `(i,j)`: the grid and `modif`. -/
def update_cell (i j : Nat) (s : grid_t × Nat) : grid_t × Nat :=
  let grid := s.1
  let im1 := prevIdx grid.width i
  let ip1 := nextIdx grid.width i
  let jm1 := prevIdx grid.height j
  let jp1 := nextIdx grid.height j
  if ELEM_TAG (grid.data i j) = BORN_ELEM then
    let r := ELEM_NO_TAG (grid.data i j)
    let grid := add1 grid im1 jm1
    let grid := add1 grid im1 j
    let grid := add1 grid im1 jp1
    let grid := add1 grid i jm1
    let grid := set_cell grid i j (ELEM ||| r)
    let grid := add1 grid i jp1
    let grid := add1 grid ip1 jm1
    let grid := add1 grid ip1 j
    let grid := add1 grid ip1 jp1
    (grid, 1)
  else if ELEM_TAG (grid.data i j) = DEAD_ELEM then
    let r := ELEM_NO_TAG (grid.data i j)
    let grid := sub1 grid im1 jm1
    let grid := sub1 grid im1 j
    let grid := sub1 grid im1 jp1
    let grid := sub1 grid i jm1
    let grid := set_cell grid i j (NO_ELEM ||| r)
    let grid := sub1 grid i jp1
    let grid := sub1 grid ip1 jm1
    let grid := sub1 grid ip1 j
    let grid := sub1 grid ip1 jp1
    (grid, 1)
  else s

/-- The commit scan; returns the grid and the return value `modif`. -/
def update (grid : grid_t) : grid_t × Nat :=
  forLoop grid.width (fun i s => forLoop grid.height (fun j s => update_cell i j s) s) (grid, 0)

/-- One complete tick of the driver: `one_step(grid); update(grid);`. -/
def tick (s : grid_t × Rng) : grid_t × Rng :=
  let c := one_step s.1 s.2
  ((update c.grid).1, c.rng)

/-- The driver pressing Enter `n` times. -/
def ticks (n : Nat) (s : grid_t × Rng) : grid_t × Rng :=
  match n with
  | 0 => s
  | k + 1 => tick (ticks k s)

def fill (grid : grid_t) (value : Nat) : grid_t :=
  forLoop grid.width (fun i g => forLoop grid.height (fun j g => set_cell g i j value) g) grid

/-! ## Initialisation and editing -/

/-- Body of the first loop of `init_grid_from_string`. -/
def init_fill_cell (i j : Nat) (s : grid_t × Rng) : grid_t × Rng :=
  let d := rand s.2
  let bit := d.1 % 2
  let grid := set_cell s.1 i j (if bit ≠ 0 then ELEM else NO_ELEM)
  let grid := set_cell grid i j (grid.data i j &&& NOT SUM_MASK)
  (grid, d.2)

/-- Body of the second loop of `init_grid_from_string`. -/
def init_count_cell (i j : Nat) (grid : grid_t) : grid_t :=
  if ELEM_TAG (grid.data i j) = ELEM then
    let im1 := prevIdx grid.width i
    let ip1 := nextIdx grid.width i
    let jm1 := prevIdx grid.height j
    let jp1 := nextIdx grid.height j
    let grid := add1 grid im1 jm1
    let grid := add1 grid im1 j
    let grid := add1 grid im1 jp1
    let grid := add1 grid i jm1
    let grid := add1 grid i jp1
    let grid := add1 grid ip1 jm1
    let grid := add1 grid ip1 j
    let grid := add1 grid ip1 jp1
    grid
  else grid

/-- The function `init_grid_from_string`, from the point after `srand(seed)`: `rng` is the
generator as seeded from the digest of the string. -/
def init_grid_from_string (grid : grid_t) (rng : Rng) : grid_t × Rng :=
  let s := forLoop grid.width
    (fun i s => forLoop grid.height (fun j s => init_fill_cell i j s) s) (grid, rng)
  let g := forLoop grid.width
    (fun i g => forLoop grid.height (fun j g => init_count_cell i j g) g) s.1
  (g, s.2)

def toggle_cell (grid : grid_t) (x y : Nat) : grid_t :=
  let im1 := prevIdx grid.width x
  let ip1 := nextIdx grid.width x
  let jm1 := prevIdx grid.height y
  let jp1 := nextIdx grid.height y
  if ELEM_TAG (grid.data x y) = NO_ELEM then
    let grid := set_cell grid x y (ELEM ||| (grid.data x y &&& NOT TAG_MASK))
    let grid := add1 grid im1 jm1
    let grid := add1 grid im1 y
    let grid := add1 grid im1 jp1
    let grid := add1 grid x jm1
    let grid := add1 grid x jp1
    let grid := add1 grid ip1 jm1
    let grid := add1 grid ip1 y
    let grid := add1 grid ip1 jp1
    grid
  else if ELEM_TAG (grid.data x y) = ELEM then
    let grid := set_cell grid x y (NO_ELEM ||| (grid.data x y &&& NOT TAG_MASK))
    let grid := sub1 grid im1 jm1
    let grid := sub1 grid im1 y
    let grid := sub1 grid im1 jp1
    let grid := sub1 grid x jm1
    let grid := sub1 grid x jp1
    let grid := sub1 grid ip1 jm1
    let grid := sub1 grid ip1 y
    let grid := sub1 grid ip1 jp1
    grid
  else grid

/-! ## Neighbourhoods and counts (specification vocabulary) -/

/-- The 8 toroidal neighbour positions of `(i,j)`, in the order in which the code visits
them. -/
def nbrs (w h i j : Nat) : List (Nat × Nat) :=
  [(prevIdx w i, prevIdx h j), (prevIdx w i, j), (prevIdx w i, nextIdx h j),
   (i, prevIdx h j), (i, nextIdx h j),
   (nextIdx w i, prevIdx h j), (nextIdx w i, j), (nextIdx w i, nextIdx h j)]

/-- How many of the 8 neighbour positions of `(i,j)` hold a cell with tag `t`. -/
def countTag (g : grid_t) (t i j : Nat) : Nat :=
  (nbrs g.width g.height i j).countP (fun q => ELEM_TAG (g.data q.1 q.2) == t)

/-- A grid between ticks: every cell is Empty or Alive and every neighbour-sum field is the
number of Alive neighbour positions. -/
def Consistent (g : grid_t) : Prop :=
  ∀ i, i < g.width → ∀ j, j < g.height →
    (ELEM_TAG (g.data i j) = NO_ELEM ∨ ELEM_TAG (g.data i j) = ELEM) ∧
    ELEM_SUM (g.data i j) = countTag g ELEM i j

instance (g : grid_t) : Decidable (Consistent g) := by
  unfold Consistent
  infer_instance

/-! ## Scan order -/

/-- Position `q` has already been visited when the scan is about to visit `(i,j)`. -/
def visited (i j : Nat) (q : Nat × Nat) : Bool := decide (q.1 < i ∨ (q.1 = i ∧ q.2 < j))

/-! ## Repeated increments and decrements -/

/-- The statements `data[p] += 1` for the positions `p` of a list, in order. -/
def addAll (g : grid_t) (L : List (Nat × Nat)) : grid_t :=
  L.foldl (fun g p => add1 g p.1 p.2) g

/-- The statements `data[p] -= 1` for the positions `p` of a list, in order. -/
def subAll (g : grid_t) (L : List (Nat × Nat)) : grid_t :=
  L.foldl (fun g p => sub1 g p.1 p.2) g

/-! ## Indicators -/

/-- Indicator of an equation, as a number. -/
def ind (x y : Nat) : Nat := if x = y then 1 else 0

/-! ## The commit scan, cell by cell -/

/-- The first four neighbour positions the commit scan touches, before it rewrites the
cell itself. -/
def nbrsA (w h i j : Nat) : List (Nat × Nat) :=
  [(prevIdx w i, prevIdx h j), (prevIdx w i, j), (prevIdx w i, nextIdx h j), (i, prevIdx h j)]

/-- The last four neighbour positions the commit scan touches. -/
def nbrsB (w h i j : Nat) : List (Nat × Nat) :=
  [(i, nextIdx h j), (nextIdx w i, prevIdx h j), (nextIdx w i, j), (nextIdx w i, nextIdx h j)]

/-- What the commit scan stores in a cell it visits. -/
def commitCell (c : Nat) : Nat :=
  if ELEM_TAG c = BORN_ELEM then ELEM ||| ELEM_NO_TAG c
  else if ELEM_TAG c = DEAD_ELEM then NO_ELEM ||| ELEM_NO_TAG c
  else c

/-- Neighbour positions of `(a,b)` with tag `t` in `g` that the scan has visited before it
reaches `(i,j)`. -/
def countSeen (g : grid_t) (t i j a b : Nat) : Nat :=
  (nbrs g.width g.height a b).countP
    (fun q => visited i j q && (ELEM_TAG (g.data q.1 q.2) == t))

/-! ## State and invariant of the commit scan -/

/-- State of a grid in the middle of a tick, after the classify scan: each neighbour-sum
field counts the neighbour positions that were Alive when the tick started, which are now
tagged Alive or Dying. -/
def MidTick (g : grid_t) : Prop :=
  ∀ a, a < g.width → ∀ b, b < g.height →
    ELEM_SUM (g.data a b) = countTag g ELEM a b + countTag g DEAD_ELEM a b

/-- The value a cell would have, had only its own visit by the commit scan happened. -/
def commitBase (g1 : grid_t) (i j a b : Nat) : Nat :=
  if visited i j (a, b) = true then commitCell (g1.data a b) else g1.data a b

/-- Loop invariant of the commit scan started on `g1`, before it visits `(i,j)`. -/
def CommitInv (g1 : grid_t) (i j : Nat) (s : grid_t × Nat) : Prop :=
  s.1.width = g1.width ∧ s.1.height = g1.height ∧
  ∀ a, a < g1.width → ∀ b, b < g1.height →
    s.1.data a b + countSeen g1 DEAD_ELEM i j a b =
      commitBase g1 i j a b + countSeen g1 BORN_ELEM i j a b

/-! ## Trait inheritance as a fold -/

/-- The eight `choose_genc` calls of `baby_genc`, as a fold over the cells it reads. -/
def chooseAll (cells : List Nat) (r : Nat × Rng) : Nat × Rng :=
  cells.foldl (fun r e => choose_genc e r.1 r.2) r

/-- The cells `baby_genc` reads, in the order in which it reads them. -/
def nbrCells (g : grid_t) (i j : Nat) : List Nat :=
  (nbrs g.width g.height i j).map (fun q => g.data q.1 q.2)

/-! ## Invariant of the classify scan -/

/-- What the classify scan makes of a cell holding `old`, in arithmetic form: `new` is the
cell afterwards. -/
def Classified (old new : Nat) : Prop :=
  if old % 256 = 3 ∧ old / 65536 % 256 = 0 then ∃ r, r ≤ 8 ∧ new = 65536 + r * 256 + 3
  else if (old % 256 ≤ 8 ∧ old % 256 ≠ 2 ∧ old % 256 ≠ 3) ∧ old / 65536 % 256 = 2 then
    new = 196608 + old % 65536
  else new = old

/-- Loop invariant of the classify scan started on `g0`, before it visits `(i,j)`. -/
def ClassifyInv (g0 : grid_t) (i j : Nat) (s : Scan) : Prop :=
  s.grid.width = g0.width ∧ s.grid.height = g0.height ∧
  ∀ a b, if visited i j (a, b) = true ∧ b < g0.height
    then Classified (g0.data a b) (s.grid.data a b)
    else s.grid.data a b = g0.data a b

/-! ## Conway's rule on a torus (the specification side) -/

/-- The standard rule: a cell is Alive next iff it is Alive with 2 or 3 Alive neighbours or
Empty with exactly 3. -/
def lifeRule (alive : Bool) (n : Nat) : Bool :=
  (alive && (n == 2 || n == 3)) || (!alive && n == 3)

/-- The 8 cells around `(i,j)` on the `w` x `h` torus, by modular arithmetic. -/
def torusNbrs (w h i j : Nat) : List (Nat × Nat) :=
  [((i + w - 1) % w, (j + h - 1) % h), ((i + w - 1) % w, j), ((i + w - 1) % w, (j + 1) % h),
   (i, (j + h - 1) % h), (i, (j + 1) % h),
   ((i + 1) % w, (j + h - 1) % h), ((i + 1) % w, j), ((i + 1) % w, (j + 1) % h)]

/-- One generation of the Game of Life on the `w` x `h` torus. -/
def lifeStep (w h : Nat) (p : Nat → Nat → Bool) : Nat → Nat → Bool :=
  fun i j => lifeRule (p i j) ((torusNbrs w h i j).countP (fun q => p q.1 q.2))

/-- The rule applied `n` times. -/
def lifeIter (w h : Nat) (n : Nat) (p : Nat → Nat → Bool) : Nat → Nat → Bool :=
  match n with
  | 0 => p
  | k + 1 => lifeStep w h (lifeIter w h k p)

/-- The Alive/Empty pattern of a grid: which cells carry the tag Alive. -/
def pattern (g : grid_t) : Nat → Nat → Bool :=
  fun i j => ELEM_TAG (g.data i j) == ELEM

/-! ## Example grid -/

/-- A 3 x 3 grid with one Alive cell in the middle and every neighbour sum in place. -/
def loneCell : grid_t :=
  grid_of 3 3 (fun i j => if i = 1 ∧ j = 1 then ELEM else MAKE_SUM 1)

/-! ## The classify table -/

/-- The transition table of the classify phase: the next tag from the current tag and the
neighbour sum. -/
def classifyTag (tag sum : Nat) : Nat :=
  if tag = NO_ELEM ∧ sum = MAKE_SUM 3 then BORN_ELEM
  else if tag = ELEM ∧ (sum = MAKE_SUM 0 ∨ sum = MAKE_SUM 1 ∨ sum = MAKE_SUM 4 ∨
      sum = MAKE_SUM 5 ∨ sum = MAKE_SUM 6 ∨ sum = MAKE_SUM 7 ∨ sum = MAKE_SUM 8) then DEAD_ELEM
  else tag

/-! ## Invariants of the initialisation loops -/

/-- The cell the first loop of `init_grid_from_string` stores for the draw `d`. -/
def initTag (d : Nat) : Nat := if d % 2 ≠ 0 then ELEM else NO_ELEM

/-- The draw that decides cell `(a,b)`: draws are consumed column by column. -/
def initDraw (h : Nat) (rng : Rng) (a b : Nat) : Nat := rng.draws (rng.pos + (a * h + b))

/-- Loop invariant of the first loop of `init_grid_from_string`. -/
def FillInv (g0 : grid_t) (rng : Rng) (i j : Nat) (s : grid_t × Rng) : Prop :=
  s.1.width = g0.width ∧ s.1.height = g0.height ∧ s.2.draws = rng.draws ∧
  s.2.pos = rng.pos + (i * g0.height + j) ∧
  ∀ a b, if visited i j (a, b) = true ∧ b < g0.height
    then s.1.data a b = initTag (initDraw g0.height rng a b)
    else s.1.data a b = g0.data a b

/-- Loop invariant of the second loop of `init_grid_from_string`, started on `base`. -/
def CountInv (base : grid_t) (i j : Nat) (g : grid_t) : Prop :=
  g.width = base.width ∧ g.height = base.height ∧
  ∀ a, a < base.width → ∀ b, b < base.height →
    g.data a b = base.data a b + countSeen base ELEM i j a b

/-- The value `init_grid_from_string` leaves in cell `(i,j)` of a `w` x `h` grid, as a
function of the draws alone. -/
def initValue (w h : Nat) (rng : Rng) (i j : Nat) : Nat :=
  initTag (initDraw h rng i j) +
    (nbrs w h i j).countP (fun q => initDraw h rng q.1 q.2 % 2 != 0)

/-! ## Manual editing -/

/-- How often the toggled cell `(x,y)` occurs among the neighbour positions of `(a,b)`. -/
def mult (g : grid_t) (x y a b : Nat) : Nat := (nbrs g.width g.height a b).count (x, y)

/-! ## A grid of height 1 -/

/-- A grid of width 3 and height 1: two Empty cells and one Alive cell, every neighbour sum
in place (on this torus a cell is twice its own neighbour). -/
def flatGrid : grid_t :=
  grid_of 3 1 (fun i _ => if i = 2 then ELEM + MAKE_SUM 2 else MAKE_SUM 3)

/-! ## Reachable states -/

/-- The grid states the driver can reach from `init_grid_from_string` on `g0` with generator
`rng0`: complete ticks and toggles of in-range cells. -/
inductive Reachable (g0 : grid_t) (rng0 : Rng) : grid_t × Rng → Prop
  | init : Reachable g0 rng0 (init_grid_from_string g0 rng0)
  | tick (s : grid_t × Rng) : Reachable g0 rng0 s → Reachable g0 rng0 (tick s)
  | toggle (s : grid_t × Rng) (x y : Nat) : Reachable g0 rng0 s → x < s.1.width →
      y < s.1.height → Reachable g0 rng0 (toggle_cell s.1 x y, s.2)

/-- The draws that make `init_grid_from_string` produce `flatGrid` on a 3 x 1 grid. -/
def flatDraws : Rng := ⟨fun k => if k = 2 then 1 else 0, 0⟩

/-- The state after: initialise a 3 x 1 grid, tick, toggle cell `(0,0)`, tick. -/
def flatRun : grid_t × Rng :=
  tick (toggle_cell (tick (init_grid_from_string (grid_of 3 1 (fun _ _ => 0)) flatDraws)).1 0 0,
    (tick (init_grid_from_string (grid_of 3 1 (fun _ _ => 0)) flatDraws)).2)

/-! ## Inheritance trials -/

/-- Among the draw values `0, ..., n-1`, the number on which the trial `random_genc e`
succeeds. -/
def trialSuccesses (e n : Nat) : Nat :=
  (List.range n).countP (fun d => (random_genc e ⟨fun _ => d, 0⟩).1)

/-- The neighbours that take part in the inheritance at `(i,j)`: the cells `choose_genc`
lets through, in the order of the calls. -/
def participants (g : grid_t) (i j : Nat) : List Nat :=
  (nbrCells g i j).filter (fun e => decide (ELEM_TAG e ≥ ELEM))

/-- The number of successful trials when the cells `ps` are tried one after the other,
each with the next draw. -/
def successCount (ps : List Nat) (draws : Nat → Nat) (pos : Nat) : Nat :=
  match ps with
  | [] => 0
  | e :: es =>
    (if (random_genc e ⟨draws, pos⟩).1 = true then 1 else 0) + successCount es draws (pos + 1)

/-! ## Example grids for the trait bound -/

/-- A 3 x 3 grid in the middle of a classify scan: cell `(0,0)` was Alive with trait 1 and
has already been re-tagged Dying, cell `(0,1)` is Alive with trait 0, the rest is Empty. -/
def dyingTraitGrid : grid_t :=
  grid_of 3 3 (fun i j =>
    if i = 0 ∧ j = 0 then DEAD_ELEM + MAKE_GENC 1 else if i = 0 ∧ j = 1 then ELEM else NO_ELEM)

/-- A 3 x 3 grid whose cells are all Alive with trait 8. -/
def fullTraitGrid : grid_t := grid_of 3 3 (fun _ _ => ELEM + MAKE_GENC 8)

/-! ## Example grids for the tag test -/

/-- A 3 x 3 grid in the middle of a classify scan whose only non-Empty cell is `(0,0)`,
which was Alive with trait 1 and has already been re-tagged Dying. -/
def dyingOnlyGrid : grid_t :=
  grid_of 3 3 (fun i j => if i = 0 ∧ j = 0 then DEAD_ELEM + MAKE_GENC 1 else NO_ELEM)

/-- A 3 x 3 grid in the middle of a tick: cell `(1,1)` is Born, cell `(0,0)` is Dying, the
rest is Empty. -/
def transitionalGrid : grid_t :=
  grid_of 3 3 (fun i j =>
    if i = 1 ∧ j = 1 then BORN_ELEM + MAKE_SUM 3
    else if i = 0 ∧ j = 0 then DEAD_ELEM + MAKE_SUM 1 else NO_ELEM)

/-! ## Return values of the two scans -/

/-- The classify scan rewrites a cell holding `c` (arithmetic form of the two `if`s of
`one_step`). -/
def firesN (c : Nat) : Prop :=
  (c % 256 = 3 ∧ c / 65536 % 256 = 0) ∨
    ((c % 256 ≤ 8 ∧ c % 256 ≠ 2 ∧ c % 256 ≠ 3) ∧ c / 65536 % 256 = 2)

/-- The cell `c` is Born or Dying (arithmetic form). -/
def transN (c : Nat) : Prop := c / 65536 % 256 = 1 ∨ c / 65536 % 256 = 3

/-- Loop invariant of `one_step` for its return value `modif`. -/
def ModifInv (g0 : grid_t) (i j : Nat) (s : Scan) : Prop :=
  (s.modif = 1 ∧ ∃ a b, visited i j (a, b) = true ∧ b < g0.height ∧ firesN (g0.data a b)) ∨
  (s.modif = 0 ∧ ∀ a b, visited i j (a, b) = true → b < g0.height → ¬ firesN (g0.data a b))

/-- Loop invariant of `update` for its return value `modif`, on any grid `g`. -/
def UpdateModifInv (g : grid_t) (i j : Nat) (s : grid_t × Nat) : Prop :=
  (s.2 = 1 ∧ ∃ a b, visited i j (a, b) = true ∧ b < g.height ∧ transN (g.data a b)) ∨
  (s = (g, 0) ∧ ∀ a b, visited i j (a, b) = true → b < g.height → ¬ transN (g.data a b))

/-- A settled grid (still life): the transition table asks for no change of any cell. -/
def Settled (g : grid_t) : Prop :=
  ∀ i, i < g.width → ∀ j, j < g.height →
    classifyTag (ELEM_TAG (g.data i j)) (ELEM_SUM (g.data i j)) = ELEM_TAG (g.data i j)

/-! ## A still life -/

/-- A 4 x 4 grid holding a block (a 2 x 2 square of Alive cells), every sum in place. -/
def blockGrid : grid_t :=
  grid_of 4 4 (fun i j =>
    if (i = 1 ∨ i = 2) ∧ (j = 1 ∨ j = 2) then ELEM + MAKE_SUM 3
    else if (i = 0 ∨ i = 3) ∧ (j = 0 ∨ j = 3) then MAKE_SUM 1 else MAKE_SUM 2)

/-! ## The classify scan in detail -/

/-- The variables of `one_step` when its scan is about to visit `(i,j)`: the rows before
`i` are done, and so are the cells before `j` of row `i`. -/
def one_step_before (g : grid_t) (rng : Rng) (i j : Nat) : Scan :=
  forLoop j (fun j s => one_step_cell i j s)
    (forLoop i (fun i s => forLoop g.height (fun j s => one_step_cell i j s) s)
      (Scan.mk g rng 0))

/-- What the classify scan stores in a cell holding `c` when the newborn's trait is 0. -/
def classifyZero (c : Nat) : Nat :=
  if c % 256 = 3 ∧ c / 65536 % 256 = 0 then 65539
  else if (c % 256 ≤ 8 ∧ c % 256 ≠ 2 ∧ c % 256 ≠ 3) ∧ c / 65536 % 256 = 2 then
    196608 + c % 65536
  else c

/-- Every cell of the grid has trait 0. -/
def ZeroTrait (g : grid_t) : Prop :=
  ∀ a, a < g.width → ∀ b, b < g.height → ELEM_GENC (g.data a b) = MAKE_GENC 0

/-- Loop invariant of the classify scan on a grid `g0` whose traits are all 0. -/
def ZeroInv (g0 : grid_t) (i j : Nat) (s : Scan) : Prop :=
  s.grid.width = g0.width ∧ s.grid.height = g0.height ∧
  ∀ a b, s.grid.data a b =
    if visited i j (a, b) = true ∧ b < g0.height then classifyZero (g0.data a b)
    else g0.data a b

/-! ## The blinker -/

/-- The blinker as the editor sets it up: the grid cleared with `fill(grid, 0)`, then
`(1,0)`, `(1,1)`, `(1,2)` switched on with `toggle_cell`. -/
def blinker (g : grid_t) : grid_t :=
  toggle_cell (toggle_cell (toggle_cell (fill g 0) 1 0) 1 1) 1 2

/-- The blinker on a 5 x 5 grid that held arbitrary values before. -/
def blinkerGrid : grid_t := blinker (grid_of 5 5 (fun i j => 977 * i + j))

/-- No cell of the grid uses the eight bits above the tag field. -/
def Small (g : grid_t) : Prop :=
  ∀ a, a < g.width → ∀ b, b < g.height → g.data a b < 16777216

/-! ## The raw increments and decrements with their side conditions checked -/

/-- The statement `grid->data[i][j] += 1`, refused (`none`) unless the neighbour-sum field
of the cell is at most 7 beforehand. -/
def add1_checked (g : grid_t) (i j : Nat) : Option grid_t :=
  if ELEM_SUM (g.data i j) ≤ MAKE_SUM 7 then some (add1 g i j) else none

/-- The statement `grid->data[i][j] -= 1`, refused (`none`) unless the neighbour-sum field
of the cell is at least 1 (and at most 8) beforehand. -/
def sub1_checked (g : grid_t) (i j : Nat) : Option grid_t :=
  if MAKE_SUM 1 ≤ ELEM_SUM (g.data i j) ∧ ELEM_SUM (g.data i j) ≤ MAKE_SUM 8 then
    some (sub1 g i j)
  else none

/-- Body of the inner loop of `update`, every `+= 1` and `-= 1` checked. -/
def update_cell_checked (i j : Nat) (s : grid_t × Nat) : Option (grid_t × Nat) :=
  let grid := s.1
  let im1 := prevIdx grid.width i
  let ip1 := nextIdx grid.width i
  let jm1 := prevIdx grid.height j
  let jp1 := nextIdx grid.height j
  if ELEM_TAG (grid.data i j) = BORN_ELEM then
    let r := ELEM_NO_TAG (grid.data i j)
    (add1_checked grid im1 jm1).bind fun grid =>
    (add1_checked grid im1 j).bind fun grid =>
    (add1_checked grid im1 jp1).bind fun grid =>
    (add1_checked grid i jm1).bind fun grid =>
    let grid := set_cell grid i j (ELEM ||| r)
    (add1_checked grid i jp1).bind fun grid =>
    (add1_checked grid ip1 jm1).bind fun grid =>
    (add1_checked grid ip1 j).bind fun grid =>
    (add1_checked grid ip1 jp1).bind fun grid =>
    some (grid, 1)
  else if ELEM_TAG (grid.data i j) = DEAD_ELEM then
    let r := ELEM_NO_TAG (grid.data i j)
    (sub1_checked grid im1 jm1).bind fun grid =>
    (sub1_checked grid im1 j).bind fun grid =>
    (sub1_checked grid im1 jp1).bind fun grid =>
    (sub1_checked grid i jm1).bind fun grid =>
    let grid := set_cell grid i j (NO_ELEM ||| r)
    (sub1_checked grid i jp1).bind fun grid =>
    (sub1_checked grid ip1 jm1).bind fun grid =>
    (sub1_checked grid ip1 j).bind fun grid =>
    (sub1_checked grid ip1 jp1).bind fun grid =>
    some (grid, 1)
  else some s

/-- The commit scan with every `+= 1` and `-= 1` checked: `none` as soon as one of them is
applied to a cell whose neighbour-sum field is out of bounds. -/
def update_checked (grid : grid_t) : Option (grid_t × Nat) :=
  forLoop grid.width
    (fun i s => forLoop grid.height (fun j s => s.bind (update_cell_checked i j)) s)
    (some (grid, 0))

/-- The function `toggle_cell` with every `+= 1` and `-= 1` checked. -/
def toggle_cell_checked (grid : grid_t) (x y : Nat) : Option grid_t :=
  let im1 := prevIdx grid.width x
  let ip1 := nextIdx grid.width x
  let jm1 := prevIdx grid.height y
  let jp1 := nextIdx grid.height y
  if ELEM_TAG (grid.data x y) = NO_ELEM then
    let grid := set_cell grid x y (ELEM ||| (grid.data x y &&& NOT TAG_MASK))
    (add1_checked grid im1 jm1).bind fun grid =>
    (add1_checked grid im1 y).bind fun grid =>
    (add1_checked grid im1 jp1).bind fun grid =>
    (add1_checked grid x jm1).bind fun grid =>
    (add1_checked grid x jp1).bind fun grid =>
    (add1_checked grid ip1 jm1).bind fun grid =>
    (add1_checked grid ip1 y).bind fun grid =>
    (add1_checked grid ip1 jp1).bind fun grid =>
    some grid
  else if ELEM_TAG (grid.data x y) = ELEM then
    let grid := set_cell grid x y (NO_ELEM ||| (grid.data x y &&& NOT TAG_MASK))
    (sub1_checked grid im1 jm1).bind fun grid =>
    (sub1_checked grid im1 y).bind fun grid =>
    (sub1_checked grid im1 jp1).bind fun grid =>
    (sub1_checked grid x jm1).bind fun grid =>
    (sub1_checked grid x jp1).bind fun grid =>
    (sub1_checked grid ip1 jm1).bind fun grid =>
    (sub1_checked grid ip1 y).bind fun grid =>
    (sub1_checked grid ip1 jp1).bind fun grid =>
    some grid
  else some grid

/-- Body of the second loop of `init_grid_from_string`, every `+= 1` checked. -/
def init_count_cell_checked (i j : Nat) (grid : grid_t) : Option grid_t :=
  if ELEM_TAG (grid.data i j) = ELEM then
    let im1 := prevIdx grid.width i
    let ip1 := nextIdx grid.width i
    let jm1 := prevIdx grid.height j
    let jp1 := nextIdx grid.height j
    (add1_checked grid im1 jm1).bind fun grid =>
    (add1_checked grid im1 j).bind fun grid =>
    (add1_checked grid im1 jp1).bind fun grid =>
    (add1_checked grid i jm1).bind fun grid =>
    (add1_checked grid i jp1).bind fun grid =>
    (add1_checked grid ip1 jm1).bind fun grid =>
    (add1_checked grid ip1 j).bind fun grid =>
    (add1_checked grid ip1 jp1).bind fun grid =>
    some grid
  else some grid

/-- The function `init_grid_from_string` (from the point after `srand(seed)`) with every
`+= 1` of its second loop checked. -/
def init_grid_from_string_checked (grid : grid_t) (rng : Rng) : Option (grid_t × Rng) :=
  let s := forLoop grid.width
    (fun i s => forLoop grid.height (fun j s => init_fill_cell i j s) s) (grid, rng)
  let g := forLoop grid.width
    (fun i g => forLoop grid.height (fun j g => g.bind (init_count_cell_checked i j)) g)
    (some s.1)
  g.map (fun g => (g, s.2))

/-- The checked statements `data[p] += 1` for the positions `p` of a list, in order. -/
def addAllChecked (g : grid_t) : List (Nat × Nat) → Option grid_t
  | [] => some g
  | p :: L => (add1_checked g p.1 p.2).bind (fun g => addAllChecked g L)

/-- The checked statements `data[p] -= 1` for the positions `p` of a list, in order. -/
def subAllChecked (g : grid_t) : List (Nat × Nat) → Option grid_t
  | [] => some g
  | p :: L => (sub1_checked g p.1 p.2).bind (fun g => subAllChecked g L)

/-- The state in which the commit scan is about to visit `(i,j)`. -/
def update_before (g : grid_t) (i j : Nat) : grid_t × Nat :=
  forLoop j (fun j s => update_cell i j s)
    (forLoop i (fun i s => forLoop g.height (fun j s => update_cell i j s) s) (g, 0))

/-- The state in which the second loop of `init_grid_from_string` is about to visit
`(i,j)`, started on `base`. -/
def init_count_before (base : grid_t) (i j : Nat) : grid_t :=
  forLoop j (fun j g => init_count_cell i j g)
    (forLoop i (fun i g => forLoop base.height (fun j g => init_count_cell i j g) g) base)

/-- A 3 x 3 grid that is not in a state the tick can produce: the middle cell is Born while
its neighbours already hold the sum 8. -/
def crowdedGrid : grid_t :=
  grid_of 3 3 (fun i j => if i = 1 ∧ j = 1 then BORN_ELEM else MAKE_SUM 8)

/-! ## SHA-256 (`sha256`)

Words are `uint32_t`: natural numbers below `2^32`, every addition and left shift reduced
modulo `2^32`. Bytes are natural numbers below 256. The message length is a natural number
(`size_t` does not wrap for a message that fits in memory). -/

/-- The macro `ROTR(x, n)` on a 32-bit word. -/
def ROTR (x n : Nat) : Nat := (x >>> n) ||| ((x <<< (32 - n)) % U32)
def SHR (x n : Nat) : Nat := x >>> n
def CH (x y z : Nat) : Nat := (x &&& y) ^^^ (NOT x &&& z)
def MAJ (x y z : Nat) : Nat := (x &&& y) ^^^ (x &&& z) ^^^ (y &&& z)
def SIG0 (x : Nat) : Nat := ROTR x 2 ^^^ ROTR x 13 ^^^ ROTR x 22
def SIG1 (x : Nat) : Nat := ROTR x 6 ^^^ ROTR x 11 ^^^ ROTR x 25
def sig0 (x : Nat) : Nat := ROTR x 7 ^^^ ROTR x 18 ^^^ SHR x 3
def sig1 (x : Nat) : Nat := ROTR x 17 ^^^ ROTR x 19 ^^^ SHR x 10

/-- The round constants: `K j` is the array element `K[j]`. -/
def K (j : Nat) : Nat :=
  match j with
  | 0 => 0x428a2f98 | 1 => 0x71374491 | 2 => 0xb5c0fbcf | 3 => 0xe9b5dba5
  | 4 => 0x3956c25b | 5 => 0x59f111f1 | 6 => 0x923f82a4 | 7 => 0xab1c5ed5
  | 8 => 0xd807aa98 | 9 => 0x12835b01 | 10 => 0x243185be | 11 => 0x550c7dc3
  | 12 => 0x72be5d74 | 13 => 0x80deb1fe | 14 => 0x9bdc06a7 | 15 => 0xc19bf174
  | 16 => 0xe49b69c1 | 17 => 0xefbe4786 | 18 => 0x0fc19dc6 | 19 => 0x240ca1cc
  | 20 => 0x2de92c6f | 21 => 0x4a7484aa | 22 => 0x5cb0a9dc | 23 => 0x76f988da
  | 24 => 0x983e5152 | 25 => 0xa831c66d | 26 => 0xb00327c8 | 27 => 0xbf597fc7
  | 28 => 0xc6e00bf3 | 29 => 0xd5a79147 | 30 => 0x06ca6351 | 31 => 0x14292967
  | 32 => 0x27b70a85 | 33 => 0x2e1b2138 | 34 => 0x4d2c6dfc | 35 => 0x53380d13
  | 36 => 0x650a7354 | 37 => 0x766a0abb | 38 => 0x81c2c92e | 39 => 0x92722c85
  | 40 => 0xa2bfe8a1 | 41 => 0xa81a664b | 42 => 0xc24b8b70 | 43 => 0xc76c51a3
  | 44 => 0xd192e819 | 45 => 0xd6990624 | 46 => 0xf40e3585 | 47 => 0x106aa070
  | 48 => 0x19a4c116 | 49 => 0x1e376c08 | 50 => 0x2748774c | 51 => 0x34b0bcb5
  | 52 => 0x391c0cb3 | 53 => 0x4ed8aa4a | 54 => 0x5b9cca4f | 55 => 0x682e6ff3
  | 56 => 0x748f82ee | 57 => 0x78a5636f | 58 => 0x84c87814 | 59 => 0x8cc70208
  | 60 => 0x90befffa | 61 => 0xa4506ceb | 62 => 0xbef9a3f7 | 63 => 0xc67178f2
  | _ => 0

/-- The working variables `a, b, c, d, e, f, g, h0` of a block. -/
structure Regs where
  a : Nat
  b : Nat
  c : Nat
  d : Nat
  e : Nat
  f : Nat
  g : Nat
  h0 : Nat

/-- One round of the compression loop: the body of `for (j = 0; j < 64; j++)`. -/
def sha_round (w : List Nat) (j : Nat) (r : Regs) : Regs :=
  let t1 := (r.h0 + SIG1 r.e + CH r.e r.f r.g + K j + w.getD j 0) % U32
  let t2 := (SIG0 r.a + MAJ r.a r.b r.c) % U32
  Regs.mk ((t1 + t2) % U32) r.a r.b r.c ((r.d + t1) % U32) r.e r.f r.g

/-- The body of the block loop at offset `i`: message schedule, 64 rounds, and the update
of the chaining value `h`. A byte shifted left by 24 is read as the 32-bit word it becomes
when stored into `w[j]`. -/
def sha_block (padded : List Nat) (i : Nat) (h : List Nat) : List Nat :=
  let block := (padded.drop i).take 64
  let w := List.replicate 64 0
  let w := forLoop 16 (fun j w => w.set j
    ((((block.getD (j * 4) 0 <<< 24) ||| (block.getD (j * 4 + 1) 0 <<< 16) |||
      (block.getD (j * 4 + 2) 0 <<< 8) ||| block.getD (j * 4 + 3) 0)) % U32)) w
  let w := forLoop 48 (fun k w =>
    let j := 16 + k
    w.set j ((sig1 (w.getD (j - 2) 0) + w.getD (j - 7) 0 + sig0 (w.getD (j - 15) 0) +
      w.getD (j - 16) 0) % U32)) w
  let r : Regs := Regs.mk (h.getD 0 0) (h.getD 1 0) (h.getD 2 0) (h.getD 3 0)
    (h.getD 4 0) (h.getD 5 0) (h.getD 6 0) (h.getD 7 0)
  let r := forLoop 64 (fun j r => sha_round w j r) r
  [(h.getD 0 0 + r.a) % U32, (h.getD 1 0 + r.b) % U32, (h.getD 2 0 + r.c) % U32,
   (h.getD 3 0 + r.d) % U32, (h.getD 4 0 + r.e) % U32, (h.getD 5 0 + r.f) % U32,
   (h.getD 6 0 + r.g) % U32, (h.getD 7 0 + r.h0) % U32]

/-- The length of the padded message, `((len + 8) / 64 + 1) * 64`. -/
def padded_len (len : Nat) : Nat := ((len + 8) / 64 + 1) * 64

/-- The padded message: `calloc`, `memcpy` of the message, the marker `0x80`, and the 8 bytes
of the bit length, most significant first. -/
def sha_pad (data : List Nat) : List Nat :=
  let len := data.length
  let bits := len * 8
  let padded := List.replicate (padded_len len) 0
  let padded := data ++ padded.drop len
  let padded := padded.set len 0x80
  forLoop 8 (fun i p => p.set (padded_len len - 8 + i) ((bits >>> (56 - i * 8)) &&& 0xff)) padded

/-- The function `sha256`: the 32 bytes written to `hash`. -/
def sha256 (data : List Nat) : List Nat :=
  let h : List Nat := [0x6a09e667, 0xbb67ae85, 0x3c6ef372, 0xa54ff53a,
                     0x510e527f, 0x9b05688c, 0x1f83d9ab, 0x5be0cd19]
  let padded := sha_pad data
  let h := forLoop (padded_len data.length / 64) (fun k h => sha_block padded (k * 64) h) h
  forLoop 8 (fun i hash =>
    let hash := hash.set (i * 4) ((h.getD i 0 >>> 24) &&& 0xff)
    let hash := hash.set (i * 4 + 1) ((h.getD i 0 >>> 16) &&& 0xff)
    let hash := hash.set (i * 4 + 2) ((h.getD i 0 >>> 8) &&& 0xff)
    hash.set (i * 4 + 3) (h.getD i 0 &&& 0xff)) (List.replicate 32 0)

/-! ## The editor's key loop (`run_tui`)

The part of `run_tui` that acts on the program state: the variables `grid`, `seed`,
`cursor_pos`, `cursor_x`, `cursor_y`, `running` and the state of `rand()`. The `draw_...`
calls and the step counter only feed the display and are left out. The library functions
`srand` and `isprint` are parameters of the model. -/

def GRID_WIDTH : Nat := 30

def GRID_HEIGHT : Nat := 20

/-- The key code `KEY_DOWN` of `ncurses.h` (octal 0402). -/
def KEY_DOWN : Int := 258

/-- The key code `KEY_UP` of `ncurses.h` (octal 0403). -/
def KEY_UP : Int := 259

/-- The key code `KEY_LEFT` of `ncurses.h` (octal 0404). -/
def KEY_LEFT : Int := 260

/-- The key code `KEY_RIGHT` of `ncurses.h` (octal 0405). -/
def KEY_RIGHT : Int := 261

/-- The key code `KEY_BACKSPACE` of `ncurses.h` (octal 0407). -/
def KEY_BACKSPACE : Int := 263

/-- The two library functions the key loop depends on: the generator `srand(seed)` leaves
behind, and the predicate `isprint`. -/
structure Env where
  srand : Nat → Rng
  isprint : Int → Bool

/-- The function `create_grid`: the cells are whatever `malloc` returned (`mem`). -/
def create_grid (width height : Nat) (mem : Nat → Nat → Nat) : grid_t :=
  grid_of width height mem

/-- The C string held in a `char` buffer: the bytes before the first NUL. -/
def c_string (buf : List Nat) : List Nat := buf.takeWhile (fun c => c != 0)

/-- The seed `init_grid_from_string` passes to `srand`: the first 4 bytes of the digest, as
a `uint32_t`. -/
def seed_value (str : List Nat) : Nat :=
  let hash := sha256 str
  ((hash.getD 0 0 <<< 24) ||| (hash.getD 1 0 <<< 16) ||| (hash.getD 2 0 <<< 8) |||
    hash.getD 3 0) % U32

/-- The whole call `init_grid_from_string(grid, seed)` on the buffer `seed`: digest,
`srand`, and the two loops. -/
def init_grid_from_buffer (env : Env) (grid : grid_t) (seed : List Nat) : grid_t × Rng :=
  init_grid_from_string grid (env.srand (seed_value (c_string seed)))

/-- The variables of `run_tui` that the key loop reads and writes. -/
structure Tui where
  grid : grid_t
  rng : Rng
  seed : List Nat
  cursor_pos : Int
  cursor_x : Int
  cursor_y : Int
  running : Bool

/-- The statements from the label `init:` on: the grid is initialised again from the
seed. -/
def tui_init (env : Env) (s : Tui) : Tui :=
  let r := init_grid_from_buffer env s.grid s.seed
  { s with grid := r.1, rng := r.2 }

/-- The body of `while (running)` for the key `ch` returned by `getch()`. -/
def key_event (env : Env) (ch : Int) (s : Tui) : Tui :=
  if ch = 9 then { s with running := false }
  else if ch = 10 then
    let t := tick (s.grid, s.rng)
    { s with grid := t.1, rng := t.2 }
  else if ch = KEY_UP then
    if s.cursor_y > 0 then { s with cursor_y := s.cursor_y - 1 } else s
  else if ch = KEY_DOWN then
    if s.cursor_y < (GRID_HEIGHT : Int) - 1 then { s with cursor_y := s.cursor_y + 1 } else s
  else if ch = KEY_LEFT then
    if s.cursor_x > 0 then { s with cursor_x := s.cursor_x - 1 } else s
  else if ch = KEY_RIGHT then
    if s.cursor_x < (GRID_WIDTH : Int) - 1 then { s with cursor_x := s.cursor_x + 1 } else s
  else if ch = 45 then tui_init env s
  else if ch = KEY_BACKSPACE then
    if s.cursor_pos > 0 then
      tui_init env
        { s with cursor_pos := s.cursor_pos - 1
                 seed := s.seed.set (s.cursor_pos - 1).toNat 0 }
    else s
  else if ch = 43 then
    { s with grid := toggle_cell s.grid s.cursor_x.toNat s.cursor_y.toNat }
  else if s.cursor_pos < 255 ∧ env.isprint ch = true then
    tui_init env
      { s with cursor_pos := s.cursor_pos + 1
               seed := (s.seed.set s.cursor_pos.toNat (ch % 256).toNat).set
                 (s.cursor_pos + 1).toNat 0 }
  else s

/-- The loop `while (running)` fed with the keys `getch()` returns, in order. -/
def run_keys (env : Env) : List Int → Tui → Tui
  | [], s => s
  | ch :: rest, s => if s.running = true then run_keys env rest (key_event env ch s) else s

/-- The state of `run_tui` when it enters the key loop: the grid created and initialised
from the empty seed, the cursor at `(0,0)`. -/
def tui_start (env : Env) (mem : Nat → Nat → Nat) : Tui :=
  let seed := List.replicate 256 0
  let r := init_grid_from_buffer env (create_grid GRID_WIDTH GRID_HEIGHT mem) seed
  { grid := r.1
    rng := r.2
    seed := seed
    cursor_pos := (c_string seed).length
    cursor_x := 0
    cursor_y := 0
    running := true }

/-- The arguments `(grid, cursor_x, cursor_y)` of every call of `toggle_cell` the key loop
makes, in order. -/
def toggle_calls (env : Env) : List Int → Tui → List (grid_t × Int × Int)
  | [], _ => []
  | ch :: rest, s =>
    if s.running = true then
      (if ch = 43 then [(s.grid, s.cursor_x, s.cursor_y)] else []) ++
        toggle_calls env rest (key_event env ch s)
    else []

/-- What the key loop relies on: the cursor is a cell of the 30 x 20 grid. -/
def CursorInv (s : Tui) : Prop :=
  s.grid.width = GRID_WIDTH ∧ s.grid.height = GRID_HEIGHT ∧
  0 ≤ s.cursor_x ∧ s.cursor_x < (GRID_WIDTH : Int) ∧
  0 ≤ s.cursor_y ∧ s.cursor_y < (GRID_HEIGHT : Int)

/-- The library as in the C locale, with a simple stream of draws per seed. -/
def plainEnv : Env :=
  { srand := fun n => { draws := fun k => n + k, pos := 0 }
    isprint := fun ch => decide (32 ≤ ch ∧ ch ≤ 126) }

/-! # Part II: theorems -/

/-! ## Bit masks as arithmetic -/

theorem and_mask (x n k : Nat) : x &&& ((2 ^ n - 1) <<< k) = (x >>> k % 2 ^ n) <<< k := by
  apply Nat.eq_of_testBit_eq
  intro i
  simp only [Nat.testBit_and, Nat.testBit_shiftLeft, Nat.testBit_two_pow_sub_one,
    Nat.testBit_mod_two_pow, Nat.testBit_shiftRight]
  by_cases h : k ≤ i
  · simp [h, Nat.add_sub_cancel' h, Bool.and_comm]
  · simp [h]

theorem or_shift (t r k : Nat) (hr : r < 2 ^ k) : (t * 2 ^ k) ||| r = t * 2 ^ k + r := by
  rw [Nat.mul_comm]
  exact (Nat.mul_add_lt_is_or hr t).symm

theorem ELEM_TAG_eq (e : Nat) : ELEM_TAG e = e / 65536 % 256 * 65536 := by
  have := and_mask e 8 16
  simpa [ELEM_TAG, TAG_MASK, Nat.shiftRight_eq_div_pow, Nat.shiftLeft_eq] using this

theorem ELEM_GENC_eq (e : Nat) : ELEM_GENC e = e / 256 % 256 * 256 := by
  have := and_mask e 8 8
  simpa [ELEM_GENC, GENC_MASK, Nat.shiftRight_eq_div_pow, Nat.shiftLeft_eq] using this

theorem ELEM_SUM_eq (e : Nat) : ELEM_SUM e = e % 256 := by
  have := and_mask e 8 0
  simpa [ELEM_SUM, SUM_MASK, Nat.shiftRight_eq_div_pow, Nat.shiftLeft_eq] using this

theorem ELEM_NO_TAG_eq (e : Nat) : ELEM_NO_TAG e = e % 65536 := by
  have := and_mask e 16 0
  have hm : GENC_MASK ||| SUM_MASK = (2 ^ 16 - 1) <<< 0 := by decide
  rw [ELEM_NO_TAG, hm, this]
  simp [Nat.shiftRight_eq_div_pow, Nat.shiftLeft_eq]

theorem and_not_tag (e : Nat) :
    e &&& NOT TAG_MASK = e / 16777216 % 256 * 16777216 + e % 65536 := by
  have h1 := and_mask e 8 24
  have h2 := and_mask e 16 0
  have hm : NOT TAG_MASK = ((2 ^ 8 - 1) <<< 24) ||| ((2 ^ 16 - 1) <<< 0) := by decide
  rw [hm, Nat.and_or_distrib_left, h1, h2]
  simp only [Nat.shiftRight_eq_div_pow, Nat.shiftLeft_eq]
  rw [or_shift (e / 2 ^ 24 % 2 ^ 8) (e / 2 ^ 0 % 2 ^ 16 * 2 ^ 0) 24 (by omega)]
  norm_num

theorem and_not_sum (e : Nat) : e &&& NOT SUM_MASK = e / 256 % 16777216 * 256 := by
  have := and_mask e 24 8
  have hm : NOT SUM_MASK = (2 ^ 24 - 1) <<< 8 := by decide
  rw [hm, this]
  simp [Nat.shiftRight_eq_div_pow, Nat.shiftLeft_eq]

theorem tag_or (t r : Nat) (hr : r < 65536) : MAKE_TAG t ||| r = t * 65536 + r := by
  have := or_shift t r 16 (by simpa using hr)
  simpa [MAKE_TAG, Nat.shiftLeft_eq] using this

theorem NO_ELEM_eq : NO_ELEM = 0 := by decide

theorem BORN_ELEM_eq : BORN_ELEM = 65536 := by decide

theorem ELEM_eq : ELEM = 131072 := by decide

theorem DEAD_ELEM_eq : DEAD_ELEM = 196608 := by decide

theorem MAKE_SUM_eq (s : Nat) : MAKE_SUM s = s := by simp [MAKE_SUM]

theorem MAKE_GENC_eq (r : Nat) : MAKE_GENC r = r * 256 := by simp [MAKE_GENC, Nat.shiftLeft_eq]

theorem born_or (r : Nat) (hr : r < 65536) : BORN_ELEM ||| r = 65536 + r := by
  have := tag_or 1 r hr
  simpa [BORN_ELEM] using this

theorem elem_or (r : Nat) (hr : r < 65536) : ELEM ||| r = 131072 + r := by
  have := tag_or 2 r hr
  simpa [ELEM] using this

theorem dead_or (r : Nat) (hr : r < 65536) : DEAD_ELEM ||| r = 196608 + r := by
  have := tag_or 3 r hr
  simpa [DEAD_ELEM] using this

theorem no_or (r : Nat) : NO_ELEM ||| r = r := by
  simp [NO_ELEM, MAKE_TAG]

theorem genc_or_sum (r s : Nat) (hs : s < 256) : MAKE_GENC r ||| s = r * 256 + s := by
  have := or_shift r s 8 (by simpa using hs)
  simpa [MAKE_GENC, Nat.shiftLeft_eq] using this

/-! ## Loops -/

theorem forLoop_succ {σ : Type} (n : Nat) (body : Nat → σ → σ) (s : σ) :
    forLoop (n + 1) body s = body n (forLoop n body s) := rfl

/-- Invariant rule for a nested scan `for i < w, for j < h`: `P i j` holds before the
body runs at `(i,j)`. -/
theorem scan_inv {σ : Type} (w h : Nat) (body : Nat → Nat → σ → σ) (P : Nat → Nat → σ → Prop)
    (s0 : σ) (h0 : P 0 0 s0)
    (hstep : ∀ i j s, i < w → j < h → P i j s → P i (j + 1) (body i j s))
    (hrow : ∀ i s, i < w → P i h s → P (i + 1) 0 s) :
    P w 0 (forLoop w (fun i s => forLoop h (fun j s => body i j s) s) s0) := by
  have inner : ∀ i, i < w → ∀ s, P i 0 s → ∀ j, j ≤ h →
      P i j (forLoop j (fun j s => body i j s) s) := by
    intro i hi s hs j
    induction j with
    | zero => intro _; exact hs
    | succ j ih =>
      intro hj
      exact hstep i j _ hi (by omega) (ih (by omega))
  have outer : ∀ i, i ≤ w →
      P i 0 (forLoop i (fun i s => forLoop h (fun j s => body i j s) s) s0) := by
    intro i
    induction i with
    | zero => intro _; exact h0
    | succ i ih =>
      intro hi
      exact hrow i _ (by omega) (inner i (by omega) _ (ih (by omega)) h (Nat.le_refl h))
  exact outer w (Nat.le_refl w)

theorem visited_step (i j : Nat) (q : Nat × Nat) :
    visited i (j + 1) q = (visited i j q || q == (i, j)) := by
  rcases q with ⟨a, b⟩
  simp only [visited, Prod.mk.injEq, beq_iff_eq, Bool.decide_or, Bool.decide_and,
    Bool.decide_eq_true]
  rw [Bool.eq_iff_iff]
  simp only [Bool.or_eq_true, Bool.and_eq_true, decide_eq_true_eq, beq_iff_eq, Prod.mk.injEq]
  omega

theorem visited_row (i h : Nat) (q : Nat × Nat) (hq : q.2 < h) :
    visited i h q = visited (i + 1) 0 q := by
  rcases q with ⟨a, b⟩
  simp only [visited]
  rw [Bool.eq_iff_iff]
  simp only [decide_eq_true_eq]
  simp only at hq
  omega

theorem visited_zero (q : Nat × Nat) : visited 0 0 q = false := by
  simp [visited]

theorem visited_all (w : Nat) (q : Nat × Nat) (hq : q.1 < w) : visited w 0 q = true := by
  simp [visited, hq]

theorem visited_self (i j : Nat) : visited i j (i, j) = false := by
  simp [visited]

/-! ## Repeated increments and decrements -/

theorem set_cell_data (g : grid_t) (i j v a b : Nat) :
    (set_cell g i j v).data a b = if a = i ∧ b = j then v % U32 else g.data a b := rfl

theorem addAll_dims (g : grid_t) (L : List (Nat × Nat)) :
    (addAll g L).width = g.width ∧ (addAll g L).height = g.height := by
  induction L generalizing g with
  | nil => exact ⟨rfl, rfl⟩
  | cons p L ih =>
    have := ih (add1 g p.1 p.2)
    simpa [addAll, add1, set_cell] using this

theorem subAll_dims (g : grid_t) (L : List (Nat × Nat)) :
    (subAll g L).width = g.width ∧ (subAll g L).height = g.height := by
  induction L generalizing g with
  | nil => exact ⟨rfl, rfl⟩
  | cons p L ih =>
    have := ih (sub1 g p.1 p.2)
    simpa [subAll, sub1, set_cell] using this

theorem addAll_data (g : grid_t) (L : List (Nat × Nat)) (a b : Nat) :
    (addAll g L).data a b = (g.data a b + L.count (a, b)) % U32 := by
  induction L generalizing g with
  | nil =>
    simp only [addAll, List.foldl_nil, List.count_nil, Nat.add_zero]
    exact (Nat.mod_eq_of_lt (g.bounded a b)).symm
  | cons p L ih =>
    have h := ih (add1 g p.1 p.2)
    simp only [addAll, List.foldl_cons] at h ⊢
    rw [h, List.count_cons]
    rcases p with ⟨x, y⟩
    simp only [add1, set_cell_data, beq_iff_eq, Prod.mk.injEq, U32]
    have hb := g.bounded a b
    simp only [U32] at hb
    by_cases hxy : a = x ∧ b = y
    · obtain ⟨rfl, rfl⟩ := hxy
      simp only [and_self, if_true]
      omega
    · have hxy2 : ¬ (x = a ∧ y = b) := fun h => hxy ⟨h.1.symm, h.2.symm⟩
      simp only [hxy, hxy2, if_false, Nat.add_zero]

theorem subAll_data (g : grid_t) (L : List (Nat × Nat)) (a b : Nat) :
    (subAll g L).data a b = (g.data a b + L.count (a, b) * (U32 - 1)) % U32 := by
  induction L generalizing g with
  | nil =>
    simp only [subAll, List.foldl_nil, List.count_nil, Nat.zero_mul, Nat.add_zero]
    exact (Nat.mod_eq_of_lt (g.bounded a b)).symm
  | cons p L ih =>
    have h := ih (sub1 g p.1 p.2)
    simp only [subAll, List.foldl_cons] at h ⊢
    rw [h, List.count_cons]
    rcases p with ⟨x, y⟩
    simp only [sub1, set_cell_data, beq_iff_eq, Prod.mk.injEq, U32]
    have hb := g.bounded a b
    simp only [U32] at hb
    by_cases hxy : a = x ∧ b = y
    · obtain ⟨rfl, rfl⟩ := hxy
      simp only [and_self, if_true]
      omega
    · have hxy2 : ¬ (x = a ∧ y = b) := fun h => hxy ⟨h.1.symm, h.2.symm⟩
      simp only [hxy, hxy2, if_false, Nat.add_zero]

/-! ## Facts about neighbourhoods -/

theorem prevIdx_lt (n i : Nat) (hi : i < n) : prevIdx n i < n := by
  unfold prevIdx; split <;> omega

theorem nextIdx_lt (n i : Nat) (hi : i < n) : nextIdx n i < n := by
  unfold nextIdx; split <;> omega

theorem nbrs_range (w h i j : Nat) (hi : i < w) (hj : j < h) (q : Nat × Nat)
    (hq : q ∈ nbrs w h i j) : q.1 < w ∧ q.2 < h := by
  have h1 := prevIdx_lt w i hi
  have h2 := nextIdx_lt w i hi
  have h3 := prevIdx_lt h j hj
  have h4 := nextIdx_lt h j hj
  simp only [nbrs, List.mem_cons, List.mem_singleton, List.not_mem_nil, or_false] at hq
  rcases hq with rfl | rfl | rfl | rfl | rfl | rfl | rfl | rfl <;> exact ⟨by assumption, by assumption⟩

theorem nbrs_length (w h i j : Nat) : (nbrs w h i j).length = 8 := rfl

theorem count_pair_cons (x y a b : Nat) (L : List (Nat × Nat)) :
    ((x, y) :: L).count (a, b) = L.count (a, b) + ind x a * ind y b := by
  rw [List.count_cons]
  simp only [beq_iff_eq, Prod.mk.injEq, ind]
  by_cases h1 : x = a <;> by_cases h2 : y = b <;> simp [h1, h2]

theorem nbrs_count (w h i j a b : Nat) :
    (nbrs w h i j).count (a, b) =
      (ind (prevIdx w i) a + ind i a + ind (nextIdx w i) a) *
        (ind (prevIdx h j) b + ind j b + ind (nextIdx h j) b) - ind i a * ind j b := by
  simp only [nbrs, count_pair_cons, List.count_nil]
  have e : (ind (prevIdx w i) a + ind i a + ind (nextIdx w i) a) *
        (ind (prevIdx h j) b + ind j b + ind (nextIdx h j) b) =
      (0 + ind (nextIdx w i) a * ind (nextIdx h j) b + ind (nextIdx w i) a * ind j b +
        ind (nextIdx w i) a * ind (prevIdx h j) b + ind i a * ind (nextIdx h j) b +
        ind i a * ind (prevIdx h j) b + ind (prevIdx w i) a * ind (nextIdx h j) b +
        ind (prevIdx w i) a * ind j b + ind (prevIdx w i) a * ind (prevIdx h j) b) +
      ind i a * ind j b := by ring
  rw [e, Nat.add_sub_cancel]

theorem ind_prev_next (n i a : Nat) (hi : i < n) (ha : a < n) :
    ind (prevIdx n i) a = ind (nextIdx n a) i := by
  unfold ind prevIdx nextIdx
  split_ifs <;> omega

theorem ind_next_prev (n i a : Nat) (hi : i < n) (ha : a < n) :
    ind (nextIdx n i) a = ind (prevIdx n a) i := by
  unfold ind prevIdx nextIdx
  split_ifs <;> omega

theorem ind_comm (i a : Nat) : ind i a = ind a i := by
  unfold ind
  split_ifs <;> omega

/-- Being a neighbour is symmetric, with multiplicity, on every torus. -/
theorem nbrs_count_symm (w h i j a b : Nat) (hi : i < w) (hj : j < h) (ha : a < w)
    (hb : b < h) : (nbrs w h i j).count (a, b) = (nbrs w h a b).count (i, j) := by
  rw [nbrs_count, nbrs_count, ind_prev_next w i a hi ha, ind_next_prev w i a hi ha,
    ind_prev_next h j b hj hb, ind_next_prev h j b hj hb, ind_comm i a, ind_comm j b]
  congr 1
  ring

/-- On a torus with at least two rows and two columns no cell is its own neighbour. -/
theorem nbrs_not_self (w h i j : Nat) (hw : 2 ≤ w) (hh : 2 ≤ h) (hi : i < w) (hj : j < h) :
    (i, j) ∉ nbrs w h i j := by
  simp only [nbrs, List.mem_cons, List.mem_singleton, List.not_mem_nil, or_false,
    Prod.mk.injEq, not_or, not_and]
  unfold prevIdx nextIdx
  refine ⟨?_, ?_, ?_, ?_, ?_, ?_, ?_, ?_⟩ <;> split_ifs <;> omega

/-! ## Counting along a scan -/

theorem countP_visit {α : Type} [BEq α] [LawfulBEq α] (L : List α) (v v2 B : α → Bool) (p : α)
    (hv : ∀ q, v2 q = (v q || q == p)) (hp : v p = false) :
    L.countP (fun q => v2 q && B q) =
      L.countP (fun q => v q && B q) + (if B p = true then L.count p else 0) := by
  induction L with
  | nil => simp
  | cons x L ih =>
    rw [List.countP_cons, List.countP_cons, List.count_cons, ih, hv x]
    by_cases hx : x = p
    · subst hx
      by_cases hB : B x = true
      · simp [hp, hB]; omega
      · simp [hp, hB]
    · have : (x == p) = false := by simpa using hx
      by_cases hB : B p = true
      · simp [this, hB]; omega
      · simp [this, hB]

theorem countP_and_le {α : Type} (L : List α) (v B : α → Bool) :
    L.countP (fun q => v q && B q) ≤ L.countP B := by
  induction L with
  | nil => simp
  | cons x L ih =>
    rw [List.countP_cons, List.countP_cons]
    by_cases h1 : v x = true <;> by_cases h2 : B x = true <;> simp [h1, h2] <;> omega

theorem countP_three {α : Type} (L : List α) (t : α → Nat) (x y z : Nat) (hxy : x ≠ y)
    (hxz : x ≠ z) (hyz : y ≠ z) :
    L.countP (fun q => t q == x) + L.countP (fun q => t q == y) +
      L.countP (fun q => t q == z) ≤ L.length := by
  induction L with
  | nil => simp
  | cons a L ih =>
    simp only [List.countP_cons, List.length_cons, beq_iff_eq]
    split_ifs <;> omega

/-! ## The commit scan, cell by cell -/

theorem nbrs_split (w h i j : Nat) : nbrs w h i j = nbrsA w h i j ++ nbrsB w h i j := rfl

theorem update_cell_born (s : grid_t × Nat) (i j : Nat)
    (htag : ELEM_TAG (s.1.data i j) = BORN_ELEM) :
    update_cell i j s =
      (addAll (set_cell (addAll s.1 (nbrsA s.1.width s.1.height i j)) i j
        (ELEM ||| ELEM_NO_TAG (s.1.data i j))) (nbrsB s.1.width s.1.height i j), 1) := by
  unfold update_cell
  simp only [htag, if_true]
  rfl

theorem update_cell_dead (s : grid_t × Nat) (i j : Nat)
    (htag : ELEM_TAG (s.1.data i j) = DEAD_ELEM) :
    update_cell i j s =
      (subAll (set_cell (subAll s.1 (nbrsA s.1.width s.1.height i j)) i j
        (NO_ELEM ||| ELEM_NO_TAG (s.1.data i j))) (nbrsB s.1.width s.1.height i j), 1) := by
  have hne : DEAD_ELEM ≠ BORN_ELEM := by decide
  unfold update_cell
  simp only [htag, hne, if_true, if_false]
  rfl

theorem update_cell_other (s : grid_t × Nat) (i j : Nat)
    (h1 : ELEM_TAG (s.1.data i j) ≠ BORN_ELEM) (h2 : ELEM_TAG (s.1.data i j) ≠ DEAD_ELEM) :
    update_cell i j s = s := by
  unfold update_cell
  simp only [h1, h2, if_false]

theorem commitCell_eq (c : Nat) :
    commitCell c = if c / 65536 % 256 = 1 then 131072 + c % 65536
      else if c / 65536 % 256 = 3 then c % 65536 else c := by
  unfold commitCell
  rw [ELEM_TAG_eq, ELEM_NO_TAG_eq, BORN_ELEM_eq, DEAD_ELEM_eq, no_or,
    elem_or _ (Nat.mod_lt _ (by decide))]
  have e1 : (c / 65536 % 256 * 65536 = 65536) ↔ (c / 65536 % 256 = 1) := by omega
  have e3 : (c / 65536 % 256 * 65536 = 196608) ↔ (c / 65536 % 256 = 3) := by omega
  simp only [e1, e3]

theorem countSeen_le (g : grid_t) (t i j a b : Nat) :
    countSeen g t i j a b ≤ countTag g t a b :=
  countP_and_le _ _ _

theorem countSeen_zero (g : grid_t) (t a b : Nat) : countSeen g t 0 0 a b = 0 := by
  unfold countSeen
  simp [visited_zero]

theorem countSeen_all (g : grid_t) (t a b : Nat) (ha : a < g.width) (hb : b < g.height) :
    countSeen g t g.width 0 a b = countTag g t a b := by
  unfold countSeen countTag
  apply List.countP_congr
  intro q hq
  have := nbrs_range _ _ _ _ ha hb q hq
  simp [visited_all g.width q this.1]

theorem countSeen_row (g : grid_t) (t i a b : Nat) (ha : a < g.width) (hb : b < g.height) :
    countSeen g t i g.height a b = countSeen g t (i + 1) 0 a b := by
  unfold countSeen
  apply List.countP_congr
  intro q hq
  have := nbrs_range _ _ _ _ ha hb q hq
  rw [visited_row i g.height q this.2]

theorem countSeen_step (g : grid_t) (t i j a b : Nat) :
    countSeen g t i (j + 1) a b = countSeen g t i j a b +
      (if ELEM_TAG (g.data i j) = t then (nbrs g.width g.height a b).count (i, j) else 0) := by
  unfold countSeen
  rw [countP_visit _ (visited i j) (visited i (j + 1)) _ (i, j) (visited_step i j)
    (visited_self i j)]
  simp only [beq_iff_eq]

theorem countTag_three (g : grid_t) (a b : Nat) :
    countTag g ELEM a b + countTag g BORN_ELEM a b + countTag g DEAD_ELEM a b ≤ 8 := by
  have := countP_three (nbrs g.width g.height a b) (fun q => ELEM_TAG (g.data q.1 q.2))
    ELEM BORN_ELEM DEAD_ELEM (by decide) (by decide) (by decide)
  simpa [countTag, nbrs_length] using this

theorem update_cell_born_data (s : grid_t × Nat) (i j : Nat) (hw : 2 ≤ s.1.width)
    (hh : 2 ≤ s.1.height) (hi : i < s.1.width) (hj : j < s.1.height)
    (htag : ELEM_TAG (s.1.data i j) = BORN_ELEM) (a b : Nat) :
    (update_cell i j s).1.data a b =
      if a = i ∧ b = j then (ELEM ||| ELEM_NO_TAG (s.1.data i j)) % U32
      else (s.1.data a b + (nbrs s.1.width s.1.height i j).count (a, b)) % U32 := by
  rw [update_cell_born s i j htag]
  simp only
  rw [addAll_data, set_cell_data]
  have hself := nbrs_not_self _ _ i j hw hh hi hj
  rw [nbrs_split, List.mem_append, not_or] at hself
  by_cases h : a = i ∧ b = j
  · obtain ⟨rfl, rfl⟩ := h
    simp only [and_self, if_true, List.count_eq_zero_of_not_mem hself.2, Nat.add_zero,
      Nat.mod_mod]
  · simp only [h, if_false]
    rw [addAll_data, nbrs_split, List.count_append]
    simp only [U32]
    omega

theorem update_cell_dead_data (s : grid_t × Nat) (i j : Nat) (hw : 2 ≤ s.1.width)
    (hh : 2 ≤ s.1.height) (hi : i < s.1.width) (hj : j < s.1.height)
    (htag : ELEM_TAG (s.1.data i j) = DEAD_ELEM) (a b : Nat) :
    (update_cell i j s).1.data a b =
      if a = i ∧ b = j then (NO_ELEM ||| ELEM_NO_TAG (s.1.data i j)) % U32
      else (s.1.data a b + (nbrs s.1.width s.1.height i j).count (a, b) * (U32 - 1)) % U32 := by
  rw [update_cell_dead s i j htag]
  simp only
  rw [subAll_data, set_cell_data]
  have hself := nbrs_not_self _ _ i j hw hh hi hj
  rw [nbrs_split, List.mem_append, not_or] at hself
  by_cases h : a = i ∧ b = j
  · obtain ⟨rfl, rfl⟩ := h
    simp only [and_self, if_true, List.count_eq_zero_of_not_mem hself.2, Nat.zero_mul,
      Nat.add_zero, Nat.mod_mod]
  · simp only [h, if_false]
    rw [subAll_data, nbrs_split, List.count_append]
    simp only [U32]
    omega

theorem update_cell_dims (s : grid_t × Nat) (i j : Nat) :
    (update_cell i j s).1.width = s.1.width ∧ (update_cell i j s).1.height = s.1.height := by
  by_cases h1 : ELEM_TAG (s.1.data i j) = BORN_ELEM
  · rw [update_cell_born s i j h1]
    simp only
    rw [(addAll_dims _ _).1, (addAll_dims _ _).2]
    simp only [set_cell]
    rw [(addAll_dims _ _).1, (addAll_dims _ _).2]
    exact ⟨rfl, rfl⟩
  · by_cases h2 : ELEM_TAG (s.1.data i j) = DEAD_ELEM
    · rw [update_cell_dead s i j h2]
      simp only
      rw [(subAll_dims _ _).1, (subAll_dims _ _).2]
      simp only [set_cell]
      rw [(subAll_dims _ _).1, (subAll_dims _ _).2]
      exact ⟨rfl, rfl⟩
    · rw [update_cell_other s i j h1 h2]
      exact ⟨rfl, rfl⟩

/-! ## The commit scan as a whole -/

theorem commitBase_step (g1 : grid_t) (i j a b : Nat) :
    commitBase g1 i (j + 1) a b =
      if a = i ∧ b = j then commitCell (g1.data a b) else commitBase g1 i j a b := by
  unfold commitBase
  rw [visited_step]
  by_cases h : a = i ∧ b = j
  · simp [h]
  · have : ((a, b) == (i, j)) = false := by simpa using h
    simp [h, this]

theorem commit_step (g1 : grid_t) (hw : 2 ≤ g1.width) (hh : 2 ≤ g1.height) (hmid : MidTick g1)
    (i j : Nat) (s : grid_t × Nat) (hi : i < g1.width) (hj : j < g1.height)
    (hP : CommitInv g1 i j s) : CommitInv g1 i (j + 1) (update_cell i j s) := by
  obtain ⟨hW, hH, hF⟩ := hP
  refine ⟨by rw [(update_cell_dims s i j).1, hW], by rw [(update_cell_dims s i j).2, hH], ?_⟩
  -- the cell being visited still carries the tag it had in `g1`
  have Fij := hF i hi j hj
  have hsij := hmid i hi j hj
  have h3ij := countTag_three g1 i j
  have hDij := countSeen_le g1 DEAD_ELEM i j i j
  have hBij := countSeen_le g1 BORN_ELEM i j i j
  have hbij : commitBase g1 i j i j = g1.data i j := by simp [commitBase, visited_self]
  rw [hbij] at Fij
  rw [ELEM_SUM_eq] at hsij
  have hcur : s.1.data i j / 65536 = g1.data i j / 65536 ∧
      s.1.data i j % 65536 + countSeen g1 DEAD_ELEM i j i j =
        g1.data i j % 65536 + countSeen g1 BORN_ELEM i j i j := by omega
  have htag : ELEM_TAG (s.1.data i j) = ELEM_TAG (g1.data i j) := by
    rw [ELEM_TAG_eq, ELEM_TAG_eq, hcur.1]
  intro a ha b hb
  have F := hF a ha b hb
  have hs := hmid a ha b hb
  rw [ELEM_SUM_eq] at hs
  have h3 := countTag_three g1 a b
  have hD := countSeen_le g1 DEAD_ELEM i (j + 1) a b
  have hB := countSeen_le g1 BORN_ELEM i (j + 1) a b
  have eD := countSeen_step g1 DEAD_ELEM i j a b
  have eB := countSeen_step g1 BORN_ELEM i j a b
  have hsym := nbrs_count_symm g1.width g1.height i j a b hi hj ha hb
  have hbnd := s.1.bounded a b
  have hbase : commitBase g1 i j a b % 256 = g1.data a b % 256 ∧
      commitBase g1 i j a b < U32 := by
    unfold commitBase
    have := g1.bounded a b
    rw [commitCell_eq]
    simp only [U32] at this ⊢
    split_ifs <;> omega
  rw [commitBase_step, eD, eB]
  simp only [U32] at hbnd hbase
  by_cases h1 : ELEM_TAG (g1.data i j) = BORN_ELEM
  · have hne : BORN_ELEM ≠ DEAD_ELEM := by decide
    rw [update_cell_born_data s i j (by omega) (by omega) (by omega) (by omega)
      (by rw [htag, h1]), hW, hH]
    simp only [h1, hne, if_true, if_false, Nat.add_zero] at eD eB ⊢
    by_cases hc : a = i ∧ b = j
    · obtain ⟨rfl, rfl⟩ := hc
      have hz : (nbrs g1.width g1.height a b).count (a, b) = 0 :=
        List.count_eq_zero_of_not_mem (nbrs_not_self _ _ a b hw hh hi hj)
      rw [ELEM_TAG_eq, BORN_ELEM_eq] at h1
      simp only [and_self, if_true, hz, Nat.add_zero]
      rw [ELEM_NO_TAG_eq, elem_or _ (Nat.mod_lt _ (by decide)), commitCell_eq]
      have ht : g1.data a b / 65536 % 256 = 1 := by omega
      simp only [ht, if_true, U32]
      omega
    · simp only [hc, if_false, U32]
      omega
  · by_cases h2 : ELEM_TAG (g1.data i j) = DEAD_ELEM
    · have hne : DEAD_ELEM ≠ BORN_ELEM := by decide
      rw [update_cell_dead_data s i j (by omega) (by omega) (by omega) (by omega)
        (by rw [htag, h2]), hW, hH]
      simp only [h2, hne, if_true, if_false, Nat.add_zero] at eD eB ⊢
      by_cases hc : a = i ∧ b = j
      · obtain ⟨rfl, rfl⟩ := hc
        have hz : (nbrs g1.width g1.height a b).count (a, b) = 0 :=
          List.count_eq_zero_of_not_mem (nbrs_not_self _ _ a b hw hh hi hj)
        rw [ELEM_TAG_eq, DEAD_ELEM_eq] at h2
        simp only [and_self, if_true, hz, Nat.add_zero]
        have ht : g1.data a b / 65536 % 256 = 3 := by omega
        rw [ELEM_NO_TAG_eq, no_or, commitCell_eq, if_neg (by omega), if_pos ht]
        simp only [U32]
        omega
      · simp only [hc, if_false, U32]
        omega
    · rw [update_cell_other s i j (by rw [htag]; exact h1) (by rw [htag]; exact h2)]
      simp only [h1, h2, if_false, Nat.add_zero]
      by_cases hc : a = i ∧ b = j
      · obtain ⟨rfl, rfl⟩ := hc
        simp only [and_self, if_true]
        rw [ELEM_TAG_eq, BORN_ELEM_eq] at h1
        rw [ELEM_TAG_eq, DEAD_ELEM_eq] at h2
        rw [commitCell_eq]
        have ht1 : ¬ g1.data a b / 65536 % 256 = 1 := by omega
        have ht3 : ¬ g1.data a b / 65536 % 256 = 3 := by omega
        simp only [ht1, ht3, if_false]
        omega
      · simp only [hc, if_false]
        exact F

theorem commit_scan (g1 : grid_t) (hw : 2 ≤ g1.width) (hh : 2 ≤ g1.height)
    (hmid : MidTick g1) : CommitInv g1 g1.width 0 (update g1) := by
  unfold update
  apply scan_inv g1.width g1.height update_cell (CommitInv g1)
  · refine ⟨rfl, rfl, ?_⟩
    intro a _ b _
    simp [countSeen_zero, commitBase, visited_zero]
  · intro i j s hi hj hP
    exact commit_step g1 hw hh hmid i j s hi hj hP
  · intro i s _ hP
    obtain ⟨hW, hH, hF⟩ := hP
    refine ⟨hW, hH, ?_⟩
    intro a ha b hb
    have := hF a ha b hb
    rw [countSeen_row g1 _ i a b ha hb, countSeen_row g1 _ i a b ha hb] at this
    unfold commitBase at this ⊢
    rw [← visited_row i g1.height (a, b) hb]
    exact this

/-- Effect of the commit scan on a mid-tick grid of at least 2 x 2 cells: every cell holds
what its own visit stores, plus one for each Born neighbour position and minus one for each
Dying neighbour position. -/
theorem update_data (g1 : grid_t) (hw : 2 ≤ g1.width) (hh : 2 ≤ g1.height)
    (hmid : MidTick g1) :
    (update g1).1.width = g1.width ∧ (update g1).1.height = g1.height ∧
    ∀ a, a < g1.width → ∀ b, b < g1.height →
      (update g1).1.data a b + countTag g1 DEAD_ELEM a b =
        commitCell (g1.data a b) + countTag g1 BORN_ELEM a b := by
  obtain ⟨hW, hH, hF⟩ := commit_scan g1 hw hh hmid
  refine ⟨hW, hH, ?_⟩
  intro a ha b hb
  have := hF a ha b hb
  rw [countSeen_all g1 _ a b ha hb, countSeen_all g1 _ a b ha hb] at this
  unfold commitBase at this
  rw [visited_all g1.width (a, b) ha] at this
  simpa using this

/-- The fields of a cell after the commit scan, in arithmetic form. -/
theorem update_fields (g1 : grid_t) (hw : 2 ≤ g1.width) (hh : 2 ≤ g1.height)
    (hmid : MidTick g1) (a b : Nat) (ha : a < g1.width) (hb : b < g1.height) :
    (update g1).1.data a b / 256 = commitCell (g1.data a b) / 256 ∧
    (update g1).1.data a b % 256 + countTag g1 DEAD_ELEM a b =
      g1.data a b % 256 + countTag g1 BORN_ELEM a b ∧
    commitCell (g1.data a b) % 65536 = g1.data a b % 65536 := by
  have F := (update_data g1 hw hh hmid).2.2 a ha b hb
  have hs := hmid a ha b hb
  rw [ELEM_SUM_eq] at hs
  have h3 := countTag_three g1 a b
  have hc : commitCell (g1.data a b) % 65536 = g1.data a b % 65536 := by
    rw [commitCell_eq]
    split_ifs <;> omega
  refine ⟨?_, ?_, hc⟩ <;> omega

/-! ## Trait inheritance -/

theorem choose_genc_bounds (e rp : Nat) (rng : Rng) :
    rp ≤ (choose_genc e rp rng).1 ∧ (choose_genc e rp rng).1 ≤ rp + 1 := by
  unfold choose_genc
  simp only
  split_ifs <;> simp

theorem baby_genc_eq (g : grid_t) (i j : Nat) (rng : Rng) :
    baby_genc g i j rng =
      (MAKE_GENC (chooseAll (nbrCells g i j) (0, rng)).1,
        (chooseAll (nbrCells g i j) (0, rng)).2) := rfl

theorem chooseAll_bounds (cells : List Nat) (r : Nat × Rng) :
    r.1 ≤ (chooseAll cells r).1 ∧ (chooseAll cells r).1 ≤ r.1 + cells.length := by
  induction cells generalizing r with
  | nil => simp [chooseAll]
  | cons e es ih =>
    have h1 := choose_genc_bounds e r.1 r.2
    have h2 := ih (choose_genc e r.1 r.2)
    simp only [chooseAll, List.foldl_cons, List.length_cons] at h2 ⊢
    omega

theorem baby_genc_range (g : grid_t) (i j : Nat) (rng : Rng) :
    ∃ r, r ≤ 8 ∧ (baby_genc g i j rng).1 = MAKE_GENC r := by
  refine ⟨(chooseAll (nbrCells g i j) (0, rng)).1, ?_, by rw [baby_genc_eq]⟩
  have := (chooseAll_bounds (nbrCells g i j) (0, rng)).2
  simpa [nbrCells, nbrs_length] using this

/-! ## The classify scan -/

theorem one_step_cell_dims (i j : Nat) (s : Scan) :
    (one_step_cell i j s).grid.width = s.grid.width ∧
      (one_step_cell i j s).grid.height = s.grid.height := by
  unfold one_step_cell
  simp only
  split_ifs <;> exact ⟨rfl, rfl⟩

theorem one_step_cell_other (i j : Nat) (s : Scan) (a b : Nat) (h : ¬ (a = i ∧ b = j)) :
    (one_step_cell i j s).grid.data a b = s.grid.data a b := by
  unfold one_step_cell
  simp only
  split_ifs <;> simp [set_cell_data, h]

theorem one_step_cell_self (i j : Nat) (s : Scan) :
    Classified (s.grid.data i j) ((one_step_cell i j s).grid.data i j) := by
  obtain ⟨r, hr, hbaby⟩ := baby_genc_range s.grid i j s.rng
  unfold one_step_cell Classified
  simp only [ELEM_SUM_eq, MAKE_SUM_eq, ELEM_TAG_eq, NO_ELEM_eq, ELEM_eq, ELEM_NO_TAG_eq,
    hbaby, MAKE_GENC_eq]
  by_cases h3 : s.grid.data i j % 256 = 3
  · by_cases ht : s.grid.data i j / 65536 % 256 = 0
    · have ht2 : s.grid.data i j / 65536 % 256 * 65536 = 0 := by omega
      simp only [h3, ht, ht2, and_self, if_true, set_cell_data]
      refine ⟨r, hr, ?_⟩
      have e1 : r * 256 % U32 = r * 256 := Nat.mod_eq_of_lt (by simp only [U32]; omega)
      have e2 := genc_or_sum r 3 (by decide)
      rw [MAKE_GENC_eq] at e2
      rw [e1, e2, born_or _ (by omega)]
      simp only [U32]
      omega
    · have ht2 : ¬ s.grid.data i j / 65536 % 256 * 65536 = 0 := by omega
      have hd : ¬ ((s.grid.data i j % 256 ≤ 8 ∧ s.grid.data i j % 256 ≠ 2 ∧
          s.grid.data i j % 256 ≠ 3) ∧ s.grid.data i j / 65536 % 256 = 2) := by omega
      simp only [h3, ht, ht2, and_false, if_true, if_false, ne_eq, not_true_eq_false,
        false_and]
  · by_cases hd : s.grid.data i j % 256 = 0 ∨ s.grid.data i j % 256 = 1 ∨
        s.grid.data i j % 256 = 4 ∨ s.grid.data i j % 256 = 5 ∨ s.grid.data i j % 256 = 6 ∨
        s.grid.data i j % 256 = 7 ∨ s.grid.data i j % 256 = 8
    · by_cases ht : s.grid.data i j / 65536 % 256 = 2
      · have ht2 : s.grid.data i j / 65536 % 256 * 65536 = 131072 := by omega
        rw [if_neg h3, if_pos hd, if_pos ht2, if_neg (by omega), if_pos (by omega)]
        simp only [set_cell_data, and_self, if_true]
        rw [dead_or _ (Nat.mod_lt _ (by decide))]
        simp only [U32]
        omega
      · have ht2 : ¬ s.grid.data i j / 65536 % 256 * 65536 = 131072 := by omega
        rw [if_neg h3, if_pos hd, if_neg ht2, if_neg (by omega), if_neg (by omega)]
    · rw [if_neg h3, if_neg hd, if_neg (by omega), if_neg (by omega)]

theorem classify_scan (g0 : grid_t) (rng : Rng) :
    ClassifyInv g0 g0.width 0 (one_step g0 rng) := by
  unfold one_step
  apply scan_inv g0.width g0.height one_step_cell (ClassifyInv g0)
  · refine ⟨rfl, rfl, ?_⟩
    intro a b
    simp [visited_zero]
  · intro i j s hi hj hP
    obtain ⟨hW, hH, hF⟩ := hP
    refine ⟨by rw [(one_step_cell_dims i j s).1, hW],
      by rw [(one_step_cell_dims i j s).2, hH], ?_⟩
    intro a b
    have F := hF a b
    rw [visited_step]
    by_cases hc : a = i ∧ b = j
    · obtain ⟨rfl, rfl⟩ := hc
      simp only [visited_self, Bool.false_eq_true, false_and, if_false] at F
      simp only [beq_self_eq_true, Bool.or_true, true_and, hj, if_true]
      rw [← F]
      exact one_step_cell_self a b s
    · have : ((a, b) == (i, j)) = false := by simpa using hc
      rw [one_step_cell_other i j s a b hc, this, Bool.or_false]
      exact F
  · intro i s _ hP
    obtain ⟨hW, hH, hF⟩ := hP
    refine ⟨hW, hH, ?_⟩
    intro a b
    have F := hF a b
    by_cases hb : b < g0.height
    · rw [← visited_row i g0.height (a, b) hb]
      exact F
    · have hv : visited i g0.height (a, b) = visited i 0 (a, b) := by
        simp only [visited, decide_eq_decide]
        omega
      simp only [hb, and_false, if_false] at F ⊢
      exact F

/-- Effect of the classify scan: sizes are kept, every cell of the grid is classified from
its own previous contents, and nothing outside the grid is written. -/
theorem one_step_data (g0 : grid_t) (rng : Rng) :
    (one_step g0 rng).grid.width = g0.width ∧ (one_step g0 rng).grid.height = g0.height ∧
    ∀ a, a < g0.width → ∀ b, b < g0.height →
      Classified (g0.data a b) ((one_step g0 rng).grid.data a b) := by
  obtain ⟨hW, hH, hF⟩ := classify_scan g0 rng
  refine ⟨hW, hH, ?_⟩
  intro a ha b hb
  have := hF a b
  simpa [visited_all g0.width (a, b) ha, hb] using this

/-! ## A complete tick -/

theorem countP_split {α : Type} (L : List α) (f p r : α → Bool)
    (h : ∀ q, q ∈ L → f q = (p q || r q) ∧ (p q && r q) = false) :
    L.countP f = L.countP p + L.countP r := by
  induction L with
  | nil => simp
  | cons x L ih =>
    have hx := h x (List.mem_cons_self x L)
    have ih2 := ih (fun q hq => h q (List.mem_cons_of_mem x hq))
    rw [List.countP_cons, List.countP_cons, List.countP_cons, ih2, hx.1]
    cases hp : p x <;> cases hr : r x <;> simp [hp, hr] at hx ⊢ <;> omega

theorem tag_eq_iff (c t : Nat) : ELEM_TAG c = MAKE_TAG t ↔ c / 65536 % 256 = t := by
  rw [ELEM_TAG_eq]
  simp only [MAKE_TAG, Nat.shiftLeft_eq]
  omega

theorem tag_elem_iff (c : Nat) : ELEM_TAG c = ELEM ↔ c / 65536 % 256 = 2 :=
  tag_eq_iff c 2

theorem tag_none_iff (c : Nat) : ELEM_TAG c = NO_ELEM ↔ c / 65536 % 256 = 0 :=
  tag_eq_iff c 0

theorem tag_born_iff (c : Nat) : ELEM_TAG c = BORN_ELEM ↔ c / 65536 % 256 = 1 :=
  tag_eq_iff c 1

theorem tag_dead_iff (c : Nat) : ELEM_TAG c = DEAD_ELEM ↔ c / 65536 % 256 = 3 :=
  tag_eq_iff c 3

theorem countTag_le (g : grid_t) (t a b : Nat) : countTag g t a b ≤ 8 := by
  have := List.countP_le_length (fun q => ELEM_TAG (g.data q.1 q.2) == t)
    (l := nbrs g.width g.height a b)
  simpa [countTag, nbrs_length] using this

/-- Consistency of a grid, cell by cell and in arithmetic form. -/
theorem consistent_cell (g : grid_t) (hc : Consistent g) (a b : Nat) (ha : a < g.width)
    (hb : b < g.height) :
    (g.data a b / 65536 % 256 = 0 ∨ g.data a b / 65536 % 256 = 2) ∧
      g.data a b % 256 = countTag g ELEM a b ∧ g.data a b % 256 ≤ 8 := by
  have h := hc a ha b hb
  rw [tag_none_iff, tag_elem_iff, ELEM_SUM_eq] at h
  have := countTag_le g ELEM a b
  exact ⟨h.1, h.2, by omega⟩

/-- The tag and the other fields of a classified cell. -/
theorem classified_fields (old new : Nat) (hC : Classified old new)
    (ht : old / 65536 % 256 = 0 ∨ old / 65536 % 256 = 2) (hs : old % 256 ≤ 8) :
    new % 256 = old % 256 ∧
    (new / 65536 % 256 = 1 ↔ old / 65536 % 256 = 0 ∧ old % 256 = 3) ∧
    (new / 65536 % 256 = 3 ↔ old / 65536 % 256 = 2 ∧ old % 256 ≠ 2 ∧ old % 256 ≠ 3) ∧
    (new / 65536 % 256 = 2 ↔ old / 65536 % 256 = 2 ∧ (old % 256 = 2 ∨ old % 256 = 3)) ∧
    (new / 65536 % 256 = 0 ↔ old / 65536 % 256 = 0 ∧ old % 256 ≠ 3) ∧
    (new / 65536 % 256 ≠ 1 → new / 256 % 256 = old / 256 % 256) ∧
    (new / 65536 % 256 ≠ 1 → new / 65536 % 256 ≠ 3 → new = old) ∧
    new / 65536 % 256 ≤ 3 := by
  unfold Classified at hC
  split_ifs at hC with h1 h2
  · obtain ⟨r, hr, rfl⟩ := hC
    omega
  · subst hC
    omega
  · subst hC
    omega

/-- Arithmetic of a committed cell: `x1` is the cell before the commit scan, `cc` what its
own visit stores, `x2` the cell afterwards. -/
theorem commit_arith (x1 x2 cc : Nat) (h2a : x2 / 256 = cc / 256)
    (hcc : cc = if x1 / 65536 % 256 = 1 then 131072 + x1 % 65536
      else if x1 / 65536 % 256 = 3 then x1 % 65536 else x1)
    (ht : x1 / 65536 % 256 ≤ 3) :
    (x2 / 65536 % 256 = 2 ↔ (x1 / 65536 % 256 = 2 ∨ x1 / 65536 % 256 = 1)) ∧
      (x2 / 65536 % 256 = 0 ∨ x2 / 65536 % 256 = 2) := by
  split_ifs at hcc <;> omega

theorem sum_arith (x1 x2 cA cB cD n2 : Nat) (c3 : x2 % 256 + cD = x1 % 256 + cB)
    (hm : x1 % 256 = cA + cD) (hsplit : n2 = cA + cB) : x2 % 256 = n2 := by
  omega

theorem life_arith (x0 x1 x2 : Nat)
    (c : x2 / 65536 % 256 = 2 ↔ (x1 / 65536 % 256 = 2 ∨ x1 / 65536 % 256 = 1))
    (h1b : x1 / 65536 % 256 = 1 ↔ x0 / 65536 % 256 = 0 ∧ x0 % 256 = 3)
    (h1d : x1 / 65536 % 256 = 2 ↔ x0 / 65536 % 256 = 2 ∧ (x0 % 256 = 2 ∨ x0 % 256 = 3)) :
    x2 / 65536 % 256 = 2 ↔
      (x0 / 65536 % 256 = 2 ∧ (x0 % 256 = 2 ∨ x0 % 256 = 3)) ∨
        (x0 / 65536 % 256 = 0 ∧ x0 % 256 = 3) := by
  omega

theorem disjoint_arith (x : Nat) (t u : Nat) (htu : t ≠ u) :
    ¬ x / 65536 % 256 = t ∨ ¬ x / 65536 % 256 = u := by
  omega

/-- After the classify scan of a consistent grid the grid is in its mid-tick state. -/
theorem classify_midTick (g0 : grid_t) (hc : Consistent g0) (rng : Rng) :
    MidTick (one_step g0 rng).grid := by
  obtain ⟨hW, hH, hF⟩ := one_step_data g0 rng
  intro a ha b hb
  rw [hW] at ha
  rw [hH] at hb
  have h0 := consistent_cell g0 hc a b ha hb
  have h1 := classified_fields _ _ (hF a ha b hb) h0.1 h0.2.2
  rw [ELEM_SUM_eq, h1.1, h0.2.1]
  unfold countTag
  rw [hW, hH]
  apply countP_split
  intro q hq
  have hr := nbrs_range _ _ _ _ ha hb q hq
  have q0 := consistent_cell g0 hc q.1 q.2 hr.1 hr.2
  have q1 := classified_fields _ _ (hF q.1 hr.1 q.2 hr.2) q0.1 q0.2.2
  constructor
  · rw [Bool.eq_iff_iff]
    simp only [beq_iff_eq, Bool.or_eq_true, tag_elem_iff, tag_dead_iff]
    have e2 := q1.2.2.2.1
    have e3 := q1.2.2.1
    have t0 := q0.1
    generalize (one_step g0 rng).grid.data q.1 q.2 = x1 at e2 e3 ⊢
    generalize g0.data q.1 q.2 = x0 at e2 e3 t0 ⊢
    omega
  · rw [Bool.and_eq_false_iff]
    simp only [beq_eq_false_iff_ne, ne_eq, tag_elem_iff, tag_dead_iff]
    exact disjoint_arith _ 2 3 (by decide)

/-- One tick on a consistent grid of at least 2 x 2 cells, cell by cell: the sizes are kept,
the cell ends Empty or Alive, it is Alive exactly by the life rule applied to the count of
Alive neighbour positions before the tick, its trait is kept unless it was just born, and
the grid is consistent again. -/
theorem tick_cell (g0 : grid_t) (hw : 2 ≤ g0.width) (hh : 2 ≤ g0.height)
    (hc : Consistent g0) (rng : Rng) :
    (tick (g0, rng)).1.width = g0.width ∧ (tick (g0, rng)).1.height = g0.height ∧
    Consistent (tick (g0, rng)).1 ∧
    ∀ a, a < g0.width → ∀ b, b < g0.height →
      (ELEM_TAG ((tick (g0, rng)).1.data a b) = ELEM ↔
        (ELEM_TAG (g0.data a b) = ELEM ∧
            (countTag g0 ELEM a b = 2 ∨ countTag g0 ELEM a b = 3)) ∨
          (ELEM_TAG (g0.data a b) = NO_ELEM ∧ countTag g0 ELEM a b = 3)) := by
  have htick : (tick (g0, rng)).1 = (update (one_step g0 rng).grid).1 := rfl
  rw [htick]
  obtain ⟨hW, hH, hF⟩ := one_step_data g0 rng
  have hmid := classify_midTick g0 hc rng
  have hU := update_data (one_step g0 rng).grid (by omega) (by omega) hmid
  have hW2 : (update (one_step g0 rng).grid).1.width = g0.width := by
    rw [hU.1, hW]
  have hH2 : (update (one_step g0 rng).grid).1.height = g0.height := by
    rw [hU.2.1, hH]
  -- per-cell facts about the three grids
  have cell : ∀ a, a < g0.width → ∀ b, b < g0.height →
      ((update (one_step g0 rng).grid).1.data a b / 65536 % 256 = 2 ↔
        ((one_step g0 rng).grid.data a b / 65536 % 256 = 2 ∨
          (one_step g0 rng).grid.data a b / 65536 % 256 = 1)) ∧
      ((update (one_step g0 rng).grid).1.data a b / 65536 % 256 = 0 ∨
        (update (one_step g0 rng).grid).1.data a b / 65536 % 256 = 2) ∧
      (update (one_step g0 rng).grid).1.data a b % 256 + countTag (one_step g0 rng).grid DEAD_ELEM a b =
        (one_step g0 rng).grid.data a b % 256 +
          countTag (one_step g0 rng).grid BORN_ELEM a b := by
    intro a ha b hb
    have h0 := consistent_cell g0 hc a b ha hb
    have h1 := classified_fields _ _ (hF a ha b hb) h0.1 h0.2.2
    have h2 := update_fields (one_step g0 rng).grid (by omega) (by omega) hmid a b
      (by omega) (by omega)
    have hcc := commitCell_eq ((one_step g0 rng).grid.data a b)
    have hca := commit_arith _ _ _ h2.1 hcc h1.2.2.2.2.2.2.2
    exact ⟨hca.1, hca.2, h2.2.1⟩
  refine ⟨hW2, hH2, ?_, ?_⟩
  · intro a ha b hb
    rw [hW2] at ha
    rw [hH2] at hb
    have c := cell a ha b hb
    have hm := hmid a (by omega) b (by omega)
    rw [ELEM_SUM_eq] at hm
    rw [tag_none_iff, tag_elem_iff, ELEM_SUM_eq]
    refine ⟨c.2.1, ?_⟩
    have hsplit : countTag (update (one_step g0 rng).grid).1 ELEM a b =
        countTag (one_step g0 rng).grid ELEM a b +
          countTag (one_step g0 rng).grid BORN_ELEM a b := by
      unfold countTag
      rw [hW2, hH2, hW, hH]
      apply countP_split
      intro q hq
      have hr := nbrs_range _ _ _ _ ha hb q hq
      have cq := cell q.1 hr.1 q.2 hr.2
      constructor
      · rw [Bool.eq_iff_iff]
        simp only [beq_iff_eq, Bool.or_eq_true, tag_elem_iff, tag_born_iff]
        exact cq.1
      · rw [Bool.and_eq_false_iff]
        simp only [beq_eq_false_iff_ne, ne_eq, tag_elem_iff, tag_born_iff]
        exact disjoint_arith _ 2 1 (by decide)
    exact sum_arith _ _ _ _ _ _ c.2.2 hm hsplit
  · intro a ha b hb
    have c := (cell a ha b hb).1
    have h0 := consistent_cell g0 hc a b ha hb
    have h1 := classified_fields _ _ (hF a ha b hb) h0.1 h0.2.2
    rw [tag_elem_iff, tag_elem_iff, tag_none_iff, ← h0.2.1]
    exact life_arith _ _ _ c h1.2.1 h1.2.2.2.1

/-! ## Conway's rule on a torus (the specification side) -/

theorem prevIdx_mod (n i : Nat) (hi : i < n) : (i + n - 1) % n = prevIdx n i := by
  unfold prevIdx
  split_ifs with h
  · have e : i + n - 1 = (i - 1) + n := by omega
    rw [e, Nat.add_mod_right, Nat.mod_eq_of_lt (by omega)]
  · have e : i + n - 1 = n - 1 := by omega
    rw [e, Nat.mod_eq_of_lt (by omega)]

theorem nextIdx_mod (n i : Nat) (hi : i < n) : (i + 1) % n = nextIdx n i := by
  unfold nextIdx
  split_ifs with h
  · rw [Nat.mod_eq_of_lt (by omega)]
  · have e : i + 1 = n := by omega
    rw [e, Nat.mod_self]

/-- The code's wrap-around addressing is the torus. -/
theorem torusNbrs_eq (w h i j : Nat) (hi : i < w) (hj : j < h) :
    torusNbrs w h i j = nbrs w h i j := by
  unfold torusNbrs nbrs
  rw [prevIdx_mod w i hi, nextIdx_mod w i hi, prevIdx_mod h j hj, nextIdx_mod h j hj]

theorem lifeStep_congr (w h : Nat) (p p2 : Nat → Nat → Bool)
    (hp : ∀ a, a < w → ∀ b, b < h → p a b = p2 a b) (i j : Nat) (hi : i < w) (hj : j < h) :
    lifeStep w h p i j = lifeStep w h p2 i j := by
  unfold lifeStep
  rw [hp i hi j hj, torusNbrs_eq w h i j hi hj]
  congr 1
  apply List.countP_congr
  intro q hq
  have hr := nbrs_range w h i j hi hj q hq
  rw [hp q.1 hr.1 q.2 hr.2]

/-- One tick is one generation: on a consistent grid of at least 2 x 2 cells the pattern
after `tick` is `lifeStep` of the pattern before. -/
theorem tick_pattern (g : grid_t) (hw : 2 ≤ g.width) (hh : 2 ≤ g.height) (hc : Consistent g)
    (rng : Rng) (i j : Nat) (hi : i < g.width) (hj : j < g.height) :
    pattern (tick (g, rng)).1 i j = lifeStep g.width g.height (pattern g) i j := by
  have ht := (tick_cell g hw hh hc rng).2.2.2 i hi j hj
  have h0 := hc i hi j hj
  unfold lifeStep pattern lifeRule
  rw [torusNbrs_eq _ _ i j hi hj]
  have hcount : (nbrs g.width g.height i j).countP
      (fun q => ELEM_TAG (g.data q.1 q.2) == ELEM) = countTag g ELEM i j := rfl
  rw [hcount, Bool.eq_iff_iff]
  simp only [beq_iff_eq, Bool.or_eq_true, Bool.and_eq_true, Bool.not_eq_true',
    beq_eq_false_iff_ne, ne_eq]
  rw [ht]
  have hne : NO_ELEM ≠ ELEM := by decide
  rcases h0.1 with h | h
  · rw [h]
    simp [hne]
  · rw [h]
    simp [hne.symm]

theorem ticks_succ (n : Nat) (s : grid_t × Rng) : ticks (n + 1) s = tick (ticks n s) := rfl

/-- Any number of ticks keeps the sizes and the consistency of the grid. -/
theorem ticks_consistent (g : grid_t) (hw : 2 ≤ g.width) (hh : 2 ≤ g.height)
    (hc : Consistent g) (rng : Rng) (n : Nat) :
    (ticks n (g, rng)).1.width = g.width ∧ (ticks n (g, rng)).1.height = g.height ∧
      Consistent (ticks n (g, rng)).1 := by
  induction n with
  | zero => exact ⟨rfl, rfl, hc⟩
  | succ n ih =>
    obtain ⟨hW, hH, hC⟩ := ih
    have h := tick_cell (ticks n (g, rng)).1 (by omega) (by omega) hC (ticks n (g, rng)).2
    rw [ticks_succ]
    exact ⟨by rw [h.1, hW], by rw [h.2.1, hH], h.2.2.1⟩

/-! ## Claim C1 -/

/-- C1 (Conway equivalence). On every grid with width >= 3 and height >= 3 whose cells are
all Empty or Alive with neighbour sums equal to the number of Alive neighbours, for every
generator state (every sequence of random draws, whatever the traits) and every `N`, after
`N` ticks every cell is Empty or Alive and the Alive cells are exactly those of the standard
Game-of-Life rule applied `N` times to the initial pattern on the torus of the same size. -/
theorem conway_equivalence (g : grid_t) (hw : 3 ≤ g.width) (hh : 3 ≤ g.height)
    (hc : Consistent g) (rng : Rng) (N : Nat) :
    ∀ i, i < g.width → ∀ j, j < g.height →
      pattern (ticks N (g, rng)).1 i j = lifeIter g.width g.height N (pattern g) i j ∧
      (ELEM_TAG ((ticks N (g, rng)).1.data i j) = NO_ELEM ∨
        ELEM_TAG ((ticks N (g, rng)).1.data i j) = ELEM) := by
  induction N with
  | zero =>
    intro i hi j hj
    exact ⟨rfl, (hc i hi j hj).1⟩
  | succ n ih =>
    intro i hi j hj
    obtain ⟨hW, hH, hC⟩ := ticks_consistent g (by omega) (by omega) hc rng n
    obtain ⟨hW2, hH2, hC2⟩ := ticks_consistent g (by omega) (by omega) hc rng (n + 1)
    refine ⟨?_, (hC2 i (by omega) j (by omega)).1⟩
    rw [ticks_succ]
    have h := tick_pattern (ticks n (g, rng)).1 (by omega) (by omega) hC
      (ticks n (g, rng)).2 i j (by omega) (by omega)
    rw [hW, hH] at h
    have e : tick (ticks n (g, rng)) = tick ((ticks n (g, rng)).1, (ticks n (g, rng)).2) := rfl
    rw [e, h]
    show lifeStep g.width g.height _ i j = lifeStep g.width g.height _ i j
    exact lifeStep_congr g.width g.height _ _ (fun a ha b hb => (ih a ha b hb).1) i j hi hj

/-- C1, witness: the lone cell on the 3 x 3 torus, two ticks. -/
theorem conway_equivalence_witness :
    3 ≤ loneCell.width ∧ 3 ≤ loneCell.height ∧ Consistent loneCell ∧
    ∀ i, i < loneCell.width → ∀ j, j < loneCell.height →
      pattern (ticks 2 (loneCell, ⟨fun _ => 0, 0⟩)).1 i j =
          lifeIter loneCell.width loneCell.height 2 (pattern loneCell) i j ∧
      (ELEM_TAG ((ticks 2 (loneCell, ⟨fun _ => 0, 0⟩)).1.data i j) = NO_ELEM ∨
        ELEM_TAG ((ticks 2 (loneCell, ⟨fun _ => 0, 0⟩)).1.data i j) = ELEM) :=
  ⟨by decide, by decide, by decide,
    conway_equivalence loneCell (by decide) (by decide) (by decide) ⟨fun _ => 0, 0⟩ 2⟩

/-! ## Claim C3 -/

theorem classify_arith (old new : Nat) (hC : Classified old new)
    (ht : old / 65536 % 256 = 0 ∨ old / 65536 % 256 = 2) (hs : old % 256 ≤ 8) :
    new / 65536 % 256 * 65536 =
      if old / 65536 % 256 * 65536 = 0 ∧ old % 256 = 3 then 65536
      else if old / 65536 % 256 * 65536 = 131072 ∧ (old % 256 = 0 ∨ old % 256 = 1 ∨
        old % 256 = 4 ∨ old % 256 = 5 ∨ old % 256 = 6 ∨ old % 256 = 7 ∨ old % 256 = 8)
      then 196608 else old / 65536 % 256 * 65536 := by
  have h := classified_fields old new hC ht hs
  split_ifs <;> omega

/-- C3 (classify transition table). On every grid whose cells are all Empty or Alive with
neighbour sums in 0..8, and for every generator state, the tag of each cell after `one_step`
is the table entry for that cell's own tag and neighbour sum before the call: Empty with sum
3 becomes Born, Empty otherwise stays Empty, Alive with sum 2 or 3 stays Alive, Alive with
sum 0, 1, 4, 5, 6, 7 or 8 becomes Dying. Nothing else enters the outcome. -/
theorem classify_table (g : grid_t) (rng : Rng)
    (hg : ∀ i, i < g.width → ∀ j, j < g.height →
      (ELEM_TAG (g.data i j) = NO_ELEM ∨ ELEM_TAG (g.data i j) = ELEM) ∧
        ELEM_SUM (g.data i j) ≤ MAKE_SUM 8) :
    ∀ i, i < g.width → ∀ j, j < g.height →
      ELEM_TAG ((one_step g rng).grid.data i j) =
        classifyTag (ELEM_TAG (g.data i j)) (ELEM_SUM (g.data i j)) := by
  intro i hi j hj
  have hC := (one_step_data g rng).2.2 i hi j hj
  have h := hg i hi j hj
  rw [tag_none_iff, tag_elem_iff, ELEM_SUM_eq, MAKE_SUM_eq] at h
  have := classify_arith _ _ hC h.1 h.2
  unfold classifyTag
  simp only [ELEM_TAG_eq, ELEM_SUM_eq, MAKE_SUM_eq, NO_ELEM_eq, ELEM_eq, BORN_ELEM_eq,
    DEAD_ELEM_eq]
  exact this

/-- C3, witness: the lone cell on the 3 x 3 torus. -/
theorem classify_table_witness :
    (∀ i, i < loneCell.width → ∀ j, j < loneCell.height →
      (ELEM_TAG (loneCell.data i j) = NO_ELEM ∨ ELEM_TAG (loneCell.data i j) = ELEM) ∧
        ELEM_SUM (loneCell.data i j) ≤ MAKE_SUM 8) ∧
    ∀ i, i < loneCell.width → ∀ j, j < loneCell.height →
      ELEM_TAG ((one_step loneCell ⟨fun _ => 0, 0⟩).grid.data i j) =
        classifyTag (ELEM_TAG (loneCell.data i j)) (ELEM_SUM (loneCell.data i j)) :=
  ⟨by decide, classify_table loneCell ⟨fun _ => 0, 0⟩ (by decide)⟩

/-! ## Claim C4 -/

theorem commit_fields_arith (x1 x2 cc : Nat) (h2a : x2 / 256 = cc / 256)
    (h2c : cc % 65536 = x1 % 65536)
    (hcc : cc = if x1 / 65536 % 256 = 1 then 131072 + x1 % 65536
      else if x1 / 65536 % 256 = 3 then x1 % 65536 else x1) :
    (x1 / 65536 % 256 * 65536 = 65536 → x2 / 65536 % 256 * 65536 = 131072) ∧
    (x1 / 65536 % 256 * 65536 = 196608 → x2 / 65536 % 256 * 65536 = 0) ∧
    (x1 / 65536 % 256 * 65536 = 0 ∨ x1 / 65536 % 256 * 65536 = 131072 →
      x2 / 65536 % 256 * 65536 = x1 / 65536 % 256 * 65536) ∧
    x2 / 256 % 256 * 256 = x1 / 256 % 256 * 256 := by
  split_ifs at hcc <;> omega

/-- C4 (commit effect). On every grid with width >= 3 and height >= 3 produced by `one_step`
from a consistent Empty/Alive grid, `update` turns every Born cell into Alive and every
Dying cell into Empty, leaves the tag of every Empty or Alive cell and the trait of every
cell as they were, and changes each neighbour sum by exactly the number of Born neighbours
minus the number of Dying neighbours. -/
theorem commit_effect (g : grid_t) (hw : 3 ≤ g.width) (hh : 3 ≤ g.height) (hc : Consistent g)
    (rng : Rng) :
    ∀ i, i < g.width → ∀ j, j < g.height →
      (ELEM_TAG ((one_step g rng).grid.data i j) = BORN_ELEM →
        ELEM_TAG ((update (one_step g rng).grid).1.data i j) = ELEM) ∧
      (ELEM_TAG ((one_step g rng).grid.data i j) = DEAD_ELEM →
        ELEM_TAG ((update (one_step g rng).grid).1.data i j) = NO_ELEM) ∧
      (ELEM_TAG ((one_step g rng).grid.data i j) = NO_ELEM ∨
          ELEM_TAG ((one_step g rng).grid.data i j) = ELEM →
        ELEM_TAG ((update (one_step g rng).grid).1.data i j) =
          ELEM_TAG ((one_step g rng).grid.data i j)) ∧
      ELEM_GENC ((update (one_step g rng).grid).1.data i j) =
        ELEM_GENC ((one_step g rng).grid.data i j) ∧
      (ELEM_SUM ((update (one_step g rng).grid).1.data i j) : Int) =
        ELEM_SUM ((one_step g rng).grid.data i j) +
          countTag (one_step g rng).grid BORN_ELEM i j -
          countTag (one_step g rng).grid DEAD_ELEM i j := by
  intro i hi j hj
  obtain ⟨hW, hH, _⟩ := one_step_data g rng
  have hmid := classify_midTick g hc rng
  have h2 := update_fields (one_step g rng).grid (by omega) (by omega) hmid i j
    (by omega) (by omega)
  have hcc := commitCell_eq ((one_step g rng).grid.data i j)
  have ha := commit_fields_arith _ _ _ h2.1 h2.2.2 hcc
  refine ⟨?_, ?_, ?_, ?_, ?_⟩
  · simp only [ELEM_TAG_eq, ELEM_eq, BORN_ELEM_eq]
    exact ha.1
  · simp only [ELEM_TAG_eq, NO_ELEM_eq, DEAD_ELEM_eq]
    exact ha.2.1
  · simp only [ELEM_TAG_eq, NO_ELEM_eq, ELEM_eq]
    exact ha.2.2.1
  · simp only [ELEM_GENC_eq]
    exact ha.2.2.2
  rw [ELEM_SUM_eq, ELEM_SUM_eq]
  have h3 := h2.2.1
  generalize (update (one_step g rng).grid).1.data i j % 256 = s2 at h3 ⊢
  generalize (one_step g rng).grid.data i j % 256 = s1 at h3 ⊢
  generalize countTag (one_step g rng).grid BORN_ELEM i j = cB at h3 ⊢
  generalize countTag (one_step g rng).grid DEAD_ELEM i j = cD at h3 ⊢
  omega

/-- C4, witness: the lone cell on the 3 x 3 torus, which dies in the tick. -/
theorem commit_effect_witness :
    3 ≤ loneCell.width ∧ 3 ≤ loneCell.height ∧ Consistent loneCell ∧
    ELEM_TAG ((one_step loneCell ⟨fun _ => 0, 0⟩).grid.data 1 1) = DEAD_ELEM ∧
    ELEM_TAG ((update (one_step loneCell ⟨fun _ => 0, 0⟩).grid).1.data 1 1) = NO_ELEM :=
  ⟨by decide, by decide, by decide, by decide,
    (commit_effect loneCell (by decide) (by decide) (by decide) ⟨fun _ => 0, 0⟩
      1 (by decide) 1 (by decide)).2.1 (by decide)⟩

/-! ## Initialisation -/

theorem init_fill_cell_data (i j : Nat) (s : grid_t × Rng) (a b : Nat) :
    (init_fill_cell i j s).1.data a b =
      if a = i ∧ b = j then initTag (s.2.draws s.2.pos) else s.1.data a b := by
  unfold init_fill_cell
  simp only [set_cell_data, rand, and_self, if_true]
  by_cases h : a = i ∧ b = j
  · simp only [h, and_self, if_true, initTag]
    by_cases hd : s.2.draws s.2.pos % 2 ≠ 0
    · rw [if_pos hd]; decide
    · rw [if_neg hd]; decide
  · simp only [h, if_false]

theorem fill_scan (g0 : grid_t) (rng : Rng) :
    FillInv g0 rng g0.width 0
      (forLoop g0.width (fun i s => forLoop g0.height (fun j s => init_fill_cell i j s) s)
        (g0, rng)) := by
  apply scan_inv g0.width g0.height init_fill_cell (FillInv g0 rng)
  · refine ⟨rfl, rfl, rfl, by simp, ?_⟩
    intro a b
    simp [visited_zero]
  · intro i j s hi hj hP
    obtain ⟨hW, hH, hd, hp, hF⟩ := hP
    refine ⟨hW, hH, hd, ?_, ?_⟩
    · show s.2.pos + 1 = _
      omega
    · intro a b
      have F := hF a b
      rw [visited_step, init_fill_cell_data]
      by_cases hc : a = i ∧ b = j
      · obtain ⟨rfl, rfl⟩ := hc
        simp only [beq_self_eq_true, Bool.or_true, true_and, hj, and_self, if_true]
        rw [hd, hp]
        rfl
      · have : ((a, b) == (i, j)) = false := by simpa using hc
        rw [this, Bool.or_false]
        simp only [hc, if_false]
        exact F
  · intro i s _ hP
    obtain ⟨hW, hH, hd, hp, hF⟩ := hP
    refine ⟨hW, hH, hd, ?_, ?_⟩
    · rw [hp, Nat.succ_mul, Nat.add_zero]
    · intro a b
      have F := hF a b
      by_cases hb : b < g0.height
      · rw [← visited_row i g0.height (a, b) hb]
        exact F
      · simp only [hb, and_false, if_false] at F ⊢
        exact F

theorem init_count_cell_alive (i j : Nat) (g : grid_t) (h : ELEM_TAG (g.data i j) = ELEM) :
    init_count_cell i j g = addAll g (nbrs g.width g.height i j) := by
  unfold init_count_cell
  simp only [h, if_true]
  rfl

theorem init_count_cell_other (i j : Nat) (g : grid_t) (h : ELEM_TAG (g.data i j) ≠ ELEM) :
    init_count_cell i j g = g := by
  unfold init_count_cell
  simp only [h, if_false]

theorem count_step_arith (x y c m : Nat) (hx : x = 131072 ∨ x = 0) (hy : y = x + c)
    (hc : c + m ≤ 8) : (y + m) % 4294967296 = x + (c + m) ∧ y / 65536 % 256 = x / 65536 % 256 := by
  omega

theorem count_scan (base : grid_t)
    (hbase : ∀ a, a < base.width → ∀ b, b < base.height →
      base.data a b = 131072 ∨ base.data a b = 0) :
    CountInv base base.width 0
      (forLoop base.width (fun i g => forLoop base.height (fun j g => init_count_cell i j g) g)
        base) := by
  apply scan_inv base.width base.height init_count_cell (CountInv base)
  · refine ⟨rfl, rfl, ?_⟩
    intro a _ b _
    simp [countSeen_zero]
  · intro i j g hi hj hP
    obtain ⟨hW, hH, hF⟩ := hP
    have Fij := hF i hi j hj
    have hcur := (count_step_arith _ _ _ 0 (hbase i hi j hj) Fij
      (by have := countSeen_le base ELEM i j i j; have := countTag_le base ELEM i j; omega)).2
    have htag : ELEM_TAG (g.data i j) = ELEM_TAG (base.data i j) := by
      rw [ELEM_TAG_eq, ELEM_TAG_eq, hcur]
    by_cases h : ELEM_TAG (base.data i j) = ELEM
    · rw [init_count_cell_alive i j g (by rw [htag, h])]
      refine ⟨by rw [(addAll_dims _ _).1, hW], by rw [(addAll_dims _ _).2, hH], ?_⟩
      intro a ha b hb
      rw [addAll_data, hW, hH, countSeen_step, if_pos h,
        nbrs_count_symm base.width base.height i j a b hi hj ha hb]
      have hle := countSeen_le base ELEM i (j + 1) a b
      rw [countSeen_step, if_pos h] at hle
      have h8 := countTag_le base ELEM a b
      exact (count_step_arith _ _ _ _ (hbase a ha b hb) (hF a ha b hb) (by omega)).1
    · rw [init_count_cell_other i j g (by rw [htag]; exact h)]
      refine ⟨hW, hH, ?_⟩
      intro a ha b hb
      rw [countSeen_step, if_neg h, Nat.add_zero]
      exact hF a ha b hb
  · intro i g _ hP
    obtain ⟨hW, hH, hF⟩ := hP
    refine ⟨hW, hH, ?_⟩
    intro a ha b hb
    rw [← countSeen_row base ELEM i a b ha hb]
    exact hF a ha b hb

theorem initTag_cases (d : Nat) :
    (initTag d = 131072 ∧ d % 2 = 1) ∨ (initTag d = 0 ∧ d % 2 = 0) := by
  unfold initTag
  rw [ELEM_eq, NO_ELEM_eq]
  split_ifs <;> omega

theorem init_dims (g : grid_t) (rng : Rng) :
    (init_grid_from_string g rng).1.width = g.width ∧
      (init_grid_from_string g rng).1.height = g.height := by
  obtain ⟨hW, hH, _, _, hF⟩ := fill_scan g rng
  have hbase : ∀ a, a < (forLoop g.width (fun i s => forLoop g.height
      (fun j s => init_fill_cell i j s) s) (g, rng)).1.width → ∀ b,
      b < (forLoop g.width (fun i s => forLoop g.height
        (fun j s => init_fill_cell i j s) s) (g, rng)).1.height →
      (forLoop g.width (fun i s => forLoop g.height
        (fun j s => init_fill_cell i j s) s) (g, rng)).1.data a b = 131072 ∨
      (forLoop g.width (fun i s => forLoop g.height
        (fun j s => init_fill_cell i j s) s) (g, rng)).1.data a b = 0 := by
    intro a ha b hb
    rw [hW] at ha
    rw [hH] at hb
    have F := hF a b
    simp only [visited_all g.width (a, b) ha, hb, and_self, if_true] at F
    rw [F]
    rcases initTag_cases (initDraw g.height rng a b) with h | h
    · exact Or.inl h.1
    · exact Or.inr h.1
  obtain ⟨hW2, hH2, _⟩ := count_scan _ hbase
  unfold init_grid_from_string
  simp only
  rw [hW, hH] at hW2 hH2
  exact ⟨hW2, hH2⟩

/-- The contents of the grid after `init_grid_from_string`, cell by cell. -/
theorem init_data (g : grid_t) (rng : Rng) (i j : Nat) (hi : i < g.width) (hj : j < g.height) :
    (init_grid_from_string g rng).1.data i j = initValue g.width g.height rng i j := by
  obtain ⟨hW, hH, _, _, hF⟩ := fill_scan g rng
  have hval : ∀ a, a < g.width → ∀ b, b < g.height →
      (forLoop g.width (fun i s => forLoop g.height
        (fun j s => init_fill_cell i j s) s) (g, rng)).1.data a b =
        initTag (initDraw g.height rng a b) := by
    intro a ha b hb
    have F := hF a b
    simp only [visited_all g.width (a, b) ha, hb, and_self, if_true] at F
    exact F
  have hbase : ∀ a, a < (forLoop g.width (fun i s => forLoop g.height
      (fun j s => init_fill_cell i j s) s) (g, rng)).1.width → ∀ b,
      b < (forLoop g.width (fun i s => forLoop g.height
        (fun j s => init_fill_cell i j s) s) (g, rng)).1.height →
      (forLoop g.width (fun i s => forLoop g.height
        (fun j s => init_fill_cell i j s) s) (g, rng)).1.data a b = 131072 ∨
      (forLoop g.width (fun i s => forLoop g.height
        (fun j s => init_fill_cell i j s) s) (g, rng)).1.data a b = 0 := by
    intro a ha b hb
    rw [hW] at ha
    rw [hH] at hb
    rw [hval a ha b hb]
    rcases initTag_cases (initDraw g.height rng a b) with h | h
    · exact Or.inl h.1
    · exact Or.inr h.1
  obtain ⟨_, _, hG⟩ := count_scan _ hbase
  have hG2 := hG i (by rw [hW]; exact hi) j (by rw [hH]; exact hj)
  rw [countSeen_all _ _ i j (by rw [hW]; exact hi) (by rw [hH]; exact hj)] at hG2
  unfold init_grid_from_string
  simp only
  rw [hW] at hG2
  rw [hH] at hG2
  rw [hG2, hval i hi j hj]
  unfold initValue countTag
  rw [hW, hH]
  congr 1
  apply List.countP_congr
  intro q hq
  have hr := nbrs_range _ _ _ _ hi hj q hq
  rw [hval q.1 hr.1 q.2 hr.2]
  rcases initTag_cases (initDraw g.height rng q.1 q.2) with h | h
  · have e : (ELEM_TAG 131072 == ELEM) = true := by decide
    rw [h.1, e]
    simp [h.2]
  · have e : (ELEM_TAG 0 == ELEM) = false := by decide
    rw [h.1, e]
    simp [h.2]

theorem init_arith (x t c d : Nat) (hx : x = t + c)
    (ht : (t = 131072 ∧ d % 2 = 1) ∨ (t = 0 ∧ d % 2 = 0)) (hc : c ≤ 8) :
    (x / 65536 % 256 = 2 ↔ d % 2 = 1) ∧ (x / 65536 % 256 = 0 ↔ d % 2 = 0) ∧
      x / 256 % 256 * 256 = 0 ∧ x % 256 = c := by
  omega

/-- The fields of a cell after `init_grid_from_string`, in arithmetic form. -/
theorem init_fields (g : grid_t) (rng : Rng) (i j : Nat) (hi : i < g.width)
    (hj : j < g.height) :
    ((init_grid_from_string g rng).1.data i j / 65536 % 256 = 2 ↔
      initDraw g.height rng i j % 2 = 1) ∧
    ((init_grid_from_string g rng).1.data i j / 65536 % 256 = 0 ↔
      initDraw g.height rng i j % 2 = 0) ∧
    (init_grid_from_string g rng).1.data i j / 256 % 256 * 256 = 0 ∧
    (init_grid_from_string g rng).1.data i j % 256 =
      (nbrs g.width g.height i j).countP (fun q => initDraw g.height rng q.1 q.2 % 2 != 0) := by
  have hle : (nbrs g.width g.height i j).countP
      (fun q => initDraw g.height rng q.1 q.2 % 2 != 0) ≤ 8 := by
    have := List.countP_le_length (fun q : Nat × Nat => initDraw g.height rng q.1 q.2 % 2 != 0)
      (l := nbrs g.width g.height i j)
    simpa [nbrs_length] using this
  exact init_arith _ _ _ _ (init_data g rng i j hi hj) (initTag_cases _) hle

theorem init_countTag (g : grid_t) (rng : Rng) (i j : Nat) (hi : i < g.width)
    (hj : j < g.height) :
    countTag (init_grid_from_string g rng).1 ELEM i j =
      (nbrs g.width g.height i j).countP (fun q => initDraw g.height rng q.1 q.2 % 2 != 0) := by
  unfold countTag
  rw [(init_dims g rng).1, (init_dims g rng).2]
  apply List.countP_congr
  intro q hq
  have hr := nbrs_range _ _ _ _ hi hj q hq
  have hf := (init_fields g rng q.1 q.2 hr.1 hr.2).1
  simp only [beq_iff_eq, bne_iff_ne, ne_eq, tag_elem_iff]
  rw [hf]
  omega

/-- The grid `init_grid_from_string` returns is consistent. -/
theorem init_consistent (g : grid_t) (rng : Rng) :
    Consistent (init_grid_from_string g rng).1 := by
  intro i hi j hj
  rw [(init_dims g rng).1] at hi
  rw [(init_dims g rng).2] at hj
  have hf := init_fields g rng i j hi hj
  rw [tag_none_iff, tag_elem_iff, ELEM_SUM_eq, init_countTag g rng i j hi hj, hf.1, hf.2.1]
  refine ⟨by omega, hf.2.2.2⟩

/-! ## Claim C6 -/

/-- C6 (initialisation). For every grid (of positive width and height or not), whatever it
held before, and every generator state, after `init_grid_from_string` the cell `(i,j)` is Alive
iff draw number `i * height + j` is odd and Empty otherwise, every trait is 0 and every
neighbour sum is the number of Alive neighbours; and a second grid of the same dimensions
initialised with the same draws ends up with the same cells. -/
theorem init_grid_spec (g : grid_t) (rng : Rng) :
    (∀ i, i < g.width → ∀ j, j < g.height →
      (ELEM_TAG ((init_grid_from_string g rng).1.data i j) = ELEM ↔
        rng.draws (rng.pos + (i * g.height + j)) % 2 = 1) ∧
      (ELEM_TAG ((init_grid_from_string g rng).1.data i j) = NO_ELEM ↔
        rng.draws (rng.pos + (i * g.height + j)) % 2 = 0) ∧
      ELEM_GENC ((init_grid_from_string g rng).1.data i j) = MAKE_GENC 0 ∧
      ELEM_SUM ((init_grid_from_string g rng).1.data i j) =
        countTag (init_grid_from_string g rng).1 ELEM i j) ∧
    (∀ g2 : grid_t, g2.width = g.width → g2.height = g.height →
      ∀ i, i < g.width → ∀ j, j < g.height →
        (init_grid_from_string g2 rng).1.data i j = (init_grid_from_string g rng).1.data i j) := by
  constructor
  · intro i hi j hj
    have hf := init_fields g rng i j hi hj
    rw [tag_elem_iff, tag_none_iff, ELEM_GENC_eq, ELEM_SUM_eq, MAKE_GENC_eq,
      init_countTag g rng i j hi hj]
    exact ⟨hf.1, hf.2.1, hf.2.2.1, hf.2.2.2⟩
  · intro g2 hW hH i hi j hj
    rw [init_data g rng i j hi hj, init_data g2 rng i j (by omega) (by omega), hW, hH]

/-- C6, witness: a 2 x 3 grid filled with arbitrary values, draws 1, 2, 3, ... -/
theorem init_grid_spec_witness :
    0 < (grid_of 2 3 (fun i j => 977 * i + j)).width ∧
    0 < (grid_of 2 3 (fun i j => 977 * i + j)).height ∧
    ELEM_TAG ((init_grid_from_string (grid_of 2 3 (fun i j => 977 * i + j))
      ⟨fun k => k + 1, 0⟩).1.data 1 1) = ELEM ∧
    ELEM_SUM ((init_grid_from_string (grid_of 2 3 (fun i j => 977 * i + j))
      ⟨fun k => k + 1, 0⟩).1.data 1 1) = 4 :=
  ⟨by decide, by decide,
    ((init_grid_spec (grid_of 2 3 (fun i j => 977 * i + j))
      ⟨fun k => k + 1, 0⟩).1 1 (by decide) 1 (by decide)).1.2 (by decide),
    by decide⟩

/-! ## Manual editing -/

theorem countP_flip {α : Type} [BEq α] [LawfulBEq α] (L : List α) (P P2 : α → Bool) (p : α)
    (h : ∀ q, q ∈ L → P2 q = (P q || q == p)) (hp : P p = false) :
    L.countP P2 = L.countP P + L.count p := by
  induction L with
  | nil => simp
  | cons x L ih =>
    have hx := h x (List.mem_cons_self x L)
    have ih2 := ih (fun q hq => h q (List.mem_cons_of_mem x hq))
    rw [List.countP_cons, List.countP_cons, List.count_cons, ih2, hx]
    by_cases hxp : x = p
    · subst hxp
      simp [hp]
      omega
    · have : (x == p) = false := by simpa using hxp
      simp only [this, Bool.or_false, Bool.false_eq_true, if_false, Nat.add_zero]
      omega

theorem elem_or_wide (r : Nat) (hr : r / 65536 % 256 = 0) : ELEM ||| r = r + 131072 := by
  have e : r = r / 16777216 * 2 ^ 24 + r % 65536 := by omega
  have h1 := or_shift (r / 16777216) (r % 65536) 24 (by omega)
  have h2 := or_shift (r / 16777216) (131072 + r % 65536) 24 (by omega)
  have h3 := elem_or (r % 65536) (Nat.mod_lt _ (by decide))
  rw [e, ← h1, ← Nat.lor_assoc, Nat.lor_comm ELEM, Nat.lor_assoc, h3, h2]
  omega

theorem toggle_on_value (d : Nat) (hd : d < U32) (ht : d / 65536 % 256 = 0) :
    ELEM ||| (d &&& NOT TAG_MASK) = d + 131072 := by
  simp only [U32] at hd
  rw [and_not_tag, elem_or_wide _ (by omega)]
  omega

theorem toggle_off_value (d : Nat) (hd : d < U32) (ht : d / 65536 % 256 = 2) :
    (NO_ELEM ||| (d &&& NOT TAG_MASK)) + 131072 = d := by
  simp only [U32] at hd
  rw [and_not_tag, no_or]
  omega

theorem toggle_cell_empty (g : grid_t) (x y : Nat) (h : ELEM_TAG (g.data x y) = NO_ELEM) :
    toggle_cell g x y =
      addAll (set_cell g x y (ELEM ||| (g.data x y &&& NOT TAG_MASK)))
        (nbrs g.width g.height x y) := by
  unfold toggle_cell
  simp only [h, if_true]
  rfl

theorem toggle_cell_alive (g : grid_t) (x y : Nat) (h : ELEM_TAG (g.data x y) = ELEM) :
    toggle_cell g x y =
      subAll (set_cell g x y (NO_ELEM ||| (g.data x y &&& NOT TAG_MASK)))
        (nbrs g.width g.height x y) := by
  have hne : ELEM ≠ NO_ELEM := by decide
  unfold toggle_cell
  simp only [h, hne, if_true, if_false]
  rfl

theorem toggle_cell_other (g : grid_t) (x y : Nat) (h1 : ELEM_TAG (g.data x y) ≠ NO_ELEM)
    (h2 : ELEM_TAG (g.data x y) ≠ ELEM) : toggle_cell g x y = g := by
  unfold toggle_cell
  simp only [h1, h2, if_false]

theorem toggle_dims (g : grid_t) (x y : Nat) :
    (toggle_cell g x y).width = g.width ∧ (toggle_cell g x y).height = g.height := by
  by_cases h1 : ELEM_TAG (g.data x y) = NO_ELEM
  · rw [toggle_cell_empty g x y h1, (addAll_dims _ _).1, (addAll_dims _ _).2]
    exact ⟨rfl, rfl⟩
  · by_cases h2 : ELEM_TAG (g.data x y) = ELEM
    · rw [toggle_cell_alive g x y h2, (subAll_dims _ _).1, (subAll_dims _ _).2]
      exact ⟨rfl, rfl⟩
    · rw [toggle_cell_other g x y h1 h2]
      exact ⟨rfl, rfl⟩

/-- Contents of the grid after toggling an Empty cell of a consistent grid. -/
theorem toggle_empty_data (g : grid_t) (hc : Consistent g) (x y : Nat) (hx : x < g.width)
    (hy : y < g.height) (h : ELEM_TAG (g.data x y) = NO_ELEM) (a b : Nat) (ha : a < g.width)
    (hb : b < g.height) :
    countTag g ELEM a b + mult g x y a b ≤ 8 ∧
    (toggle_cell g x y).data a b =
      (if a = x ∧ b = y then g.data x y + 131072 else g.data a b) + mult g x y a b := by
  have hP : (fun q : Nat × Nat => ELEM_TAG (g.data q.1 q.2) == ELEM) (x, y) = false := by
    have hne : NO_ELEM ≠ ELEM := by decide
    simp only [h, beq_eq_false_iff_ne, ne_eq]
    exact hne
  have hA : countTag g ELEM a b + mult g x y a b ≤ 8 := by
    have e := countP_flip (nbrs g.width g.height a b)
      (fun q => ELEM_TAG (g.data q.1 q.2) == ELEM)
      (fun q => (ELEM_TAG (g.data q.1 q.2) == ELEM) || q == (x, y)) (x, y)
      (fun _ _ => rfl) hP
    have hl := List.countP_le_length
      (fun q : Nat × Nat => (ELEM_TAG (g.data q.1 q.2) == ELEM) || q == (x, y))
      (l := nbrs g.width g.height a b)
    rw [e, nbrs_length] at hl
    exact hl
  refine ⟨hA, ?_⟩
  have hxy := consistent_cell g hc x y hx hy
  have hab := consistent_cell g hc a b ha hb
  rw [tag_none_iff] at h
  rw [toggle_cell_empty g x y (by rw [tag_none_iff]; exact h), addAll_data, set_cell_data,
    toggle_on_value _ (g.bounded x y) h, nbrs_count_symm g.width g.height x y a b hx hy ha hb]
  have hbx := g.bounded x y
  have hba := g.bounded a b
  unfold mult at hA ⊢
  simp only [U32] at hbx hba ⊢
  split_ifs with hs
  · obtain ⟨rfl, rfl⟩ := hs
    omega
  · omega

/-- Contents of the grid after toggling an Alive cell of a consistent grid. -/
theorem toggle_alive_data (g : grid_t) (hc : Consistent g) (x y : Nat) (hx : x < g.width)
    (hy : y < g.height) (h : ELEM_TAG (g.data x y) = ELEM) (a b : Nat) (ha : a < g.width)
    (hb : b < g.height) :
    mult g x y a b ≤ countTag g ELEM a b ∧
    (toggle_cell g x y).data a b + mult g x y a b =
      (if a = x ∧ b = y then g.data x y - 131072 else g.data a b) := by
  have hA : mult g x y a b ≤ countTag g ELEM a b := by
    have e := countP_flip (nbrs g.width g.height a b)
      (fun q => (ELEM_TAG (g.data q.1 q.2) == ELEM) && !(q == (x, y)))
      (fun q => ELEM_TAG (g.data q.1 q.2) == ELEM) (x, y)
      (by
        intro q _
        by_cases hq : q = (x, y)
        · subst hq
          simp [h]
        · have : (q == (x, y)) = false := by simpa using hq
          simp [this])
      (by simp)
    unfold mult countTag
    omega
  refine ⟨hA, ?_⟩
  have hxy := consistent_cell g hc x y hx hy
  have hab := consistent_cell g hc a b ha hb
  rw [tag_elem_iff] at h
  have hv := toggle_off_value (g.data x y) (g.bounded x y) h
  rw [toggle_cell_alive g x y (by rw [tag_elem_iff]; exact h), subAll_data, set_cell_data,
    nbrs_count_symm g.width g.height x y a b hx hy ha hb]
  have hbx := g.bounded x y
  have hba := g.bounded a b
  unfold mult at hA ⊢
  simp only [U32] at hbx hba ⊢
  split_ifs with hs
  · obtain ⟨rfl, rfl⟩ := hs
    omega
  · omega

theorem toggle_on_arith (d2 dxy dab m c : Nat) (self : Prop) [Decidable self]
    (hd : d2 = (if self then dxy + 131072 else dab) + m) (hself : self → dab = dxy)
    (ht : dxy / 65536 % 256 = 0) (hs : dab % 256 = c) (hc : c + m ≤ 8) :
    d2 / 65536 % 256 = (if self then 2 else dab / 65536 % 256) ∧
      d2 / 256 % 256 = dab / 256 % 256 ∧ d2 % 256 = c + m := by
  split_ifs at hd ⊢ with h
  · have := hself h
    omega
  · omega

theorem toggle_off_arith (d2 dxy dab m c : Nat) (self : Prop) [Decidable self]
    (hd : d2 + m = (if self then dxy - 131072 else dab)) (hself : self → dab = dxy)
    (ht : dxy / 65536 % 256 = 2) (hs : dab % 256 = c) (hc : m ≤ c) :
    d2 / 65536 % 256 = (if self then 0 else dab / 65536 % 256) ∧
      d2 / 256 % 256 = dab / 256 % 256 ∧ d2 % 256 + m = c := by
  split_ifs at hd ⊢ with h
  · have := hself h
    omega
  · omega

/-- Fields of every cell after toggling an Empty cell of a consistent grid. -/
theorem toggle_empty_fields (g : grid_t) (hc : Consistent g) (x y : Nat) (hx : x < g.width)
    (hy : y < g.height) (h : ELEM_TAG (g.data x y) = NO_ELEM) (a b : Nat) (ha : a < g.width)
    (hb : b < g.height) :
    (toggle_cell g x y).data a b / 65536 % 256 =
      (if a = x ∧ b = y then 2 else g.data a b / 65536 % 256) ∧
    (toggle_cell g x y).data a b / 256 % 256 = g.data a b / 256 % 256 ∧
    (toggle_cell g x y).data a b % 256 = countTag g ELEM a b + mult g x y a b := by
  have hd := toggle_empty_data g hc x y hx hy h a b ha hb
  have hab := consistent_cell g hc a b ha hb
  rw [tag_none_iff] at h
  exact toggle_on_arith _ _ _ _ _ (a = x ∧ b = y) hd.2
    (fun hs => by rw [hs.1, hs.2]) h hab.2.1 hd.1

/-- Fields of every cell after toggling an Alive cell of a consistent grid. -/
theorem toggle_alive_fields (g : grid_t) (hc : Consistent g) (x y : Nat) (hx : x < g.width)
    (hy : y < g.height) (h : ELEM_TAG (g.data x y) = ELEM) (a b : Nat) (ha : a < g.width)
    (hb : b < g.height) :
    (toggle_cell g x y).data a b / 65536 % 256 =
      (if a = x ∧ b = y then 0 else g.data a b / 65536 % 256) ∧
    (toggle_cell g x y).data a b / 256 % 256 = g.data a b / 256 % 256 ∧
    (toggle_cell g x y).data a b % 256 + mult g x y a b = countTag g ELEM a b := by
  have hd := toggle_alive_data g hc x y hx hy h a b ha hb
  have hab := consistent_cell g hc a b ha hb
  rw [tag_elem_iff] at h
  exact toggle_off_arith _ _ _ _ _ (a = x ∧ b = y) hd.2
    (fun hs => by rw [hs.1, hs.2]) h hab.2.1 hd.1

theorem toggle_empty_count (g : grid_t) (hc : Consistent g) (x y : Nat) (hx : x < g.width)
    (hy : y < g.height) (h : ELEM_TAG (g.data x y) = NO_ELEM) (a b : Nat) (ha : a < g.width)
    (hb : b < g.height) :
    countTag (toggle_cell g x y) ELEM a b = countTag g ELEM a b + mult g x y a b := by
  unfold countTag mult
  rw [(toggle_dims g x y).1, (toggle_dims g x y).2]
  apply countP_flip
  · intro q hq
    have hr := nbrs_range _ _ _ _ ha hb q hq
    have hf := (toggle_empty_fields g hc x y hx hy h q.1 q.2 hr.1 hr.2).1
    rw [Bool.eq_iff_iff]
    simp only [beq_iff_eq, Bool.or_eq_true, tag_elem_iff, Prod.ext_iff]
    rw [hf]
    rw [tag_none_iff] at h
    by_cases hs : q.1 = x ∧ q.2 = y
    · simp [hs]
    · simp only [hs, if_false, or_false]
  · have hne : NO_ELEM ≠ ELEM := by decide
    simp only [h, beq_eq_false_iff_ne, ne_eq]
    exact hne

theorem toggle_alive_count (g : grid_t) (hc : Consistent g) (x y : Nat) (hx : x < g.width)
    (hy : y < g.height) (h : ELEM_TAG (g.data x y) = ELEM) (a b : Nat) (ha : a < g.width)
    (hb : b < g.height) :
    countTag g ELEM a b = countTag (toggle_cell g x y) ELEM a b + mult g x y a b := by
  unfold countTag mult
  rw [(toggle_dims g x y).1, (toggle_dims g x y).2]
  apply countP_flip
  · intro q hq
    have hr := nbrs_range _ _ _ _ ha hb q hq
    have hf := (toggle_alive_fields g hc x y hx hy h q.1 q.2 hr.1 hr.2).1
    rw [Bool.eq_iff_iff]
    simp only [beq_iff_eq, Bool.or_eq_true, tag_elem_iff, Prod.ext_iff]
    rw [hf]
    rw [tag_elem_iff] at h
    by_cases hs : q.1 = x ∧ q.2 = y
    · rw [hs.1, hs.2]
      simp [h]
    · simp only [hs, if_false, or_false]
  · have hf := (toggle_alive_fields g hc x y hx hy h x y hx hy).1
    simp only [and_self, if_true] at hf
    simp only [beq_eq_false_iff_ne, ne_eq, tag_elem_iff, hf]
    decide

/-- Toggling an in-range cell of a consistent grid leaves a consistent grid. -/
theorem toggle_consistent (g : grid_t) (hc : Consistent g) (x y : Nat) (hx : x < g.width)
    (hy : y < g.height) : Consistent (toggle_cell g x y) := by
  intro a ha b hb
  rw [(toggle_dims g x y).1] at ha
  rw [(toggle_dims g x y).2] at hb
  have hab := consistent_cell g hc a b ha hb
  rw [tag_none_iff, tag_elem_iff, ELEM_SUM_eq]
  rcases (hc x hx y hy).1 with h | h
  · have hf := toggle_empty_fields g hc x y hx hy h a b ha hb
    rw [toggle_empty_count g hc x y hx hy h a b ha hb, hf.1]
    refine ⟨?_, hf.2.2⟩
    split_ifs
    · exact Or.inr rfl
    · exact hab.1
  · have hf := toggle_alive_fields g hc x y hx hy h a b ha hb
    have hcnt := toggle_alive_count g hc x y hx hy h a b ha hb
    rw [hf.1]
    refine ⟨?_, ?_⟩
    · split_ifs
      · exact Or.inl rfl
      · exact hab.1
    · have h3 := hf.2.2
      generalize (toggle_cell g x y).data a b % 256 = s2 at h3 ⊢
      generalize countTag (toggle_cell g x y) ELEM a b = c2 at hcnt ⊢
      generalize countTag g ELEM a b = c1 at hcnt h3
      omega

/-! ## Claim C7 -/

/-- C7 (toggle effect). On every consistent grid and for every in-range `(x,y)` (so the grid
has positive width and height), `toggle_cell` turns an Empty cell `(x,y)` Alive and an Alive
one Empty, keeps its trait, leaves tag and trait of every other cell unchanged, and
afterwards every neighbour sum is again the number of Alive neighbour positions. -/
theorem toggle_effect (g : grid_t) (hc : Consistent g) (x y : Nat) (hx : x < g.width)
    (hy : y < g.height) :
    (ELEM_TAG (g.data x y) = NO_ELEM → ELEM_TAG ((toggle_cell g x y).data x y) = ELEM) ∧
    (ELEM_TAG (g.data x y) = ELEM → ELEM_TAG ((toggle_cell g x y).data x y) = NO_ELEM) ∧
    ELEM_GENC ((toggle_cell g x y).data x y) = ELEM_GENC (g.data x y) ∧
    (∀ a, a < g.width → ∀ b, b < g.height → ¬ (a = x ∧ b = y) →
      ELEM_TAG ((toggle_cell g x y).data a b) = ELEM_TAG (g.data a b) ∧
        ELEM_GENC ((toggle_cell g x y).data a b) = ELEM_GENC (g.data a b)) ∧
    (∀ a, a < g.width → ∀ b, b < g.height →
      ELEM_SUM ((toggle_cell g x y).data a b) = countTag (toggle_cell g x y) ELEM a b) := by
  have hcons := toggle_consistent g hc x y hx hy
  have key : ∀ a, a < g.width → ∀ b, b < g.height →
      ((toggle_cell g x y).data a b / 65536 % 256 =
        (if a = x ∧ b = y then (if ELEM_TAG (g.data x y) = NO_ELEM then 2 else 0)
          else g.data a b / 65536 % 256)) ∧
      (toggle_cell g x y).data a b / 256 % 256 = g.data a b / 256 % 256 := by
    intro a ha b hb
    rcases (hc x hx y hy).1 with h | h
    · have hf := toggle_empty_fields g hc x y hx hy h a b ha hb
      rw [if_pos h]
      exact ⟨hf.1, hf.2.1⟩
    · have hf := toggle_alive_fields g hc x y hx hy h a b ha hb
      have hne : ¬ ELEM_TAG (g.data x y) = NO_ELEM := by rw [h]; decide
      rw [if_neg hne]
      exact ⟨hf.1, hf.2.1⟩
  have kxy := key x hx y hy
  simp only [and_self, if_true] at kxy
  refine ⟨?_, ?_, ?_, ?_, ?_⟩
  · intro h
    rw [tag_elem_iff, kxy.1, if_pos h]
  · intro h
    have hne : ¬ ELEM_TAG (g.data x y) = NO_ELEM := by rw [h]; decide
    rw [tag_none_iff, kxy.1, if_neg hne]
  · rw [ELEM_GENC_eq, ELEM_GENC_eq, kxy.2]
  · intro a ha b hb hs
    have k := key a ha b hb
    rw [if_neg hs] at k
    rw [ELEM_TAG_eq, ELEM_TAG_eq, ELEM_GENC_eq, ELEM_GENC_eq, k.1, k.2]
    exact ⟨rfl, rfl⟩
  · intro a ha b hb
    exact (hcons a (by rw [(toggle_dims g x y).1]; exact ha) b
      (by rw [(toggle_dims g x y).2]; exact hb)).2

/-- C7, witness: switching on a neighbour of the lone cell of the 3 x 3 torus. -/
theorem toggle_effect_witness :
    Consistent loneCell ∧ 0 < loneCell.width ∧ 0 < loneCell.height ∧
    ELEM_TAG (loneCell.data 0 1) = NO_ELEM ∧
    ELEM_TAG ((toggle_cell loneCell 0 1).data 0 1) = ELEM :=
  ⟨by decide, by decide, by decide, by decide,
    (toggle_effect loneCell (by decide) 0 1 (by decide) (by decide)).1 (by decide)⟩

/-! ## Claim C8 -/

theorem grid_ext (g1 g2 : grid_t) (hd : ∀ a b, g1.data a b = g2.data a b)
    (hw : g1.width = g2.width) (hh : g1.height = g2.height) : g1 = g2 := by
  cases g1 with
  | mk d1 w1 h1 b1 =>
    cases g2 with
    | mk d2 w2 h2 b2 =>
      simp only at hd hw hh
      have : d1 = d2 := by
        funext a b
        exact hd a b
      subst this
      subst hw
      subst hh
      rfl

/-- The toggle writes nothing outside the grid. -/
theorem toggle_outside (g : grid_t) (x y : Nat) (hx : x < g.width) (hy : y < g.height)
    (a b : Nat) (hab : ¬ (a < g.width ∧ b < g.height)) :
    (toggle_cell g x y).data a b = g.data a b := by
  have hne : ¬ (a = x ∧ b = y) := by
    intro h
    exact hab ⟨by rw [h.1]; exact hx, by rw [h.2]; exact hy⟩
  have hz : (nbrs g.width g.height x y).count (a, b) = 0 := by
    apply List.count_eq_zero_of_not_mem
    intro hm
    exact hab (nbrs_range _ _ _ _ hx hy (a, b) hm)
  have hb := g.bounded a b
  by_cases h1 : ELEM_TAG (g.data x y) = NO_ELEM
  · rw [toggle_cell_empty g x y h1, addAll_data, set_cell_data, if_neg hne, hz, Nat.add_zero,
      Nat.mod_eq_of_lt hb]
  · by_cases h2 : ELEM_TAG (g.data x y) = ELEM
    · rw [toggle_cell_alive g x y h2, subAll_data, set_cell_data, if_neg hne, hz, Nat.zero_mul,
        Nat.add_zero, Nat.mod_eq_of_lt hb]
    · rw [toggle_cell_other g x y h1 h2]

/-- The toggled cell changes sides. -/
theorem toggle_flip (g : grid_t) (hc : Consistent g) (x y : Nat) (hx : x < g.width)
    (hy : y < g.height) :
    (ELEM_TAG (g.data x y) = NO_ELEM → ELEM_TAG ((toggle_cell g x y).data x y) = ELEM) ∧
    (ELEM_TAG (g.data x y) = ELEM → ELEM_TAG ((toggle_cell g x y).data x y) = NO_ELEM) := by
  constructor
  · intro h
    have hf := (toggle_empty_fields g hc x y hx hy h x y hx hy).1
    simp only [and_self, if_true] at hf
    rw [tag_elem_iff, hf]
  · intro h
    have hf := (toggle_alive_fields g hc x y hx hy h x y hx hy).1
    simp only [and_self, if_true] at hf
    rw [tag_none_iff, hf]

theorem toggle_mult (g : grid_t) (x y a b : Nat) :
    mult (toggle_cell g x y) x y a b = mult g x y a b := by
  unfold mult
  rw [(toggle_dims g x y).1, (toggle_dims g x y).2]

theorem toggle_back_arith (d0 d1 d2 dxy1 dxy m : Nat) (self : Prop) [Decidable self]
    (h1 : d1 = (if self then dxy + 131072 else d0) + m)
    (h2 : d2 + m = (if self then dxy1 - 131072 else d1))
    (hs1 : self → d1 = dxy1) (hs0 : self → d0 = dxy) : d2 = d0 := by
  split_ifs at h1 h2 with h
  · have := hs1 h
    have := hs0 h
    omega
  · omega

theorem toggle_forth_arith (d0 d1 d2 dxy1 dxy m : Nat) (self : Prop) [Decidable self]
    (h1 : d1 + m = (if self then dxy - 131072 else d0))
    (h2 : d2 = (if self then dxy1 + 131072 else d1) + m)
    (hs1 : self → d1 = dxy1) (hs0 : self → d0 = dxy) (ht : dxy / 65536 % 256 = 2) :
    d2 = d0 := by
  split_ifs at h1 h2 with h
  · have := hs1 h
    have := hs0 h
    omega
  · omega

/-- C8 (toggle pair is the identity). On every consistent grid and for every in-range
`(x,y)`, calling `toggle_cell` twice in a row on `(x,y)` gives back the grid exactly as it
was: the cell, the neighbour sums of its neighbours and every other cell. -/
theorem toggle_twice (g : grid_t) (hc : Consistent g) (x y : Nat) (hx : x < g.width)
    (hy : y < g.height) : toggle_cell (toggle_cell g x y) x y = g := by
  have hW := (toggle_dims g x y).1
  have hH := (toggle_dims g x y).2
  have hc1 := toggle_consistent g hc x y hx hy
  have eff := toggle_flip g hc x y hx hy
  apply grid_ext
  · intro a b
    by_cases hab : a < g.width ∧ b < g.height
    · obtain ⟨ha, hb⟩ := hab
      rcases (hc x hx y hy).1 with h | h
      · have h1 := (toggle_empty_data g hc x y hx hy h a b ha hb).2
        have h2 := (toggle_alive_data (toggle_cell g x y) hc1 x y (by omega) (by omega)
          (eff.1 h) a b (by omega) (by omega)).2
        rw [toggle_mult] at h2
        exact toggle_back_arith _ _ _ _ _ _ (a = x ∧ b = y) h1 h2
          (fun hs => by rw [hs.1, hs.2]) (fun hs => by rw [hs.1, hs.2])
      · have h1 := (toggle_alive_data g hc x y hx hy h a b ha hb).2
        have h2 := (toggle_empty_data (toggle_cell g x y) hc1 x y (by omega) (by omega)
          (eff.2 h) a b (by omega) (by omega)).2
        rw [toggle_mult] at h2
        rw [tag_elem_iff] at h
        exact toggle_forth_arith _ _ _ _ _ _ (a = x ∧ b = y) h1 h2
          (fun hs => by rw [hs.1, hs.2]) (fun hs => by rw [hs.1, hs.2]) h
    · rw [toggle_outside (toggle_cell g x y) x y (by omega) (by omega) a b
        (by rw [hW, hH]; exact hab), toggle_outside g x y hx hy a b hab]
  · rw [(toggle_dims _ x y).1, hW]
  · rw [(toggle_dims _ x y).2, hH]

/-- C8, witness: toggling a neighbour of the lone cell of the 3 x 3 torus twice. -/
theorem toggle_twice_witness :
    Consistent loneCell ∧ 0 < loneCell.width ∧ 0 < loneCell.height ∧
    toggle_cell (toggle_cell loneCell 0 1) 0 1 = loneCell :=
  ⟨by decide, by decide, by decide,
    toggle_twice loneCell (by decide) 0 1 (by decide) (by decide)⟩

/-! ## Claim C2 -/

/-- Any tick on a consistent grid of at least 2 x 2 cells restores every neighbour sum. -/
theorem tick_keeps_sums (g : grid_t) (hw : 2 ≤ g.width) (hh : 2 ≤ g.height)
    (hc : Consistent g) (rng : Rng) :
    ∀ i, i < g.width → ∀ j, j < g.height →
      ELEM_SUM ((tick (g, rng)).1.data i j) = countTag (tick (g, rng)).1 ELEM i j := by
  obtain ⟨hW, hH, hC, _⟩ := tick_cell g hw hh hc rng
  intro i hi j hj
  exact (hC i (by rw [hW]; exact hi) j (by rw [hH]; exact hj)).2

/-- C2 (neighbour-sum invariant across ticks), at a grid of height 1: the grid is
consistent, the tick makes all three cells Alive, so every cell has 8 Alive neighbour
positions, but the neighbour-sum field of cell `(1,0)` ends at 7: the commit scan overwrote
the increment the newborn cell had given to itself. -/
theorem tick_flat_grid_sum :
    Consistent flatGrid ∧
    ELEM_SUM ((tick (flatGrid, ⟨fun _ => 0, 0⟩)).1.data 1 0) = MAKE_SUM 7 ∧
    countTag (tick (flatGrid, ⟨fun _ => 0, 0⟩)).1 ELEM 1 0 = 8 ∧
    ¬ Consistent (tick (flatGrid, ⟨fun _ => 0, 0⟩)).1 := by
  decide

/-! ## Reachable states -/

/-- The size bound of `reachable_consistent` cannot be dropped. On a 3 x 1 grid, a size
`run_tui` never creates, the state `flatRun` is reachable and its cell `(0,0)` holds
`0xFFFFFFFF`, whose tag is neither Empty nor Alive (nor Born, nor Dying): a decrement of a
neighbour sum that the earlier tick had left too small borrowed through the trait and tag
bits. -/
theorem flat_run_tag :
    Reachable (grid_of 3 1 (fun _ _ => 0)) flatDraws flatRun ∧
    flatRun.1.data 0 0 = 4294967295 ∧
    ELEM_TAG (flatRun.1.data 0 0) ≠ NO_ELEM ∧ ELEM_TAG (flatRun.1.data 0 0) ≠ ELEM ∧
    ELEM_TAG (flatRun.1.data 0 0) ≠ BORN_ELEM ∧ ELEM_TAG (flatRun.1.data 0 0) ≠ DEAD_ELEM :=
  ⟨Reachable.tick _ (Reachable.toggle _ 0 0 (Reachable.tick _ Reachable.init)
      (by decide) (by decide)),
    by decide, by decide, by decide, by decide, by decide⟩

/-! ## Claim C9 -/

/-- C9 as stated fails: with 24 equally likely draw values, a neighbour of trait 4 succeeds
on all 24 of them (not on half), and a neighbour of trait 3 never fails. -/
theorem trial_not_eighths :
    trialSuccesses (ELEM ||| MAKE_GENC 4) 24 = 24 ∧
    trialSuccesses (ELEM ||| MAKE_GENC 3) 24 = 24 ∧
    ¬ (8 * trialSuccesses (ELEM ||| MAKE_GENC 4) 24 = 4 * 24) := by
  decide

theorem random_genc_iff (e : Nat) (rng : Rng) :
    ((random_genc e rng).1 = true ↔ rng.draws rng.pos % 3 < ELEM_GENC e >>> 8) ∧
      (random_genc e rng).2.pos = rng.pos + 1 ∧ (random_genc e rng).2.draws = rng.draws := by
  unfold random_genc rand
  simp

theorem trialSuccesses_three (e n : Nat) :
    trialSuccesses e (3 * n) = n * min (ELEM_GENC e >>> 8) 3 := by
  induction n with
  | zero => simp [trialSuccesses]
  | succ n ih =>
    unfold trialSuccesses at ih ⊢
    have e3 : 3 * (n + 1) = 3 * n + 1 + 1 + 1 := by ring
    rw [e3, List.range_succ, List.range_succ, List.range_succ]
    simp only [List.countP_append, List.countP_cons, List.countP_nil, ih,
      (random_genc_iff e _).1, decide_eq_true_eq]
    have h0 : 3 * n % 3 = 0 := by omega
    have h1 : (3 * n + 1) % 3 = 1 := by omega
    have h2 : (3 * n + 1 + 1) % 3 = 2 := by omega
    rw [h0, h1, h2, Nat.succ_mul]
    generalize ELEM_GENC e >>> 8 = t
    have hm : min t 3 = if t ≤ 3 then t else 3 := by
      split_ifs <;> omega
    rw [hm]
    split_ifs <;> omega

theorem chooseAll_count (cells : List Nat) (r : Nat) (rng : Rng) :
    (chooseAll cells (r, rng)).1 =
      r + successCount (cells.filter (fun e => decide (ELEM_TAG e ≥ ELEM))) rng.draws rng.pos ∧
    (chooseAll cells (r, rng)).2.pos =
      rng.pos + (cells.filter (fun e => decide (ELEM_TAG e ≥ ELEM))).length ∧
    (chooseAll cells (r, rng)).2.draws = rng.draws := by
  induction cells generalizing r rng with
  | nil => simp [chooseAll, successCount]
  | cons e es ih =>
    have hr := random_genc_iff e rng
    by_cases ht : ELEM_TAG e ≥ ELEM
    · have hf : (e :: es).filter (fun e => decide (ELEM_TAG e ≥ ELEM)) =
          e :: es.filter (fun e => decide (ELEM_TAG e ≥ ELEM)) := by
        simp [List.filter_cons, ht]
      rw [hf]
      by_cases hs : (random_genc e rng).1 = true
      · have hstep : choose_genc e r rng = (r + 1, (random_genc e rng).2) := by
          unfold choose_genc
          simp only [ht, hs, if_true]
        have h := ih (r + 1) (random_genc e rng).2
        rw [hr.2.1, hr.2.2] at h
        simp only [chooseAll, List.foldl_cons, hstep, successCount, List.length_cons] at h ⊢
        have hs2 : (random_genc e ⟨rng.draws, rng.pos⟩).1 = true := hs
        rw [if_pos hs2]
        refine ⟨?_, ?_, h.2.2⟩
        · rw [h.1]; omega
        · rw [h.2.1]; omega
      · have hstep : choose_genc e r rng = (r, (random_genc e rng).2) := by
          unfold choose_genc
          simp only [ht, hs, if_true, if_false]
          simp
        have h := ih r (random_genc e rng).2
        rw [hr.2.1, hr.2.2] at h
        simp only [chooseAll, List.foldl_cons, hstep, successCount, List.length_cons] at h ⊢
        have hs2 : ¬ (random_genc e ⟨rng.draws, rng.pos⟩).1 = true := hs
        rw [if_neg hs2]
        refine ⟨?_, ?_, h.2.2⟩
        · rw [h.1]; omega
        · rw [h.2.1]; omega
    · have hf : (e :: es).filter (fun e => decide (ELEM_TAG e ≥ ELEM)) =
          es.filter (fun e => decide (ELEM_TAG e ≥ ELEM)) := by
        simp [List.filter_cons, ht]
      have hstep : choose_genc e r rng = (r, rng) := by
        unfold choose_genc
        simp only [ht, if_false]
      rw [hf]
      have h := ih r rng
      simp only [chooseAll, List.foldl_cons, hstep] at h ⊢
      exact h

/-- C9, amended (inheritance probability). In `baby_genc`, each participating neighbour is
given one trial (`random_genc`), which succeeds exactly when the draw modulo 3 is below the
neighbour's trait: among the draw values `0, ..., 3n-1` it succeeds on `n * min trait 3`,
that is on a fraction `min(trait,3)/3` (never for trait 0, always from trait 3 on). The
participants are tried in the order of the calls, each with the next draw, and the
newborn's trait is the number of successful trials. -/
theorem trial_thirds (g : grid_t) (i j : Nat) (rng : Rng) (e n : Nat) :
    ((random_genc e rng).1 = true ↔ rng.draws rng.pos % 3 < ELEM_GENC e >>> 8) ∧
    trialSuccesses e (3 * n) = n * min (ELEM_GENC e >>> 8) 3 ∧
    (baby_genc g i j rng).1 = MAKE_GENC (successCount (participants g i j) rng.draws rng.pos) ∧
    (baby_genc g i j rng).2.pos = rng.pos + (participants g i j).length := by
  have h := chooseAll_count (nbrCells g i j) 0 rng
  refine ⟨(random_genc_iff e rng).1, trialSuccesses_three e n, ?_, ?_⟩
  · rw [baby_genc_eq]
    simp only
    rw [h.1, Nat.zero_add]
    rfl
  · rw [baby_genc_eq]
    exact h.2.1

/-! ## Claim C10 -/

/-- C10 as stated fails: around `(1,1)` of `dyingTraitGrid` every neighbour tagged Alive has
trait 0, yet `baby_genc` returns trait 1 (the Dying neighbour of trait 1 takes part). -/
theorem baby_genc_dying_neighbour :
    0 < dyingTraitGrid.width ∧ 0 < dyingTraitGrid.height ∧
    (∀ q, q ∈ nbrs dyingTraitGrid.width dyingTraitGrid.height 1 1 →
      ELEM_TAG (dyingTraitGrid.data q.1 q.2) = ELEM →
        ELEM_GENC (dyingTraitGrid.data q.1 q.2) = MAKE_GENC 0) ∧
    (baby_genc dyingTraitGrid 1 1 ⟨fun _ => 0, 0⟩).1 = MAKE_GENC 1 ∧
    (baby_genc dyingTraitGrid 1 1 ⟨fun _ => 0, 0⟩).1 ≠ MAKE_GENC 0 := by
  decide

theorem genc_shift (e t : Nat) (h : ELEM_GENC e = MAKE_GENC t) : ELEM_GENC e >>> 8 = t := by
  rw [ELEM_GENC_eq, MAKE_GENC_eq] at h
  rw [ELEM_GENC_eq, Nat.shiftRight_eq_div_pow]
  omega

theorem chooseAll_none (cells : List Nat) (r : Nat × Rng)
    (h : ∀ e, e ∈ cells → ELEM_TAG e ≥ ELEM → ELEM_GENC e >>> 8 = 0) :
    (chooseAll cells r).1 = r.1 := by
  induction cells generalizing r with
  | nil => rfl
  | cons e es ih =>
    have he := h e (List.mem_cons_self e es)
    have hstep : (choose_genc e r.1 r.2).1 = r.1 := by
      unfold choose_genc
      by_cases ht : ELEM_TAG e ≥ ELEM
      · have hf : ¬ (random_genc e r.2).1 = true := by
          rw [(random_genc_iff e r.2).1, he ht]
          omega
        simp only [ht, hf, if_true, if_false]
        simp
      · simp only [ht, if_false]
    have h2 := ih (choose_genc e r.1 r.2) (fun e2 h2 => h e2 (List.mem_cons_of_mem e h2))
    simp only [chooseAll, List.foldl_cons] at h2 ⊢
    rw [h2, hstep]

theorem chooseAll_all (cells : List Nat) (r : Nat × Rng)
    (h : ∀ e, e ∈ cells → ELEM_TAG e ≥ ELEM ∧ 3 ≤ ELEM_GENC e >>> 8) :
    (chooseAll cells r).1 = r.1 + cells.length := by
  induction cells generalizing r with
  | nil => rfl
  | cons e es ih =>
    have he := h e (List.mem_cons_self e es)
    have hstep : (choose_genc e r.1 r.2).1 = r.1 + 1 := by
      unfold choose_genc
      have hf : (random_genc e r.2).1 = true := by
        rw [(random_genc_iff e r.2).1]
        have := Nat.mod_lt (r.2.draws r.2.pos) (by decide : 0 < 3)
        omega
      simp only [he.1, hf, if_true]
    have h2 := ih (choose_genc e r.1 r.2) (fun e2 h2 => h e2 (List.mem_cons_of_mem e h2))
    simp only [chooseAll, List.foldl_cons, List.length_cons] at h2 ⊢
    rw [h2, hstep]
    omega

/-- C10, amended (trait bound). For every grid, every position and every generator state,
the trait `baby_genc` computes is `MAKE_GENC r` with `r` in 0..8; if every neighbour whose
tag is Alive or above (Alive or Dying: the tag test of `choose_genc`) has trait 0, the
result is 0 whatever the draws; and if all 8 neighbours are Alive with trait 8 the result
is 8 whatever the draws. -/
theorem baby_genc_bounds (g : grid_t) (i j : Nat) (rng : Rng) :
    (∃ r, r ≤ 8 ∧ (baby_genc g i j rng).1 = MAKE_GENC r) ∧
    ((∀ q, q ∈ nbrs g.width g.height i j → ELEM_TAG (g.data q.1 q.2) ≥ ELEM →
        ELEM_GENC (g.data q.1 q.2) = MAKE_GENC 0) →
      (baby_genc g i j rng).1 = MAKE_GENC 0) ∧
    ((∀ q, q ∈ nbrs g.width g.height i j →
        ELEM_TAG (g.data q.1 q.2) = ELEM ∧ ELEM_GENC (g.data q.1 q.2) = MAKE_GENC 8) →
      (baby_genc g i j rng).1 = MAKE_GENC 8) := by
  refine ⟨baby_genc_range g i j rng, ?_, ?_⟩
  · intro h
    rw [baby_genc_eq]
    simp only
    rw [chooseAll_none]
    intro e he ht
    obtain ⟨q, hq, rfl⟩ := List.mem_map.mp he
    exact genc_shift _ 0 (h q hq ht)
  · intro h
    rw [baby_genc_eq]
    simp only
    rw [chooseAll_all]
    · simp [nbrCells, nbrs_length]
    · intro e he
      obtain ⟨q, hq, rfl⟩ := List.mem_map.mp he
      have hq2 := h q hq
      refine ⟨by rw [hq2.1], ?_⟩
      rw [genc_shift _ 8 hq2.2]
      decide

/-- C10, witness: all 8 neighbours Alive with trait 8 give trait 8; and around `(1,1)` of
the lone-cell grid no neighbour is Alive or Dying, which gives trait 0. -/
theorem baby_genc_bounds_witness :
    (∀ q, q ∈ nbrs fullTraitGrid.width fullTraitGrid.height 1 1 →
      ELEM_TAG (fullTraitGrid.data q.1 q.2) = ELEM ∧
        ELEM_GENC (fullTraitGrid.data q.1 q.2) = MAKE_GENC 8) ∧
    (baby_genc fullTraitGrid 1 1 ⟨fun k => k, 0⟩).1 = MAKE_GENC 8 ∧
    (∀ q, q ∈ nbrs loneCell.width loneCell.height 1 1 →
      ELEM_TAG (loneCell.data q.1 q.2) ≥ ELEM →
        ELEM_GENC (loneCell.data q.1 q.2) = MAKE_GENC 0) ∧
    (baby_genc loneCell 1 1 ⟨fun k => k, 0⟩).1 = MAKE_GENC 0 :=
  ⟨by decide, (baby_genc_bounds fullTraitGrid 1 1 ⟨fun k => k, 0⟩).2.2 (by decide),
    by decide, (baby_genc_bounds loneCell 1 1 ⟨fun k => k, 0⟩).2.1 (by decide)⟩

/-! ## Claim C11 -/

/-- C11 as stated fails: around `(1,1)` of `dyingOnlyGrid` no neighbour is Alive, the
neighbour `(0,0)` is Dying, and yet `baby_genc` consumes a draw and returns trait 1. -/
theorem baby_genc_dying_takes_part :
    (∀ q, q ∈ nbrs dyingOnlyGrid.width dyingOnlyGrid.height 1 1 →
      ELEM_TAG (dyingOnlyGrid.data q.1 q.2) ≠ ELEM) ∧
    ELEM_TAG (dyingOnlyGrid.data 0 0) = DEAD_ELEM ∧
    (baby_genc dyingOnlyGrid 1 1 ⟨fun _ => 0, 0⟩).1 = MAKE_GENC 1 ∧
    (baby_genc dyingOnlyGrid 1 1 ⟨fun _ => 0, 0⟩).2.pos = 1 := by
  decide

theorem tag_below_elem (e : Nat) (h : ELEM_TAG e = NO_ELEM ∨ ELEM_TAG e = BORN_ELEM) :
    ELEM_TAG e < ELEM := by
  rw [NO_ELEM_eq, BORN_ELEM_eq] at h
  rw [ELEM_eq]
  omega

theorem tag_above_elem (e : Nat) (h : ELEM_TAG e = ELEM ∨ ELEM_TAG e = DEAD_ELEM) :
    ELEM_TAG e ≥ ELEM := by
  rw [ELEM_eq, DEAD_ELEM_eq] at h
  rw [ELEM_eq]
  omega

theorem choose_genc_skip (e rp : Nat) (rng : Rng) (h : ELEM_TAG e < ELEM) :
    choose_genc e rp rng = (rp, rng) := by
  unfold choose_genc
  have : ¬ ELEM_TAG e ≥ ELEM := by omega
  simp only [this, if_false]

theorem choose_genc_trial (e rp : Nat) (rng : Rng) (h : ELEM_TAG e ≥ ELEM) :
    (choose_genc e rp rng).1 =
        rp + (if rng.draws rng.pos % 3 < ELEM_GENC e >>> 8 then 1 else 0) ∧
      (choose_genc e rp rng).2.pos = rng.pos + 1 := by
  have hr := random_genc_iff e rng
  unfold choose_genc
  simp only [h, if_true]
  by_cases hs : (random_genc e rng).1 = true
  · have hd := hr.1.mp hs
    simp only [hs, if_true, hd]
    exact ⟨trivial, hr.2.1⟩
  · have hd : ¬ rng.draws rng.pos % 3 < ELEM_GENC e >>> 8 := fun h2 => hs (hr.1.mpr h2)
    simp only [hs, hd, if_false, Nat.add_zero]
    exact ⟨by simp, hr.2.1⟩

/-- C11, amended (who takes part in trait inheritance). A neighbour whose tag is Empty or
Born when `baby_genc` evaluates it never adds to the newborn's trait and consumes no random
draw, whatever its trait field is; a neighbour tagged Alive or Dying is given one trial and
consumes one draw. So the cells that take part are exactly the neighbours tagged Alive or
above, none of them Empty or Born, and the draws consumed are as many as those cells. -/
theorem only_live_take_part (g : grid_t) (i j : Nat) (rng : Rng) :
    (∀ e rp : Nat, ELEM_TAG e = NO_ELEM ∨ ELEM_TAG e = BORN_ELEM →
      choose_genc e rp rng = (rp, rng)) ∧
    (∀ e rp : Nat, ELEM_TAG e = ELEM ∨ ELEM_TAG e = DEAD_ELEM →
      (choose_genc e rp rng).1 =
          rp + (if rng.draws rng.pos % 3 < ELEM_GENC e >>> 8 then 1 else 0) ∧
        (choose_genc e rp rng).2.pos = rng.pos + 1) ∧
    (∀ e, e ∈ participants g i j → ELEM_TAG e ≠ NO_ELEM ∧ ELEM_TAG e ≠ BORN_ELEM) ∧
    (baby_genc g i j rng).2.pos = rng.pos + (participants g i j).length ∧
    (baby_genc g i j rng).1 = MAKE_GENC (successCount (participants g i j) rng.draws rng.pos) := by
  refine ⟨?_, ?_, ?_, ?_, ?_⟩
  · intro e rp h
    exact choose_genc_skip e rp rng (tag_below_elem e h)
  · intro e rp h
    exact choose_genc_trial e rp rng (tag_above_elem e h)
  · intro e he
    have h := (List.mem_filter.mp he).2
    simp only [decide_eq_true_eq] at h
    constructor
    · intro h0
      have := tag_below_elem e (Or.inl h0)
      omega
    · intro h0
      have := tag_below_elem e (Or.inr h0)
      omega
  · rw [baby_genc_eq]
    exact (chooseAll_count (nbrCells g i j) 0 rng).2.1
  · rw [baby_genc_eq]
    simp only
    rw [(chooseAll_count (nbrCells g i j) 0 rng).1, Nat.zero_add]
    rfl

/-- C11, witness: a Born cell of trait 5 is skipped. -/
theorem only_live_take_part_witness :
    (ELEM_TAG (BORN_ELEM + MAKE_GENC 5) = NO_ELEM ∨ ELEM_TAG (BORN_ELEM + MAKE_GENC 5) = BORN_ELEM) ∧
    choose_genc (BORN_ELEM + MAKE_GENC 5) 0 ⟨fun _ => 0, 0⟩ = (0, ⟨fun _ => 0, 0⟩) :=
  ⟨by decide, (only_live_take_part loneCell 1 1 ⟨fun _ => 0, 0⟩).1 _ 0 (by decide)⟩

/-! ## Claim C13 -/

theorem classified_sum (old new : Nat) (hC : Classified old new) : new % 256 = old % 256 := by
  unfold Classified at hC
  split_ifs at hC with h1 h2
  · obtain ⟨r, _, rfl⟩ := hC
    omega
  · subst hC
    omega
  · subst hC
    rfl

/-- C13 (classify does not touch the neighbour-sum cache). For every grid, whatever its
cells hold, and every generator state, the neighbour-sum field of every cell after
`one_step` is the one it had before, also for the cells that became Born or Dying. -/
theorem classify_keeps_sum (g : grid_t) (rng : Rng) :
    ∀ i, i < g.width → ∀ j, j < g.height →
      ELEM_SUM ((one_step g rng).grid.data i j) = ELEM_SUM (g.data i j) := by
  intro i hi j hj
  rw [ELEM_SUM_eq, ELEM_SUM_eq]
  exact classified_sum _ _ ((one_step_data g rng).2.2 i hi j hj)

/-- C13, witness: the lone cell of the 3 x 3 torus becomes Dying and keeps its sum. -/
theorem classify_keeps_sum_witness :
    ELEM_TAG ((one_step loneCell ⟨fun _ => 0, 0⟩).grid.data 1 1) = DEAD_ELEM ∧
    ELEM_SUM ((one_step loneCell ⟨fun _ => 0, 0⟩).grid.data 1 1) = ELEM_SUM (loneCell.data 1 1) :=
  ⟨by decide, classify_keeps_sum loneCell ⟨fun _ => 0, 0⟩ 1 (by decide) 1 (by decide)⟩

/-! ## Claim C16 -/

/-- C16 (toggle ignores transitional cells). For every grid and every in-range `(x,y)`
whose cell is Born or Dying, `toggle_cell` leaves the entire grid unchanged. -/
theorem toggle_transitional (g : grid_t) (x y : Nat) (_hx : x < g.width) (_hy : y < g.height)
    (h : ELEM_TAG (g.data x y) = BORN_ELEM ∨ ELEM_TAG (g.data x y) = DEAD_ELEM) :
    toggle_cell g x y = g := by
  rw [BORN_ELEM_eq, DEAD_ELEM_eq] at h
  apply toggle_cell_other
  · rw [NO_ELEM_eq]
    omega
  · rw [ELEM_eq]
    omega

/-- C16, witness: the Born cell and the Dying cell of `transitionalGrid`. -/
theorem toggle_transitional_witness :
    1 < transitionalGrid.width ∧ 1 < transitionalGrid.height ∧
    ELEM_TAG (transitionalGrid.data 1 1) = BORN_ELEM ∧
    ELEM_TAG (transitionalGrid.data 0 0) = DEAD_ELEM ∧
    toggle_cell transitionalGrid 1 1 = transitionalGrid ∧
    toggle_cell transitionalGrid 0 0 = transitionalGrid :=
  ⟨by decide, by decide, by decide, by decide,
    toggle_transitional transitionalGrid 1 1 (by decide) (by decide) (Or.inl (by decide)),
    toggle_transitional transitionalGrid 0 0 (by decide) (by decide) (Or.inr (by decide))⟩

/-! ## Claim C12 -/

theorem countTag_zero (g : grid_t) (t a b : Nat)
    (h : ∀ q, q ∈ nbrs g.width g.height a b → ELEM_TAG (g.data q.1 q.2) ≠ t) :
    countTag g t a b = 0 := by
  unfold countTag
  rw [List.countP_eq_zero]
  intro q hq
  simpa using h q hq

/-- A consistent grid is also a (trivial) mid-tick grid: nothing is Born or Dying. -/
theorem consistent_midTick (g : grid_t) (hc : Consistent g) : MidTick g := by
  intro a ha b hb
  have hz : countTag g DEAD_ELEM a b = 0 := by
    apply countTag_zero
    intro q hq
    have hr := nbrs_range _ _ _ _ ha hb q hq
    have h := (hc q.1 hr.1 q.2 hr.2).1
    rw [NO_ELEM_eq, ELEM_eq] at h
    rw [DEAD_ELEM_eq]
    omega
  rw [hz, Nat.add_zero]
  exact (hc a ha b hb).2

theorem commit_trait_arith (x1 x2 cc : Nat) (h2a : x2 / 256 = cc / 256)
    (h2c : cc % 65536 = x1 % 65536) : x2 / 256 % 256 * 256 = x1 / 256 % 256 * 256 := by
  omega

/-- The commit scan keeps every trait on a mid-tick grid of at least 2 x 2 cells. -/
theorem update_keeps_trait (g1 : grid_t) (hw : 2 ≤ g1.width) (hh : 2 ≤ g1.height)
    (hmid : MidTick g1) (i j : Nat) (hi : i < g1.width) (hj : j < g1.height) :
    ELEM_GENC ((update g1).1.data i j) = ELEM_GENC (g1.data i j) := by
  have h2 := update_fields g1 hw hh hmid i j hi hj
  rw [ELEM_GENC_eq, ELEM_GENC_eq]
  exact commit_trait_arith _ _ _ h2.1 h2.2.2

/-- The toggle keeps every trait of a consistent grid. -/
theorem toggle_keeps_trait (g : grid_t) (hc : Consistent g) (x y : Nat) (hx : x < g.width)
    (hy : y < g.height) (i j : Nat) (hi : i < g.width) (hj : j < g.height) :
    ELEM_GENC ((toggle_cell g x y).data i j) = ELEM_GENC (g.data i j) := by
  rw [ELEM_GENC_eq, ELEM_GENC_eq]
  rcases (hc x hx y hy).1 with h | h
  · rw [(toggle_empty_fields g hc x y hx hy h i j hi hj).2.1]
  · rw [(toggle_alive_fields g hc x y hx hy h i j hi hj).2.1]

theorem classify_trait_arith (old new : Nat)
    (h : new / 65536 % 256 ≠ 1 → new / 256 % 256 = old / 256 % 256)
    (hb : new / 65536 % 256 = 1 ↔ old / 65536 % 256 = 0 ∧ old % 256 = 3) :
    (¬ new / 65536 % 256 = 1 → new / 256 % 256 * 256 = old / 256 % 256 * 256) ∧
      (new / 65536 % 256 = 1 → old / 65536 % 256 = 0) := by
  constructor
  · intro hn
    rw [h hn]
  · intro hn
    exact (hb.mp hn).1

/-- C12 (trait is written only at birth). On every grid with width >= 3 and height >= 3 in
a consistent Empty/Alive state and for every generator state: `one_step` leaves the trait of
every cell unchanged except the cells it turns from Empty to Born; `update`, run after
`one_step` as in a tick or directly, leaves the trait of every cell unchanged; and so does
`toggle_cell` on in-range coordinates. -/
theorem trait_written_at_birth (g : grid_t) (hw : 3 ≤ g.width) (hh : 3 ≤ g.height)
    (hc : Consistent g) (rng : Rng) :
    (∀ i, i < g.width → ∀ j, j < g.height →
      (ELEM_TAG ((one_step g rng).grid.data i j) ≠ BORN_ELEM →
        ELEM_GENC ((one_step g rng).grid.data i j) = ELEM_GENC (g.data i j)) ∧
      (ELEM_TAG ((one_step g rng).grid.data i j) = BORN_ELEM →
        ELEM_TAG (g.data i j) = NO_ELEM)) ∧
    (∀ i, i < g.width → ∀ j, j < g.height →
      ELEM_GENC ((update (one_step g rng).grid).1.data i j) =
        ELEM_GENC ((one_step g rng).grid.data i j)) ∧
    (∀ i, i < g.width → ∀ j, j < g.height →
      ELEM_GENC ((update g).1.data i j) = ELEM_GENC (g.data i j)) ∧
    (∀ x, x < g.width → ∀ y, y < g.height → ∀ i, i < g.width → ∀ j, j < g.height →
      ELEM_GENC ((toggle_cell g x y).data i j) = ELEM_GENC (g.data i j)) := by
  obtain ⟨hW, hH, hF⟩ := one_step_data g rng
  refine ⟨?_, ?_, ?_, ?_⟩
  · intro i hi j hj
    have h0 := consistent_cell g hc i j hi hj
    have h1 := classified_fields _ _ (hF i hi j hj) h0.1 h0.2.2
    simp only [ne_eq, tag_born_iff, tag_none_iff, ELEM_GENC_eq]
    exact classify_trait_arith _ _ h1.2.2.2.2.2.1 h1.2.1
  · intro i hi j hj
    exact update_keeps_trait (one_step g rng).grid (by omega) (by omega)
      (classify_midTick g hc rng) i j (by omega) (by omega)
  · intro i hi j hj
    exact update_keeps_trait g (by omega) (by omega) (consistent_midTick g hc) i j hi hj
  · intro x hx y hy i hi j hj
    exact toggle_keeps_trait g hc x y hx hy i j hi hj

/-- C12, witness: the lone cell on the 3 x 3 torus. -/
theorem trait_written_at_birth_witness :
    3 ≤ loneCell.width ∧ 3 ≤ loneCell.height ∧ Consistent loneCell ∧
    ELEM_GENC ((update (one_step loneCell ⟨fun _ => 0, 0⟩).grid).1.data 1 1) =
      ELEM_GENC ((one_step loneCell ⟨fun _ => 0, 0⟩).grid.data 1 1) :=
  ⟨by decide, by decide, by decide,
    (trait_written_at_birth loneCell (by decide) (by decide) (by decide)
      ⟨fun _ => 0, 0⟩).2.1 1 (by decide) 1 (by decide)⟩

/-! ## The classify scan, step by step -/

theorem classifyInv_zero (g0 : grid_t) (rng : Rng) :
    ClassifyInv g0 0 0 (Scan.mk g0 rng 0) := by
  refine ⟨rfl, rfl, ?_⟩
  intro a b
  simp [visited_zero]

theorem classifyInv_step (g0 : grid_t) (i j : Nat) (s : Scan) (hj : j < g0.height)
    (hP : ClassifyInv g0 i j s) : ClassifyInv g0 i (j + 1) (one_step_cell i j s) := by
  obtain ⟨hW, hH, hF⟩ := hP
  refine ⟨by rw [(one_step_cell_dims i j s).1, hW],
    by rw [(one_step_cell_dims i j s).2, hH], ?_⟩
  intro a b
  have F := hF a b
  rw [visited_step]
  by_cases hc : a = i ∧ b = j
  · obtain ⟨rfl, rfl⟩ := hc
    simp only [visited_self, Bool.false_eq_true, false_and, if_false] at F
    simp only [beq_self_eq_true, Bool.or_true, true_and, hj, if_true]
    rw [← F]
    exact one_step_cell_self a b s
  · have : ((a, b) == (i, j)) = false := by simpa using hc
    rw [one_step_cell_other i j s a b hc, this, Bool.or_false]
    exact F

theorem classifyInv_row (g0 : grid_t) (i : Nat) (s : Scan)
    (hP : ClassifyInv g0 i g0.height s) : ClassifyInv g0 (i + 1) 0 s := by
  obtain ⟨hW, hH, hF⟩ := hP
  refine ⟨hW, hH, ?_⟩
  intro a b
  have F := hF a b
  by_cases hb : b < g0.height
  · rw [← visited_row i g0.height (a, b) hb]
    exact F
  · simp only [hb, and_false, if_false] at F ⊢
    exact F

/-- A cell the scan has not visited yet still holds what it held at the start. -/
theorem classifyInv_current (g0 : grid_t) (i j : Nat) (s : Scan) (hP : ClassifyInv g0 i j s) :
    s.grid.data i j = g0.data i j := by
  have F := hP.2.2 i j
  simpa [visited_self] using F

/-! ## Claim C14 -/

theorem one_step_cell_fires (i j : Nat) (s : Scan) (h : firesN (s.grid.data i j)) :
    (one_step_cell i j s).modif = 1 := by
  unfold firesN at h
  unfold one_step_cell
  simp only [ELEM_SUM_eq, MAKE_SUM_eq, ELEM_TAG_eq, NO_ELEM_eq, ELEM_eq]
  rcases h with ⟨h3, ht⟩ | ⟨hs, ht⟩
  · have ht2 : s.grid.data i j / 65536 % 256 * 65536 = 0 := by omega
    simp only [h3, ht2, if_true]
  · have h3 : ¬ s.grid.data i j % 256 = 3 := hs.2.2
    have hd : s.grid.data i j % 256 = 0 ∨ s.grid.data i j % 256 = 1 ∨
        s.grid.data i j % 256 = 4 ∨ s.grid.data i j % 256 = 5 ∨ s.grid.data i j % 256 = 6 ∨
        s.grid.data i j % 256 = 7 ∨ s.grid.data i j % 256 = 8 := by omega
    have ht2 : s.grid.data i j / 65536 % 256 * 65536 = 131072 := by omega
    rw [if_neg h3, if_pos hd, if_pos ht2]

theorem one_step_cell_idle (i j : Nat) (s : Scan) (h : ¬ firesN (s.grid.data i j)) :
    one_step_cell i j s = s := by
  unfold firesN at h
  unfold one_step_cell
  simp only [ELEM_SUM_eq, MAKE_SUM_eq, ELEM_TAG_eq, NO_ELEM_eq, ELEM_eq]
  by_cases h3 : s.grid.data i j % 256 = 3
  · have ht2 : ¬ s.grid.data i j / 65536 % 256 * 65536 = 0 := by omega
    rw [if_pos h3, if_neg ht2]
  · by_cases hd : s.grid.data i j % 256 = 0 ∨ s.grid.data i j % 256 = 1 ∨
        s.grid.data i j % 256 = 4 ∨ s.grid.data i j % 256 = 5 ∨ s.grid.data i j % 256 = 6 ∨
        s.grid.data i j % 256 = 7 ∨ s.grid.data i j % 256 = 8
    · have ht2 : ¬ s.grid.data i j / 65536 % 256 * 65536 = 131072 := by omega
      rw [if_neg h3, if_pos hd, if_neg ht2]
    · rw [if_neg h3, if_neg hd]

theorem modif_scan (g0 : grid_t) (rng : Rng) :
    ClassifyInv g0 g0.width 0 (one_step g0 rng) ∧ ModifInv g0 g0.width 0 (one_step g0 rng) := by
  unfold one_step
  apply scan_inv g0.width g0.height one_step_cell
    (fun i j s => ClassifyInv g0 i j s ∧ ModifInv g0 i j s)
  · refine ⟨classifyInv_zero g0 rng, Or.inr ⟨rfl, ?_⟩⟩
    intro a b hv
    simp [visited_zero] at hv
  · intro i j s _ hj hP
    obtain ⟨hC, hM⟩ := hP
    refine ⟨classifyInv_step g0 i j s hj hC, ?_⟩
    have hcur := classifyInv_current g0 i j s hC
    by_cases hf : firesN (g0.data i j)
    · left
      refine ⟨one_step_cell_fires i j s (by rw [hcur]; exact hf), i, j, ?_, hj, hf⟩
      rw [visited_step]
      simp
    · rw [one_step_cell_idle i j s (by rw [hcur]; exact hf)]
      rcases hM with ⟨hm, a, b, hv, hb, hfa⟩ | ⟨hm, hall⟩
      · left
        refine ⟨hm, a, b, ?_, hb, hfa⟩
        rw [visited_step, hv]
        rfl
      · right
        refine ⟨hm, ?_⟩
        intro a b hv hb
        rw [visited_step] at hv
        by_cases hc : a = i ∧ b = j
        · rw [hc.1, hc.2]
          exact hf
        · have : ((a, b) == (i, j)) = false := by simpa using hc
          rw [this, Bool.or_false] at hv
          exact hall a b hv hb
  · intro i s _ hP
    obtain ⟨hC, hM⟩ := hP
    refine ⟨classifyInv_row g0 i s hC, ?_⟩
    rcases hM with ⟨hm, a, b, hv, hb, hfa⟩ | ⟨hm, hall⟩
    · left
      refine ⟨hm, a, b, ?_, hb, hfa⟩
      rw [← visited_row i g0.height (a, b) hb]
      exact hv
    · right
      refine ⟨hm, ?_⟩
      intro a b hv hb
      rw [← visited_row i g0.height (a, b) hb] at hv
      exact hall a b hv hb

theorem visited_end (w : Nat) (q : Nat × Nat) : visited w 0 q = true ↔ q.1 < w := by
  simp [visited]

/-- The return value of `one_step` on any grid: 1 if some cell of the grid was due for a
rewrite, 0 otherwise, and then nothing at all was changed. -/
theorem one_step_modif (g : grid_t) (rng : Rng) :
    ((one_step g rng).modif = 1 ∧
        ∃ a b, a < g.width ∧ b < g.height ∧ firesN (g.data a b)) ∨
      ((one_step g rng).modif = 0 ∧ (one_step g rng).grid = g ∧
        ∀ a b, a < g.width → b < g.height → ¬ firesN (g.data a b)) := by
  obtain ⟨⟨hW, hH, hF⟩, hM⟩ := modif_scan g rng
  rcases hM with ⟨hm, a, b, hv, hb, hfa⟩ | ⟨hm, hall⟩
  · left
    exact ⟨hm, a, b, (visited_end g.width (a, b)).mp hv, hb, hfa⟩
  · right
    have hno : ∀ a b, a < g.width → b < g.height → ¬ firesN (g.data a b) :=
      fun a b ha hb => hall a b ((visited_end g.width (a, b)).mpr ha) hb
    refine ⟨hm, ?_, hno⟩
    apply grid_ext _ _ _ hW hH
    intro a b
    have F := hF a b
    by_cases hin : visited g.width 0 (a, b) = true ∧ b < g.height
    · rw [if_pos hin] at F
      have hnf := hall a b hin.1 hin.2
      unfold Classified at F
      unfold firesN at hnf
      rw [if_neg (fun h => hnf (Or.inl h)), if_neg (fun h => hnf (Or.inr h))] at F
      exact F
    · rw [if_neg hin] at F
      exact F

theorem update_cell_modif (i j : Nat) (s : grid_t × Nat) :
    (transN (s.1.data i j) → (update_cell i j s).2 = 1) ∧
      (¬ transN (s.1.data i j) → update_cell i j s = s) := by
  unfold transN
  constructor
  · intro h
    rcases h with h | h
    · rw [update_cell_born s i j (by rw [tag_born_iff]; exact h)]
    · rw [update_cell_dead s i j (by rw [tag_dead_iff]; exact h)]
  · intro h
    apply update_cell_other
    · exact fun h1 => h (Or.inl ((tag_born_iff _).mp h1))
    · exact fun h3 => h (Or.inr ((tag_dead_iff _).mp h3))

theorem update_modif_scan (g : grid_t) : UpdateModifInv g g.width 0 (update g) := by
  unfold update
  apply scan_inv g.width g.height update_cell (UpdateModifInv g)
  · right
    refine ⟨rfl, ?_⟩
    intro a b hv
    simp [visited_zero] at hv
  · intro i j s _ hj hP
    rcases hP with ⟨hm, a, b, hv, hb, hfa⟩ | ⟨hs, hall⟩
    · left
      refine ⟨?_, a, b, ?_, hb, hfa⟩
      · by_cases ht : transN (s.1.data i j)
        · exact (update_cell_modif i j s).1 ht
        · rw [(update_cell_modif i j s).2 ht]
          exact hm
      · rw [visited_step, hv]
        rfl
    · subst hs
      by_cases ht : transN (g.data i j)
      · left
        refine ⟨(update_cell_modif i j (g, 0)).1 ht, i, j, ?_, hj, ht⟩
        rw [visited_step]
        simp
      · right
        refine ⟨(update_cell_modif i j (g, 0)).2 ht, ?_⟩
        intro a b hv hb
        rw [visited_step] at hv
        by_cases hc : a = i ∧ b = j
        · rw [hc.1, hc.2]
          exact ht
        · have : ((a, b) == (i, j)) = false := by simpa using hc
          rw [this, Bool.or_false] at hv
          exact hall a b hv hb
  · intro i s _ hP
    rcases hP with ⟨hm, a, b, hv, hb, hfa⟩ | ⟨hs, hall⟩
    · left
      refine ⟨hm, a, b, ?_, hb, hfa⟩
      rw [← visited_row i g.height (a, b) hb]
      exact hv
    · right
      refine ⟨hs, ?_⟩
      intro a b hv hb
      rw [← visited_row i g.height (a, b) hb] at hv
      exact hall a b hv hb

/-- The return value of `update` on any grid: 1 if some cell of the grid was Born or Dying
on entry, 0 otherwise, and then nothing at all was changed. -/
theorem update_modif (g : grid_t) :
    ((update g).2 = 1 ∧ ∃ a b, a < g.width ∧ b < g.height ∧ transN (g.data a b)) ∨
      ((update g).2 = 0 ∧ (update g).1 = g ∧
        ∀ a b, a < g.width → b < g.height → ¬ transN (g.data a b)) := by
  rcases update_modif_scan g with ⟨hm, a, b, hv, hb, hfa⟩ | ⟨hs, hall⟩
  · left
    exact ⟨hm, a, b, (visited_end g.width (a, b)).mp hv, hb, hfa⟩
  · right
    rw [hs]
    exact ⟨rfl, rfl, fun a b ha hb => hall a b ((visited_end g.width (a, b)).mpr ha) hb⟩

theorem fires_trans_arith (old new : Nat)
    (ht : old / 65536 % 256 = 0 ∨ old / 65536 % 256 = 2) (hs : old % 256 ≤ 8)
    (hb : new / 65536 % 256 = 1 ↔ old / 65536 % 256 = 0 ∧ old % 256 = 3)
    (hd : new / 65536 % 256 = 3 ↔ old / 65536 % 256 = 2 ∧ old % 256 ≠ 2 ∧ old % 256 ≠ 3) :
    (((old % 256 = 3 ∧ old / 65536 % 256 = 0) ∨
        ((old % 256 ≤ 8 ∧ old % 256 ≠ 2 ∧ old % 256 ≠ 3) ∧ old / 65536 % 256 = 2)) ↔
      (new / 65536 % 256 = 1 ∨ new / 65536 % 256 = 3)) ∧
    ¬ (old / 65536 % 256 = 1 ∨ old / 65536 % 256 = 3) := by
  omega

/-- On a grid of Empty and Alive cells with sums in 0..8, the cells the classify scan
rewrites are those that are Born or Dying afterwards; none is Born or Dying before. -/
theorem fires_iff_trans (g : grid_t) (rng : Rng)
    (hg : ∀ i, i < g.width → ∀ j, j < g.height →
      (ELEM_TAG (g.data i j) = NO_ELEM ∨ ELEM_TAG (g.data i j) = ELEM) ∧
        ELEM_SUM (g.data i j) ≤ MAKE_SUM 8)
    (a b : Nat) (ha : a < g.width) (hb : b < g.height) :
    (firesN (g.data a b) ↔ transN ((one_step g rng).grid.data a b)) ∧
      ¬ transN (g.data a b) := by
  have hC := (one_step_data g rng).2.2 a ha b hb
  have h := hg a ha b hb
  rw [tag_none_iff, tag_elem_iff, ELEM_SUM_eq, MAKE_SUM_eq] at h
  have hf := classified_fields _ _ hC h.1 h.2
  unfold firesN transN
  exact fires_trans_arith _ _ h.1 h.2 hf.2.1 hf.2.2.1

theorem settled_cell (c : Nat) :
    classifyTag (ELEM_TAG c) (ELEM_SUM c) = ELEM_TAG c ↔ ¬ firesN c := by
  unfold classifyTag firesN
  simp only [ELEM_TAG_eq, ELEM_SUM_eq, MAKE_SUM_eq, NO_ELEM_eq, ELEM_eq, BORN_ELEM_eq,
    DEAD_ELEM_eq]
  split_ifs <;> omega

theorem trans_iff_tag (c : Nat) :
    transN c ↔ (ELEM_TAG c = BORN_ELEM ∨ ELEM_TAG c = DEAD_ELEM) := by
  unfold transN
  rw [tag_born_iff, tag_dead_iff]

theorem still_cell_arith (n t : Nat) (ht : t = 0 ∨ t = 2) (hn : n ≤ 8) :
    (lifeRule (decide (t = 2)) n = decide (t = 2)) ↔
      ¬ ((n = 3 ∧ t = 0) ∨ ((n ≤ 8 ∧ n ≠ 2 ∧ n ≠ 3) ∧ t = 2)) := by
  unfold lifeRule
  rcases ht with rfl | rfl
  · simp
  · simp
    omega

/-- On a consistent grid, being settled is being a still life of the Game of Life. -/
theorem settled_iff_still (g : grid_t) (hc : Consistent g) :
    Settled g ↔ ∀ i, i < g.width → ∀ j, j < g.height →
      lifeStep g.width g.height (pattern g) i j = pattern g i j := by
  have cell : ∀ i, i < g.width → ∀ j, j < g.height →
      ((classifyTag (ELEM_TAG (g.data i j)) (ELEM_SUM (g.data i j)) = ELEM_TAG (g.data i j)) ↔
        lifeStep g.width g.height (pattern g) i j = pattern g i j) := by
    intro i hi j hj
    have h0 := consistent_cell g hc i j hi hj
    rw [settled_cell]
    unfold lifeStep pattern firesN
    rw [torusNbrs_eq _ _ i j hi hj]
    have hcount : (nbrs g.width g.height i j).countP
        (fun q => ELEM_TAG (g.data q.1 q.2) == ELEM) = countTag g ELEM i j := rfl
    have hp : (ELEM_TAG (g.data i j) == ELEM) = decide (g.data i j / 65536 % 256 = 2) := by
      rw [Bool.eq_iff_iff]
      simp only [beq_iff_eq, decide_eq_true_eq, tag_elem_iff]
    rw [hcount, hp, ← h0.2.1]
    exact (still_cell_arith _ _ h0.1 h0.2.2).symm
  constructor
  · intro h i hi j hj
    exact (cell i hi j hj).mp (h i hi j hj)
  · intro h i hi j hj
    exact (cell i hi j hj).mpr (h i hi j hj)

/-- C14 (changed-signal of the two phases). On every grid `g` whose cells are all Empty or
Alive with neighbour sums in 0..8, `one_step` returns 0 or 1: 1 exactly when at least one
cell was re-tagged Born or Dying, 0 exactly when it left the whole grid unchanged. On every
grid `g2`, `update` returns 0 or 1: 1 exactly when at least one cell was Born or Dying on
entry, and when it returns 0 it left the whole grid unchanged. Consequently both phases of a
tick return the same value; it is 0 exactly for a settled grid, which the whole tick then
leaves unchanged, and on a consistent grid settled means still life. -/
theorem changed_signal (g : grid_t) (rng : Rng)
    (hg : ∀ i, i < g.width → ∀ j, j < g.height →
      (ELEM_TAG (g.data i j) = NO_ELEM ∨ ELEM_TAG (g.data i j) = ELEM) ∧
        ELEM_SUM (g.data i j) ≤ MAKE_SUM 8)
    (g2 : grid_t) :
    ((one_step g rng).modif = 0 ∨ (one_step g rng).modif = 1) ∧
    ((one_step g rng).modif = 1 ↔ ∃ i j, i < g.width ∧ j < g.height ∧
      (ELEM_TAG ((one_step g rng).grid.data i j) = BORN_ELEM ∨
        ELEM_TAG ((one_step g rng).grid.data i j) = DEAD_ELEM)) ∧
    ((one_step g rng).modif = 0 ↔ (one_step g rng).grid = g) ∧
    ((update g2).2 = 0 ∨ (update g2).2 = 1) ∧
    ((update g2).2 = 1 ↔ ∃ i j, i < g2.width ∧ j < g2.height ∧
      (ELEM_TAG (g2.data i j) = BORN_ELEM ∨ ELEM_TAG (g2.data i j) = DEAD_ELEM)) ∧
    ((update g2).2 = 0 → (update g2).1 = g2) ∧
    (update (one_step g rng).grid).2 = (one_step g rng).modif ∧
    ((one_step g rng).modif = 0 ↔ Settled g) ∧
    ((one_step g rng).modif = 0 → (tick (g, rng)).1 = g) ∧
    (Consistent g → (Settled g ↔ ∀ i, i < g.width → ∀ j, j < g.height →
      lifeStep g.width g.height (pattern g) i j = pattern g i j)) := by
  have hft := fires_iff_trans g rng hg
  have hW := (one_step_data g rng).1
  have hH := (one_step_data g rng).2.1
  have hno : ∀ a b, a < g.width → b < g.height → ¬ transN (g.data a b) :=
    fun a b ha hb => (hft a b ha hb).2
  have hupd0 : (update g).2 = 0 ∧ (update g).1 = g := by
    rcases update_modif g with ⟨_, a, b, ha, hb, ht⟩ | ⟨h0, h1, _⟩
    · exact absurd ht (hno a b ha hb)
    · exact ⟨h0, h1⟩
  have htick : (tick (g, rng)).1 = (update (one_step g rng).grid).1 := rfl
  rcases one_step_modif g rng with ⟨hm, a, b, ha, hb, hf⟩ | ⟨hm, hgrid, hnf⟩
  · -- some cell was rewritten
    have htr : transN ((one_step g rng).grid.data a b) := (hft a b ha hb).1.mp hf
    have hne : (one_step g rng).grid ≠ g := by
      intro he
      rw [he] at htr
      exact hno a b ha hb htr
    have hu : (update (one_step g rng).grid).2 = 1 := by
      rcases update_modif (one_step g rng).grid with ⟨h1, _⟩ | ⟨_, _, hnt⟩
      · exact h1
      · exact absurd htr (hnt a b (by rw [hW]; exact ha) (by rw [hH]; exact hb))
    have hns : ¬ Settled g := by
      intro hs
      exact (settled_cell _).mp (hs a ha b hb) hf
    refine ⟨Or.inr hm, ?_, ?_, ?_, ?_, ?_, ?_, ?_, ?_, ?_⟩
    · exact ⟨fun _ => ⟨a, b, ha, hb, (trans_iff_tag _).mp htr⟩, fun _ => hm⟩
    · exact ⟨fun h0 => by omega, fun he => absurd he hne⟩
    · rcases update_modif g2 with ⟨h1, _⟩ | ⟨h0, _⟩
      · exact Or.inr h1
      · exact Or.inl h0
    · rcases update_modif g2 with ⟨h1, a2, b2, ha2, hb2, ht2⟩ | ⟨h0, _, hnt⟩
      · exact ⟨fun _ => ⟨a2, b2, ha2, hb2, (trans_iff_tag _).mp ht2⟩, fun _ => h1⟩
      · refine ⟨fun h1 => by omega, ?_⟩
        rintro ⟨a2, b2, ha2, hb2, ht2⟩
        exact absurd ((trans_iff_tag _).mpr ht2) (hnt a2 b2 ha2 hb2)
    · intro h0
      rcases update_modif g2 with ⟨h1, _⟩ | ⟨_, he, _⟩
      · omega
      · exact he
    · rw [hu, hm]
    · exact ⟨fun h0 => by omega, fun hs => absurd hs hns⟩
    · intro h0
      omega
    · exact fun hc => settled_iff_still g hc
  · -- nothing was rewritten
    have hs : Settled g := fun i hi j hj => (settled_cell _).mpr (hnf i j hi hj)
    refine ⟨Or.inl hm, ?_, ?_, ?_, ?_, ?_, ?_, ?_, ?_, ?_⟩
    · refine ⟨fun h1 => by omega, ?_⟩
      rintro ⟨a, b, ha, hb, ht⟩
      rw [hgrid] at ht
      exact absurd ((trans_iff_tag _).mpr ht) (hno a b ha hb)
    · exact ⟨fun _ => hgrid, fun _ => hm⟩
    · rcases update_modif g2 with ⟨h1, _⟩ | ⟨h0, _⟩
      · exact Or.inr h1
      · exact Or.inl h0
    · rcases update_modif g2 with ⟨h1, a2, b2, ha2, hb2, ht2⟩ | ⟨h0, _, hnt⟩
      · exact ⟨fun _ => ⟨a2, b2, ha2, hb2, (trans_iff_tag _).mp ht2⟩, fun _ => h1⟩
      · refine ⟨fun h1 => by omega, ?_⟩
        rintro ⟨a2, b2, ha2, hb2, ht2⟩
        exact absurd ((trans_iff_tag _).mpr ht2) (hnt a2 b2 ha2 hb2)
    · intro h0
      rcases update_modif g2 with ⟨h1, _⟩ | ⟨_, he, _⟩
      · omega
      · exact he
    · rw [hgrid, hupd0.1, hm]
    · exact ⟨fun _ => hs, fun _ => hm⟩
    · intro _
      rw [htick, hgrid]
      exact hupd0.2
    · exact fun hc => settled_iff_still g hc

/-- C14, witness: the block is settled, both phases return 0; the lone cell is not, both
phases return 1. -/
theorem changed_signal_witness :
    (∀ i, i < blockGrid.width → ∀ j, j < blockGrid.height →
      (ELEM_TAG (blockGrid.data i j) = NO_ELEM ∨ ELEM_TAG (blockGrid.data i j) = ELEM) ∧
        ELEM_SUM (blockGrid.data i j) ≤ MAKE_SUM 8) ∧
    (one_step blockGrid ⟨fun _ => 0, 0⟩).modif = 0 ∧
    (update (one_step blockGrid ⟨fun _ => 0, 0⟩).grid).2 =
      (one_step blockGrid ⟨fun _ => 0, 0⟩).modif ∧
    (update (one_step loneCell ⟨fun _ => 0, 0⟩).grid).2 = 1 :=
  ⟨by decide, by decide,
    (changed_signal blockGrid ⟨fun _ => 0, 0⟩ (by decide) loneCell).2.2.2.2.2.2.1,
    by decide⟩

/-! ## The classify scan in detail -/

/-- Invariant rule for the states inside a nested scan: `P i j` holds of the state in which
the body is about to run at `(i,j)`. -/
theorem scan_before_inv {σ : Type} (w h : Nat) (body : Nat → Nat → σ → σ)
    (P : Nat → Nat → σ → Prop) (s0 : σ) (h0 : P 0 0 s0)
    (hstep : ∀ i j s, i < w → j < h → P i j s → P i (j + 1) (body i j s))
    (hrow : ∀ i s, i < w → P i h s → P (i + 1) 0 s)
    (i j : Nat) (hi : i < w) (hj : j ≤ h) :
    P i j (forLoop j (fun j s => body i j s)
      (forLoop i (fun i s => forLoop h (fun j s => body i j s) s) s0)) := by
  have ho := scan_inv i h body P s0 h0
    (fun i2 j2 s hi2 hj2 hp => hstep i2 j2 s (by omega) hj2 hp)
    (fun i2 s hi2 hp => hrow i2 s (by omega) hp)
  induction j with
  | zero => exact ho
  | succ j ih => exact hstep i j _ hi (by omega) (ih (by omega))

theorem one_step_before_inv (g : grid_t) (rng : Rng) (i j : Nat) (hi : i < g.width)
    (hj : j ≤ g.height) : ClassifyInv g i j (one_step_before g rng i j) := by
  unfold one_step_before
  exact scan_before_inv g.width g.height one_step_cell (ClassifyInv g) _
    (classifyInv_zero g rng)
    (fun i j s _ hj hP => classifyInv_step g i j s hj hP)
    (fun i s _ hP => classifyInv_row g i s hP) i j hi hj

/-- The value and the generator `one_step` leaves when it visits a cell. -/
theorem one_step_cell_value (i j : Nat) (s : Scan) :
    (one_step_cell i j s).grid.data i j =
      (if s.grid.data i j % 256 = 3 ∧ s.grid.data i j / 65536 % 256 = 0 then
        65536 + (chooseAll (nbrCells s.grid i j) (0, s.rng)).1 * 256 + 3
      else if (s.grid.data i j % 256 ≤ 8 ∧ s.grid.data i j % 256 ≠ 2 ∧
          s.grid.data i j % 256 ≠ 3) ∧ s.grid.data i j / 65536 % 256 = 2 then
        196608 + s.grid.data i j % 65536
      else s.grid.data i j) ∧
    (one_step_cell i j s).rng =
      (if s.grid.data i j % 256 = 3 ∧ s.grid.data i j / 65536 % 256 = 0 then
        (chooseAll (nbrCells s.grid i j) (0, s.rng)).2
      else s.rng) := by
  have hr : (chooseAll (nbrCells s.grid i j) (0, s.rng)).1 ≤ 8 := by
    have := (chooseAll_bounds (nbrCells s.grid i j) (0, s.rng)).2
    simpa [nbrCells, nbrs_length] using this
  unfold one_step_cell
  simp only [ELEM_SUM_eq, MAKE_SUM_eq, ELEM_TAG_eq, NO_ELEM_eq, ELEM_eq, ELEM_NO_TAG_eq,
    baby_genc_eq, MAKE_GENC_eq]
  generalize (chooseAll (nbrCells s.grid i j) (0, s.rng)) = ch at hr ⊢
  by_cases h3 : s.grid.data i j % 256 = 3
  · by_cases ht : s.grid.data i j / 65536 % 256 = 0
    · have ht2 : s.grid.data i j / 65536 % 256 * 65536 = 0 := by omega
      simp only [h3, ht, ht2, and_self, if_true, set_cell_data]
      have e1 : ch.1 * 256 % U32 = ch.1 * 256 := Nat.mod_eq_of_lt (by simp only [U32]; omega)
      have e2 := genc_or_sum ch.1 3 (by decide)
      rw [MAKE_GENC_eq] at e2
      rw [e1, e2, born_or _ (by omega)]
      simp only [U32]
      refine ⟨by omega, trivial⟩
    · have ht2 : ¬ s.grid.data i j / 65536 % 256 * 65536 = 0 := by omega
      simp only [h3, ht, ht2, and_false, if_true, if_false, ne_eq, not_true_eq_false,
        false_and, and_self]
  · by_cases hd : s.grid.data i j % 256 = 0 ∨ s.grid.data i j % 256 = 1 ∨
        s.grid.data i j % 256 = 4 ∨ s.grid.data i j % 256 = 5 ∨ s.grid.data i j % 256 = 6 ∨
        s.grid.data i j % 256 = 7 ∨ s.grid.data i j % 256 = 8
    · by_cases ht : s.grid.data i j / 65536 % 256 = 2
      · have ht2 : s.grid.data i j / 65536 % 256 * 65536 = 131072 := by omega
        rw [if_neg h3, if_pos hd, if_pos ht2, if_neg (by omega), if_pos (by omega),
          if_neg (by omega)]
        simp only [set_cell_data, and_self, if_true]
        rw [dead_or _ (Nat.mod_lt _ (by decide))]
        simp only [U32]
        refine ⟨by omega, trivial⟩
      · have ht2 : ¬ s.grid.data i j / 65536 % 256 * 65536 = 131072 := by omega
        rw [if_neg h3, if_pos hd, if_neg ht2, if_neg (by omega), if_neg (by omega),
          if_neg (by omega)]
        exact ⟨rfl, rfl⟩
    · rw [if_neg h3, if_neg hd, if_neg (by omega), if_neg (by omega), if_neg (by omega)]
      exact ⟨rfl, rfl⟩

theorem classifyZero_trait (c : Nat) (h : c / 256 % 256 = 0) :
    classifyZero c / 256 % 256 = 0 := by
  unfold classifyZero
  split_ifs <;> omega

theorem zeroTrait_cell (g : grid_t) (hz : ZeroTrait g) (a b : Nat) (ha : a < g.width)
    (hb : b < g.height) : g.data a b / 256 % 256 = 0 := by
  have h := hz a ha b hb
  rw [ELEM_GENC_eq, MAKE_GENC_eq] at h
  omega

theorem genc_shift_eq (e : Nat) : ELEM_GENC e >>> 8 = e / 256 % 256 := by
  rw [ELEM_GENC_eq, Nat.shiftRight_eq_div_pow]
  omega

/-- With all traits 0 around it, a cell inherits trait 0 whatever the draws. -/
theorem chooseAll_zero (g : grid_t) (i j : Nat) (rng : Rng)
    (h : ∀ q, q ∈ nbrs g.width g.height i j → g.data q.1 q.2 / 256 % 256 = 0) :
    (chooseAll (nbrCells g i j) (0, rng)).1 = 0 := by
  rw [chooseAll_none]
  intro e he _
  obtain ⟨q, hq, rfl⟩ := List.mem_map.mp he
  rw [genc_shift_eq]
  exact h q hq

theorem zeroInv_step (g0 : grid_t) (hz : ZeroTrait g0) (i j : Nat) (s : Scan)
    (hi : i < g0.width) (hj : j < g0.height) (hP : ZeroInv g0 i j s) :
    ZeroInv g0 i (j + 1) (one_step_cell i j s) := by
  obtain ⟨hW, hH, hF⟩ := hP
  refine ⟨by rw [(one_step_cell_dims i j s).1, hW],
    by rw [(one_step_cell_dims i j s).2, hH], ?_⟩
  have hcur : s.grid.data i j = g0.data i j := by
    rw [hF i j]
    simp [visited_self]
  have hzero : (chooseAll (nbrCells s.grid i j) (0, s.rng)).1 = 0 := by
    apply chooseAll_zero
    intro q hq
    rw [hW, hH] at hq
    have hr := nbrs_range _ _ _ _ hi hj q hq
    have hq0 := zeroTrait_cell g0 hz q.1 q.2 hr.1 hr.2
    rw [hF q.1 q.2]
    split_ifs
    · exact classifyZero_trait _ hq0
    · exact hq0
  intro a b
  rw [visited_step]
  by_cases hc : a = i ∧ b = j
  · obtain ⟨rfl, rfl⟩ := hc
    simp only [beq_self_eq_true, Bool.or_true, true_and, hj, if_true]
    rw [(one_step_cell_value a b s).1, hzero, hcur]
    unfold classifyZero
    rfl
  · have : ((a, b) == (i, j)) = false := by simpa using hc
    rw [one_step_cell_other i j s a b hc, this, Bool.or_false]
    exact hF a b

theorem zero_scan (g0 : grid_t) (hz : ZeroTrait g0) (rng : Rng) :
    ZeroInv g0 g0.width 0 (one_step g0 rng) := by
  unfold one_step
  apply scan_inv g0.width g0.height one_step_cell (ZeroInv g0)
  · refine ⟨rfl, rfl, ?_⟩
    intro a b
    simp [visited_zero]
  · intro i j s hi hj hP
    exact zeroInv_step g0 hz i j s hi hj hP
  · intro i s _ hP
    obtain ⟨hW, hH, hF⟩ := hP
    refine ⟨hW, hH, ?_⟩
    intro a b
    rw [hF a b]
    by_cases hb : b < g0.height
    · rw [← visited_row i g0.height (a, b) hb]
    · simp only [hb, and_false, if_false]

/-- On a grid whose traits are all 0 the classify scan is a function of the grid alone:
every cell of the grid ends as `classifyZero` of what it held, whatever the draws. -/
theorem one_step_zero (g : grid_t) (hz : ZeroTrait g) (rng : Rng) :
    (one_step g rng).grid.width = g.width ∧ (one_step g rng).grid.height = g.height ∧
    ∀ a b, (one_step g rng).grid.data a b =
      if a < g.width ∧ b < g.height then classifyZero (g.data a b) else g.data a b := by
  obtain ⟨hW, hH, hF⟩ := zero_scan g hz rng
  refine ⟨hW, hH, ?_⟩
  intro a b
  rw [hF a b]
  by_cases ha : a < g.width
  · simp [visited_all g.width (a, b) ha, ha]
  · have : visited g.width 0 (a, b) = false := by
      simp [visited, ha]
    simp [this, ha]

/-- The draws do not enter the classify scan of a grid whose traits are all 0. -/
theorem one_step_zero_det (g : grid_t) (hz : ZeroTrait g) (rng rng2 : Rng) :
    (one_step g rng).grid = (one_step g rng2).grid := by
  obtain ⟨hW, hH, hF⟩ := one_step_zero g hz rng
  obtain ⟨hW2, hH2, hF2⟩ := one_step_zero g hz rng2
  apply grid_ext
  · intro a b
    rw [hF a b, hF2 a b]
  · rw [hW, hW2]
  · rw [hH, hH2]

/-! ## Claim C18 -/

theorem init_zeroTrait (g : grid_t) (rng : Rng) : ZeroTrait (init_grid_from_string g rng).1 := by
  intro a ha b hb
  rw [(init_dims g rng).1] at ha
  rw [(init_dims g rng).2] at hb
  rw [ELEM_GENC_eq, MAKE_GENC_eq]
  exact (init_fields g rng a b ha hb).2.2.1

theorem one_step_zeroTrait (g : grid_t) (hz : ZeroTrait g) (rng : Rng) :
    ZeroTrait (one_step g rng).grid := by
  obtain ⟨hW, hH, hF⟩ := one_step_zero g hz rng
  intro a ha b hb
  rw [hW] at ha
  rw [hH] at hb
  rw [ELEM_GENC_eq, MAKE_GENC_eq, hF a b, if_pos ⟨ha, hb⟩,
    classifyZero_trait _ (zeroTrait_cell g hz a b ha hb)]

theorem tick_zeroTrait (g : grid_t) (hw : 2 ≤ g.width) (hh : 2 ≤ g.height)
    (hc : Consistent g) (hz : ZeroTrait g) (rng : Rng) : ZeroTrait (tick (g, rng)).1 := by
  have htick : (tick (g, rng)).1 = (update (one_step g rng).grid).1 := rfl
  obtain ⟨hW, hH, _⟩ := one_step_data g rng
  have hmid := classify_midTick g hc rng
  have hU := update_data (one_step g rng).grid (by omega) (by omega) hmid
  rw [htick]
  intro a ha b hb
  rw [hU.1] at ha
  rw [hU.2.1] at hb
  rw [update_keeps_trait (one_step g rng).grid (by omega) (by omega) hmid a b ha hb]
  exact one_step_zeroTrait g hz rng a ha b hb

theorem toggle_zeroTrait (g : grid_t) (hc : Consistent g) (hz : ZeroTrait g) (x y : Nat)
    (hx : x < g.width) (hy : y < g.height) : ZeroTrait (toggle_cell g x y) := by
  intro a ha b hb
  rw [(toggle_dims g x y).1] at ha
  rw [(toggle_dims g x y).2] at hb
  rw [toggle_keeps_trait g hc x y hx hy a b ha hb]
  exact hz a ha b hb

/-- On grids of at least 2 x 2 cells every reachable state has all traits 0. -/
theorem reachable_zeroTrait (g0 : grid_t) (hw : 2 ≤ g0.width) (hh : 2 ≤ g0.height)
    (rng0 : Rng) (s : grid_t × Rng) (hr : Reachable g0 rng0 s) :
    s.1.width = g0.width ∧ s.1.height = g0.height ∧ Consistent s.1 ∧ ZeroTrait s.1 := by
  induction hr with
  | init =>
    exact ⟨(init_dims g0 rng0).1, (init_dims g0 rng0).2, init_consistent g0 rng0,
      init_zeroTrait g0 rng0⟩
  | tick s _ ih =>
    obtain ⟨hW, hH, hC, hZ⟩ := ih
    have h := tick_cell s.1 (by omega) (by omega) hC s.2
    exact ⟨by rw [← hW]; exact h.1, by rw [← hH]; exact h.2.1, h.2.2.1,
      tick_zeroTrait s.1 (by omega) (by omega) hC hZ s.2⟩
  | toggle s x y _ hx hy ih =>
    obtain ⟨hW, hH, hC, hZ⟩ := ih
    exact ⟨by rw [← hW]; exact (toggle_dims s.1 x y).1,
      by rw [← hH]; exact (toggle_dims s.1 x y).2, toggle_consistent s.1 hC x y hx hy,
      toggle_zeroTrait s.1 hC hZ x y hx hy⟩

/-- C18 (traits are identically zero). On every grid with width >= 3 and height >= 3, in
every state reachable from `init_grid_from_string` by complete ticks and in-range toggles,
whatever the random draws, the trait of every cell is 0; the classify scan of such a state
leaves every trait 0, so every newborn receives trait 0; and the grid after a tick is the
same for any two generators: the draws never influence the grid after initialisation. -/
theorem traits_stay_zero (g0 : grid_t) (hw : 3 ≤ g0.width) (hh : 3 ≤ g0.height)
    (rng0 : Rng) (s : grid_t × Rng) (hr : Reachable g0 rng0 s) :
    (∀ i, i < s.1.width → ∀ j, j < s.1.height → ELEM_GENC (s.1.data i j) = MAKE_GENC 0) ∧
    (∀ rng : Rng, ∀ i, i < s.1.width → ∀ j, j < s.1.height →
      ELEM_GENC ((one_step s.1 rng).grid.data i j) = MAKE_GENC 0) ∧
    (∀ rng rng2 : Rng, (tick (s.1, rng)).1 = (tick (s.1, rng2)).1) := by
  obtain ⟨hW, hH, hC, hZ⟩ := reachable_zeroTrait g0 (by omega) (by omega) rng0 s hr
  refine ⟨hZ, ?_, ?_⟩
  · intro rng i hi j hj
    exact one_step_zeroTrait s.1 hZ rng i (by rw [(one_step_data s.1 rng).1]; exact hi) j
      (by rw [(one_step_data s.1 rng).2.1]; exact hj)
  · intro rng rng2
    show (update (one_step s.1 rng).grid).1 = (update (one_step s.1 rng2).grid).1
    rw [one_step_zero_det s.1 hZ rng rng2]

/-- C18, witness: a 3 x 3 grid initialised with draws 1, 2, 3, ..., then one tick. -/
theorem traits_stay_zero_witness :
    3 ≤ (grid_of 3 3 (fun i j => 977 * i + j)).width ∧
    3 ≤ (grid_of 3 3 (fun i j => 977 * i + j)).height ∧
    Reachable (grid_of 3 3 (fun i j => 977 * i + j)) ⟨fun k => k + 1, 0⟩
      (tick (init_grid_from_string (grid_of 3 3 (fun i j => 977 * i + j)) ⟨fun k => k + 1, 0⟩)) ∧
    (∀ i, i < (tick (init_grid_from_string (grid_of 3 3 (fun i j => 977 * i + j))
        ⟨fun k => k + 1, 0⟩)).1.width →
      ∀ j, j < (tick (init_grid_from_string (grid_of 3 3 (fun i j => 977 * i + j))
        ⟨fun k => k + 1, 0⟩)).1.height →
      ELEM_GENC ((tick (init_grid_from_string (grid_of 3 3 (fun i j => 977 * i + j))
        ⟨fun k => k + 1, 0⟩)).1.data i j) = MAKE_GENC 0) :=
  ⟨by decide, by decide, Reachable.tick _ Reachable.init,
    (traits_stay_zero (grid_of 3 3 (fun i j => 977 * i + j)) (by decide) (by decide)
      ⟨fun k => k + 1, 0⟩ _ (Reachable.tick _ Reachable.init)).1⟩

/-! ## Claim C19 -/

theorem one_step_before_succ (g : grid_t) (rng : Rng) (i j : Nat) :
    one_step_before g rng i (j + 1) = one_step_cell i j (one_step_before g rng i j) := rfl

/-- A cell keeps, to the end of the classify scan, what its own visit stored. -/
theorem one_step_last_write (g : grid_t) (rng : Rng) (i j : Nat) (hi : i < g.width)
    (hj : j < g.height) :
    (one_step g rng).grid.data i j = (one_step_before g rng i (j + 1)).grid.data i j := by
  have h := scan_inv g.width g.height one_step_cell
    (fun i2 j2 s => s = one_step_before g rng i2 j2 ∧
      (visited i2 j2 (i, j) = true →
        s.grid.data i j = (one_step_before g rng i (j + 1)).grid.data i j))
    (Scan.mk g rng 0) ⟨rfl, by simp [visited_zero]⟩
    (by
      intro i2 j2 s _ _ hP
      obtain ⟨hs, hv⟩ := hP
      subst hs
      refine ⟨rfl, ?_⟩
      intro hvis
      rw [visited_step] at hvis
      by_cases hc : i = i2 ∧ j = j2
      · obtain ⟨rfl, rfl⟩ := hc
        rfl
      · have : ((i, j) == (i2, j2)) = false := by simpa using hc
        rw [this, Bool.or_false] at hvis
        rw [one_step_cell_other i2 j2 _ i j hc]
        exact hv hvis)
    (by
      intro i2 s _ hP
      obtain ⟨hs, hv⟩ := hP
      subst hs
      refine ⟨rfl, ?_⟩
      intro hvis
      rw [← visited_row i2 g.height (i, j) hj] at hvis
      exact hv hvis)
  exact h.2 (visited_all g.width (i, j) hi)

theorem pass_arith (old new : Nat)
    (hd : new / 65536 % 256 = 3 ↔ old / 65536 % 256 = 2 ∧ old % 256 ≠ 2 ∧ old % 256 ≠ 3)
    (ha : new / 65536 % 256 = 2 ↔ old / 65536 % 256 = 2 ∧ (old % 256 = 2 ∨ old % 256 = 3))
    (hle : new / 65536 % 256 ≤ 3) :
    new / 65536 % 256 * 65536 ≥ 131072 ↔ old / 65536 % 256 = 2 := by
  omega

theorem pass_same_arith (old : Nat) (ht : old / 65536 % 256 = 0 ∨ old / 65536 % 256 = 2) :
    old / 65536 % 256 * 65536 ≥ 131072 ↔ old / 65536 % 256 = 2 := by
  omega

/-- In the middle of the classify scan of a consistent grid, a cell passes the tag test of
`choose_genc` exactly if it was Alive when the scan started. -/
theorem pass_iff_alive (g : grid_t) (hc : Consistent g) (rng : Rng) (i j : Nat)
    (hi : i < g.width) (hj : j ≤ g.height) (a b : Nat) (ha : a < g.width) (hb : b < g.height) :
    ELEM_TAG ((one_step_before g rng i j).grid.data a b) ≥ ELEM ↔
      ELEM_TAG (g.data a b) = ELEM := by
  have hF := (one_step_before_inv g rng i j hi hj).2.2 a b
  have h0 := consistent_cell g hc a b ha hb
  rw [tag_elem_iff, ELEM_TAG_eq, ELEM_eq]
  split_ifs at hF with hv
  · have hf := classified_fields _ _ hF h0.1 h0.2.2
    exact pass_arith _ _ hf.2.2.1 hf.2.2.2.1 hf.2.2.2.2.2.2.2
  · rw [hF]
    exact pass_same_arith _ h0.1

theorem participants_length (g : grid_t) (hc : Consistent g) (rng : Rng) (i j : Nat)
    (hi : i < g.width) (hj : j < g.height) :
    (participants (one_step_before g rng i j).grid i j).length = countTag g ELEM i j := by
  obtain ⟨hW, hH, _⟩ := one_step_before_inv g rng i j hi (by omega)
  unfold participants nbrCells countTag
  rw [← List.countP_eq_length_filter, List.countP_map, hW, hH]
  apply List.countP_congr
  intro q hq
  have hr := nbrs_range _ _ _ _ hi hj q hq
  have hp := pass_iff_alive g hc rng i j hi (by omega) q.1 q.2 hr.1 hr.2
  simp only [Function.comp_apply, decide_eq_true_eq, beq_iff_eq]
  exact hp

theorem successCount_le (ps : List Nat) (draws : Nat → Nat) (pos : Nat) :
    successCount ps draws pos ≤ ps.length := by
  induction ps generalizing pos with
  | nil => simp [successCount]
  | cons e es ih =>
    have := ih (pos + 1)
    simp only [successCount, List.length_cons]
    split_ifs <;> omega

theorem born_cell_arith (old new : Nat) (c r n : Nat)
    (hb : new / 65536 % 256 = 1 ↔ old / 65536 % 256 = 0 ∧ old % 256 = 3)
    (hn : new / 65536 % 256 = 1) (hs : old % 256 = c)
    (hv : n = if old % 256 = 3 ∧ old / 65536 % 256 = 0 then 65536 + r * 256 + 3 else 0)
    (hr : r ≤ 3) : c = 3 ∧ n / 256 % 256 * 256 = r * 256 := by
  have h := hb.mp hn
  rw [if_pos ⟨h.2, h.1⟩] at hv
  omega

/-- C19 (inheritance sees the start-of-tick snapshot). On every consistent grid with width
>= 3 and height >= 3, whenever `one_step` marks a cell `(i,j)` Born, then in the state in
which the scan visits `(i,j)` the neighbours that pass the tag test of `choose_genc` are
exactly those that were Alive when `one_step` started (re-tagged Dying or not, while a
neighbour already re-tagged Born was Empty and does not pass); they are 3, the visit
consumes exactly 3 random draws, and the newborn's trait is at most 3, wherever the cell
lies in the scan order. -/
theorem birth_sees_snapshot (g : grid_t) (_hw : 3 ≤ g.width) (_hh : 3 ≤ g.height)
    (hc : Consistent g) (rng : Rng) (i j : Nat) (hi : i < g.width) (hj : j < g.height)
    (hb : ELEM_TAG ((one_step g rng).grid.data i j) = BORN_ELEM) :
    (∀ q, q ∈ nbrs g.width g.height i j →
      (ELEM_TAG ((one_step_before g rng i j).grid.data q.1 q.2) ≥ ELEM ↔
        ELEM_TAG (g.data q.1 q.2) = ELEM)) ∧
    countTag g ELEM i j = 3 ∧
    (participants (one_step_before g rng i j).grid i j).length = 3 ∧
    (one_step_before g rng i (j + 1)).rng.pos = (one_step_before g rng i j).rng.pos + 3 ∧
    ∃ r, r ≤ 3 ∧ ELEM_GENC ((one_step g rng).grid.data i j) = MAKE_GENC r := by
  have h0 := consistent_cell g hc i j hi hj
  have hC := (one_step_data g rng).2.2 i hi j hj
  have hf := classified_fields _ _ hC h0.1 h0.2.2
  rw [tag_born_iff] at hb
  have hInv := one_step_before_inv g rng i j hi (by omega)
  have hcur := classifyInv_current g i j _ hInv
  have hlen := participants_length g hc rng i j hi hj
  have hval := one_step_cell_value i j (one_step_before g rng i j)
  have hch := chooseAll_count (nbrCells (one_step_before g rng i j).grid i j) 0
    (one_step_before g rng i j).rng
  have hsc := successCount_le (participants (one_step_before g rng i j).grid i j)
    (one_step_before g rng i j).rng.draws (one_step_before g rng i j).rng.pos
  have hborn : g.data i j % 256 = 3 ∧ g.data i j / 65536 % 256 = 0 :=
    ⟨(hf.2.1.mp hb).2, (hf.2.1.mp hb).1⟩
  have h3 : countTag g ELEM i j = 3 := by
    rw [← h0.2.1]
    exact hborn.1
  have hr : (chooseAll (nbrCells (one_step_before g rng i j).grid i j)
      (0, (one_step_before g rng i j).rng)).1 ≤ 3 := by
    rw [hch.1, Nat.zero_add]
    unfold participants at hsc hlen
    rw [hlen, h3] at hsc
    exact hsc
  refine ⟨?_, h3, ?_, ?_, ?_⟩
  · intro q hq
    have hr := nbrs_range _ _ _ _ hi hj q hq
    exact pass_iff_alive g hc rng i j hi (by omega) q.1 q.2 hr.1 hr.2
  · rw [hlen, h3]
  · rw [one_step_before_succ, hval.2, hcur, if_pos hborn, hch.2.1]
    unfold participants at hlen
    rw [hlen, h3]
  · refine ⟨_, hr, ?_⟩
    rw [one_step_last_write g rng i j hi hj, one_step_before_succ, hval.1, hcur,
      if_pos hborn, ELEM_GENC_eq, MAKE_GENC_eq]
    omega

/-- C19, witness: the blinker on the 5 x 5 torus; cell `(0,1)` is born from the three Alive
cells of column 1. -/
theorem birth_sees_snapshot_witness :
    3 ≤ blinkerGrid.width ∧ 3 ≤ blinkerGrid.height ∧ Consistent blinkerGrid ∧
    ELEM_TAG ((one_step blinkerGrid ⟨fun k => k, 0⟩).grid.data 0 1) = BORN_ELEM ∧
    (participants (one_step_before blinkerGrid ⟨fun k => k, 0⟩ 0 1).grid 0 1).length = 3 :=
  ⟨by decide, by decide, by decide, by decide,
    (birth_sees_snapshot blinkerGrid (by decide) (by decide) (by decide) ⟨fun k => k, 0⟩ 0 1
      (by decide) (by decide) (by decide)).2.2.1⟩

/-! ## Claim C15 -/

/-- Effect of `fill`: every cell of the grid holds the value, nothing else is written. -/
theorem fill_data (g : grid_t) (v : Nat) :
    (fill g v).width = g.width ∧ (fill g v).height = g.height ∧
    ∀ a b, (fill g v).data a b = if a < g.width ∧ b < g.height then v % U32 else g.data a b := by
  have h := scan_inv g.width g.height (fun i j s => set_cell s i j v)
    (fun i j s => s.width = g.width ∧ s.height = g.height ∧
      ∀ a b, s.data a b = if visited i j (a, b) = true ∧ b < g.height then v % U32
        else g.data a b)
    g ⟨rfl, rfl, by simp [visited_zero]⟩
    (by
      intro i j s _ hj hP
      obtain ⟨hW, hH, hF⟩ := hP
      refine ⟨hW, hH, ?_⟩
      intro a b
      rw [set_cell_data, visited_step, hF a b]
      by_cases hc : a = i ∧ b = j
      · obtain ⟨rfl, rfl⟩ := hc
        simp [hj]
      · have : ((a, b) == (i, j)) = false := by simpa using hc
        rw [this, Bool.or_false, if_neg hc])
    (by
      intro i s _ hP
      obtain ⟨hW, hH, hF⟩ := hP
      refine ⟨hW, hH, ?_⟩
      intro a b
      rw [hF a b]
      by_cases hb : b < g.height
      · rw [← visited_row i g.height (a, b) hb]
      · simp [hb])
  refine ⟨h.1, h.2.1, ?_⟩
  intro a b
  rw [show (fill g v).data a b = _ from h.2.2 a b]
  by_cases ha : a < g.width
  · simp [(visited_end g.width (a, b)).mpr ha, ha]
  · have : ¬ (visited g.width 0 (a, b) = true) := fun hv =>
      ha ((visited_end g.width (a, b)).mp hv)
    simp [this, ha]

theorem fill_zero_consistent (g : grid_t) : Consistent (fill g 0) := by
  obtain ⟨hW, hH, hF⟩ := fill_data g 0
  have hcell : ∀ a, a < g.width → ∀ b, b < g.height → (fill g 0).data a b = 0 := by
    intro a ha b hb
    rw [hF a b, if_pos ⟨ha, hb⟩]
    rfl
  intro a ha b hb
  rw [hW] at ha
  rw [hH] at hb
  have hz : countTag (fill g 0) ELEM a b = 0 := by
    apply countTag_zero
    intro q hq
    rw [hW, hH] at hq
    have hr := nbrs_range _ _ _ _ ha hb q hq
    rw [hcell q.1 hr.1 q.2 hr.2]
    decide
  rw [hz, hcell a ha b hb]
  exact ⟨Or.inl (by decide), by decide⟩

/-- The classify scan writes nothing outside the grid. -/
theorem one_step_outside (g : grid_t) (rng : Rng) (a b : Nat)
    (hab : ¬ (a < g.width ∧ b < g.height)) : (one_step g rng).grid.data a b = g.data a b := by
  have h := (classify_scan g rng).2.2 a b
  by_cases hb : b < g.height
  · have ha : ¬ a < g.width := fun ha => hab ⟨ha, hb⟩
    have : ¬ (visited g.width 0 (a, b) = true) := fun hv =>
      ha ((visited_end g.width (a, b)).mp hv)
    simpa [this] using h
  · simpa [hb] using h

/-- The commit scan writes nothing outside the grid. -/
theorem update_outside (g : grid_t) (hw : 2 ≤ g.width) (hh : 2 ≤ g.height) (a b : Nat)
    (hab : ¬ (a < g.width ∧ b < g.height)) : (update g).1.data a b = g.data a b := by
  have h := scan_inv g.width g.height update_cell
    (fun _ _ s => s.1.width = g.width ∧ s.1.height = g.height ∧ s.1.data a b = g.data a b)
    (g, 0) ⟨rfl, rfl, rfl⟩
    (by
      intro i j s hi hj hP
      obtain ⟨hW, hH, hF⟩ := hP
      refine ⟨by rw [(update_cell_dims s i j).1, hW], by rw [(update_cell_dims s i j).2, hH], ?_⟩
      have hne : ¬ (a = i ∧ b = j) := by
        intro h
        exact hab ⟨by rw [h.1]; exact hi, by rw [h.2]; exact hj⟩
      have hz : (nbrs s.1.width s.1.height i j).count (a, b) = 0 := by
        apply List.count_eq_zero_of_not_mem
        intro hm
        rw [hW, hH] at hm
        exact hab (nbrs_range _ _ _ _ hi hj (a, b) hm)
      have hbd := s.1.bounded a b
      by_cases h1 : ELEM_TAG (s.1.data i j) = BORN_ELEM
      · rw [update_cell_born_data s i j (by omega) (by omega) (by omega) (by omega) h1 a b,
          if_neg hne, hz, Nat.add_zero, Nat.mod_eq_of_lt hbd]
        exact hF
      · by_cases h2 : ELEM_TAG (s.1.data i j) = DEAD_ELEM
        · rw [update_cell_dead_data s i j (by omega) (by omega) (by omega) (by omega) h2 a b,
            if_neg hne, hz, Nat.zero_mul, Nat.add_zero, Nat.mod_eq_of_lt hbd]
          exact hF
        · rw [update_cell_other s i j h1 h2]
          exact hF)
    (by
      intro i s _ hP
      exact hP)
  exact h.2.2

/-- A tick writes nothing outside the grid. -/
theorem tick_outside (g : grid_t) (hw : 2 ≤ g.width) (hh : 2 ≤ g.height) (rng : Rng)
    (a b : Nat) (hab : ¬ (a < g.width ∧ b < g.height)) :
    (tick (g, rng)).1.data a b = g.data a b := by
  have htick : (tick (g, rng)).1 = (update (one_step g rng).grid).1 := rfl
  obtain ⟨hW, hH, _⟩ := one_step_data g rng
  rw [htick, update_outside _ (by omega) (by omega) a b (by rw [hW, hH]; exact hab),
    one_step_outside g rng a b hab]

theorem small_tick_arith (d m u : Nat) (hd : d < 16777216)
    (hm : if d % 256 = 3 ∧ d / 65536 % 256 = 0 then ∃ r, r ≤ 8 ∧ m = 65536 + r * 256 + 3
      else if (d % 256 ≤ 8 ∧ d % 256 ≠ 2 ∧ d % 256 ≠ 3) ∧ d / 65536 % 256 = 2 then
        m = 196608 + d % 65536
      else m = d)
    (hu : u / 256 = (if m / 65536 % 256 = 1 then 131072 + m % 65536
      else if m / 65536 % 256 = 3 then m % 65536 else m) / 256) : u < 16777216 := by
  split_ifs at hm hu
  all_goals omega

/-- A tick keeps the cells within the 24 bits of the three fields. -/
theorem tick_small (g : grid_t) (hw : 2 ≤ g.width) (hh : 2 ≤ g.height) (hc : Consistent g)
    (hs : Small g) (rng : Rng) : Small (tick (g, rng)).1 := by
  have htick : (tick (g, rng)).1 = (update (one_step g rng).grid).1 := rfl
  obtain ⟨hW, hH, hF⟩ := one_step_data g rng
  have hmid := classify_midTick g hc rng
  have hU := update_data (one_step g rng).grid (by omega) (by omega) hmid
  rw [htick]
  intro a ha b hb
  rw [hU.1, hW] at ha
  rw [hU.2.1, hH] at hb
  have hf := (update_fields (one_step g rng).grid (by omega) (by omega) hmid a b
    (by rw [hW]; exact ha) (by rw [hH]; exact hb)).1
  rw [commitCell_eq] at hf
  exact small_tick_arith _ _ _ (hs a ha b hb) (hF a ha b hb) hf

theorem small_toggle_arith (d2 d m c : Nat) (self : Prop) [Decidable self]
    (hd2 : d2 = (if self then d + 131072 else d) + m) (hs : d % 256 = c) (hm : c + m ≤ 8)
    (ht : self → d / 65536 % 256 = 0) (hd : d < 16777216) : d2 < 16777216 := by
  split_ifs at hd2 with h
  · have := ht h
    omega
  · omega

/-- Switching an Empty cell on keeps the cells within the 24 bits of the three fields. -/
theorem toggle_empty_small (g : grid_t) (hc : Consistent g) (hs : Small g) (x y : Nat)
    (hx : x < g.width) (hy : y < g.height) (h : ELEM_TAG (g.data x y) = NO_ELEM) :
    Small (toggle_cell g x y) := by
  intro a ha b hb
  rw [(toggle_dims g x y).1] at ha
  rw [(toggle_dims g x y).2] at hb
  have hd := toggle_empty_data g hc x y hx hy h a b ha hb
  have hab := consistent_cell g hc a b ha hb
  rw [tag_none_iff] at h
  by_cases hself : a = x ∧ b = y
  · obtain ⟨rfl, rfl⟩ := hself
    exact small_toggle_arith _ _ _ _ True (by simpa using hd.2) hab.2.1 hd.1 (fun _ => h)
      (hs a ha b hb)
  · exact small_toggle_arith _ _ _ _ False (by simpa [hself] using hd.2) hab.2.1 hd.1
      (fun hf => hf.elim) (hs a ha b hb)

theorem toNat_decide (p : Prop) [Decidable p] : (decide p).toNat = if p then 1 else 0 := by
  by_cases h : p <;> simp [h]

/-- Counting the neighbour positions that satisfy a condition on each coordinate: the
product of the counts per coordinate, less the centre. -/
theorem countP_nbrs_prod (w h a b : Nat) (px py : Nat → Bool) :
    (nbrs w h a b).countP (fun q => px q.1 && py q.2) + (px a && py b).toNat =
      ((px (prevIdx w a)).toNat + (px a).toNat + (px (nextIdx w a)).toNat) *
        ((py (prevIdx h b)).toNat + (py b).toNat + (py (nextIdx h b)).toNat) := by
  unfold nbrs
  simp only [List.countP_cons, List.countP_nil]
  generalize px (prevIdx w a) = x1
  generalize px a = x2
  generalize px (nextIdx w a) = x3
  generalize py (prevIdx h b) = y1
  generalize py b = y2
  generalize py (nextIdx h b) = y3
  cases x1 <;> cases x2 <;> cases x3 <;> cases y1 <;> cases y2 <;> cases y3 <;> rfl

/-- Of a coordinate and its two toroidal neighbours, how many equal 1. -/
theorem three_eq_one (n i : Nat) (hn : 5 ≤ n) (hi : i < n) :
    (decide (prevIdx n i = 1)).toNat + (decide (i = 1)).toNat +
      (decide (nextIdx n i = 1)).toNat = if i ≤ 2 then 1 else 0 := by
  have h1 : prevIdx n i = 1 ↔ i = 2 := by
    unfold prevIdx
    split_ifs <;> omega
  have h2 : nextIdx n i = 1 ↔ i = 0 := by
    unfold nextIdx
    by_cases hc : (i : Int) < (n : Int) - 1
    · rw [if_pos hc]
      omega
    · rw [if_neg hc]
      constructor <;> intro h <;> omega
  simp only [toNat_decide, h1, h2]
  split_ifs <;> omega

/-- Of a coordinate and its two toroidal neighbours, how many are at most 2. -/
theorem three_le_two (n i : Nat) (hn : 5 ≤ n) (hi : i < n) :
    (decide (prevIdx n i ≤ 2)).toNat + (decide (i ≤ 2)).toNat +
      (decide (nextIdx n i ≤ 2)).toNat =
        if i = 1 then 3 else if i = 0 ∨ i = 2 then 2 else if i = 3 ∨ i = n - 1 then 1 else 0 := by
  have h1 : prevIdx n i ≤ 2 ↔ 1 ≤ i ∧ i ≤ 3 := by
    unfold prevIdx
    split_ifs <;> omega
  have h2 : nextIdx n i ≤ 2 ↔ i ≤ 1 ∨ i = n - 1 := by
    unfold nextIdx
    split_ifs <;> omega
  simp only [toNat_decide, h1, h2]
  split_ifs
  all_goals omega

theorem col_rule_arith (a b h c : Nat) (hh : 5 ≤ h)
    (hcnt : c + (if a = 1 ∧ b ≤ 2 then 1 else 0) =
      (if a ≤ 2 then 1 else 0) *
        (if b = 1 then 3 else if b = 0 ∨ b = 2 then 2 else if b = 3 ∨ b = h - 1 then 1 else 0)) :
    (((a = 1 ∧ b ≤ 2) ∧ (c = 2 ∨ c = 3)) ∨ (¬ (a = 1 ∧ b ≤ 2) ∧ c = 3)) ↔ (b = 1 ∧ a ≤ 2) := by
  split_ifs at hcnt <;> omega

/-- One generation from the vertical triple `(1,0)`, `(1,1)`, `(1,2)` of a consistent grid
of at least 5 x 5 cells: the Alive cells are then the triple `(0,1)`, `(1,1)`, `(2,1)`. -/
theorem blinker_turn (g : grid_t) (hw : 5 ≤ g.width) (hh : 5 ≤ g.height) (hc : Consistent g)
    (rng : Rng)
    (hp : ∀ a, a < g.width → ∀ b, b < g.height →
      (ELEM_TAG (g.data a b) = ELEM ↔ a = 1 ∧ b ≤ 2)) :
    ∀ a, a < g.width → ∀ b, b < g.height →
      (ELEM_TAG ((tick (g, rng)).1.data a b) = ELEM ↔ b = 1 ∧ a ≤ 2) := by
  intro a ha b hb
  have ht := (tick_cell g (by omega) (by omega) hc rng).2.2.2 a ha b hb
  have h0 := (hc a ha b hb).1
  have hcnt : countTag g ELEM a b =
      (nbrs g.width g.height a b).countP (fun q => decide (q.1 = 1) && decide (q.2 ≤ 2)) := by
    unfold countTag
    apply List.countP_congr
    intro q hq
    have hr := nbrs_range _ _ _ _ ha hb q hq
    have := hp q.1 hr.1 q.2 hr.2
    simp only [beq_iff_eq, Bool.and_eq_true, decide_eq_true_eq]
    exact this
  have hprod := countP_nbrs_prod g.width g.height a b (fun x => decide (x = 1))
    (fun y => decide (y ≤ 2))
  beta_reduce at hprod
  rw [three_eq_one g.width a hw ha, three_le_two g.height b hh hb, ← hcnt, ← Bool.decide_and,
    toNat_decide] at hprod
  have hne : ELEM_TAG (g.data a b) = NO_ELEM ↔ ¬ (a = 1 ∧ b ≤ 2) := by
    rw [← hp a ha b hb]
    have hd : NO_ELEM ≠ ELEM := by decide
    rcases h0 with h | h
    · rw [h]
      simp [hd]
    · rw [h]
      simp [hd.symm]
  rw [ht, hp a ha b hb, hne]
  exact col_rule_arith a b g.height _ hh hprod

theorem row_rule_arith (a b w c : Nat) (hw : 5 ≤ w)
    (hcnt : c + (if a ≤ 2 ∧ b = 1 then 1 else 0) =
      (if a = 1 then 3 else if a = 0 ∨ a = 2 then 2 else if a = 3 ∨ a = w - 1 then 1 else 0) *
        (if b ≤ 2 then 1 else 0)) :
    (((b = 1 ∧ a ≤ 2) ∧ (c = 2 ∨ c = 3)) ∨ (¬ (b = 1 ∧ a ≤ 2) ∧ c = 3)) ↔ (a = 1 ∧ b ≤ 2) := by
  split_ifs at hcnt <;> omega

/-- One generation from the horizontal triple `(0,1)`, `(1,1)`, `(2,1)` of a consistent
grid of at least 5 x 5 cells: the Alive cells are then the triple `(1,0)`, `(1,1)`,
`(1,2)`. -/
theorem blinker_turn_back (g : grid_t) (hw : 5 ≤ g.width) (hh : 5 ≤ g.height)
    (hc : Consistent g) (rng : Rng)
    (hp : ∀ a, a < g.width → ∀ b, b < g.height →
      (ELEM_TAG (g.data a b) = ELEM ↔ b = 1 ∧ a ≤ 2)) :
    ∀ a, a < g.width → ∀ b, b < g.height →
      (ELEM_TAG ((tick (g, rng)).1.data a b) = ELEM ↔ a = 1 ∧ b ≤ 2) := by
  intro a ha b hb
  have ht := (tick_cell g (by omega) (by omega) hc rng).2.2.2 a ha b hb
  have h0 := (hc a ha b hb).1
  have hcnt : countTag g ELEM a b =
      (nbrs g.width g.height a b).countP (fun q => decide (q.1 ≤ 2) && decide (q.2 = 1)) := by
    unfold countTag
    apply List.countP_congr
    intro q hq
    have hr := nbrs_range _ _ _ _ ha hb q hq
    have := hp q.1 hr.1 q.2 hr.2
    simp only [beq_iff_eq, Bool.and_eq_true, decide_eq_true_eq]
    rw [this]
    exact And.comm
  have hprod := countP_nbrs_prod g.width g.height a b (fun x => decide (x ≤ 2))
    (fun y => decide (y = 1))
  beta_reduce at hprod
  rw [three_eq_one g.height b hh hb, three_le_two g.width a hw ha, ← hcnt, ← Bool.decide_and,
    toNat_decide] at hprod
  have hne : ELEM_TAG (g.data a b) = NO_ELEM ↔ ¬ (b = 1 ∧ a ≤ 2) := by
    rw [← hp a ha b hb]
    have hd : NO_ELEM ≠ ELEM := by decide
    rcases h0 with h | h
    · rw [h]
      simp [hd]
    · rw [h]
      simp [hd.symm]
  rw [ht, hp a ha b hb, hne]
  exact row_rule_arith a b g.width _ hw hprod

theorem cell_eq_arith (x y c : Nat) (hx : x < 16777216) (hy : y < 16777216)
    (htx : x / 65536 % 256 = 0 ∨ x / 65536 % 256 = 2)
    (hty : y / 65536 % 256 = 0 ∨ y / 65536 % 256 = 2)
    (ht : x / 65536 % 256 = 2 ↔ y / 65536 % 256 = 2)
    (hgx : x / 256 % 256 * 256 = 0 * 256) (hgy : y / 256 % 256 * 256 = 0 * 256)
    (hsx : x % 256 = c) (hsy : y % 256 = c) : x = y := by
  omega

/-- Two consistent grids with all traits 0 and nothing above the tag field are equal as
soon as they have the same Alive cells (and agree outside the grid). -/
theorem consistent_ext (g1 g2 : grid_t) (hW : g1.width = g2.width) (hH : g1.height = g2.height)
    (hc1 : Consistent g1) (hc2 : Consistent g2) (hz1 : ZeroTrait g1) (hz2 : ZeroTrait g2)
    (hs1 : Small g1) (hs2 : Small g2)
    (hp : ∀ a, a < g2.width → ∀ b, b < g2.height →
      (ELEM_TAG (g1.data a b) = ELEM ↔ ELEM_TAG (g2.data a b) = ELEM))
    (hout : ∀ a b, ¬ (a < g2.width ∧ b < g2.height) → g1.data a b = g2.data a b) :
    g1 = g2 := by
  apply grid_ext g1 g2 _ hW hH
  intro a b
  by_cases hab : a < g2.width ∧ b < g2.height
  · obtain ⟨ha, hb⟩ := hab
    have ha1 : a < g1.width := by rw [hW]; exact ha
    have hb1 : b < g1.height := by rw [hH]; exact hb
    have h1 := consistent_cell g1 hc1 a b ha1 hb1
    have h2 := consistent_cell g2 hc2 a b ha hb
    have hcnt : countTag g1 ELEM a b = countTag g2 ELEM a b := by
      unfold countTag
      rw [hW, hH]
      apply List.countP_congr
      intro q hq
      have hr := nbrs_range _ _ _ _ ha hb q hq
      have := hp q.1 hr.1 q.2 hr.2
      simp only [beq_iff_eq]
      exact this
    have e1 := hz1 a ha1 b hb1
    have e2 := hz2 a ha b hb
    have t := hp a ha b hb
    rw [ELEM_GENC_eq, MAKE_GENC_eq] at e1 e2
    rw [tag_elem_iff, tag_elem_iff] at t
    exact cell_eq_arith _ _ _ (hs1 a ha1 b hb1) (hs2 a ha b hb) h1.1 h2.1 t e1 e2
      (by rw [h1.2.1, hcnt]) h2.2.1
  · exact hout a b hab

theorem tag_step_arith (t2 t : Nat) (self : Prop) [Decidable self] (P : Prop)
    (h2 : t2 = if self then 2 else t) (h : (t = 2 ↔ P)) :
    (t2 = 2 ↔ (self ∨ P)) := by
  split_ifs at h2 with hs
  · simp [h2, hs]
  · rw [h2, h]
    simp [hs]

/-- Switching an Empty cell of a consistent grid on: the grid stays consistent, keeps its
sizes, its traits and its high bits, and gains exactly that Alive cell. -/
theorem toggle_on (g : grid_t) (hc : Consistent g) (hz : ZeroTrait g) (hs : Small g)
    (x y : Nat) (hx : x < g.width) (hy : y < g.height) (P : Nat → Nat → Prop)
    (hp : ∀ a, a < g.width → ∀ b, b < g.height → (ELEM_TAG (g.data a b) = ELEM ↔ P a b))
    (hn : ¬ P x y) :
    (toggle_cell g x y).width = g.width ∧ (toggle_cell g x y).height = g.height ∧
    Consistent (toggle_cell g x y) ∧ ZeroTrait (toggle_cell g x y) ∧
    Small (toggle_cell g x y) ∧
    (∀ a, a < g.width → ∀ b, b < g.height →
      (ELEM_TAG ((toggle_cell g x y).data a b) = ELEM ↔ ((a = x ∧ b = y) ∨ P a b))) ∧
    ∀ a b, ¬ (a < g.width ∧ b < g.height) → (toggle_cell g x y).data a b = g.data a b := by
  have he : ELEM_TAG (g.data x y) = NO_ELEM := by
    rcases (hc x hx y hy).1 with h | h
    · exact h
    · exact absurd ((hp x hx y hy).mp h) hn
  refine ⟨(toggle_dims g x y).1, (toggle_dims g x y).2, toggle_consistent g hc x y hx hy,
    toggle_zeroTrait g hc hz x y hx hy, toggle_empty_small g hc hs x y hx hy he, ?_,
    toggle_outside g x y hx hy⟩
  intro a ha b hb
  have hf := (toggle_empty_fields g hc x y hx hy he a b ha hb).1
  have h := hp a ha b hb
  rw [tag_elem_iff] at h ⊢
  exact tag_step_arith _ _ (a = x ∧ b = y) (P a b) hf h

/-- The blinker as set up by `fill` and three toggles. -/
theorem blinker_start (g : grid_t) (hw : 5 ≤ g.width) (hh : 5 ≤ g.height) :
    (blinker g).width = g.width ∧ (blinker g).height = g.height ∧
    Consistent (blinker g) ∧ ZeroTrait (blinker g) ∧ Small (blinker g) ∧
    (∀ a, a < g.width → ∀ b, b < g.height →
      (ELEM_TAG ((blinker g).data a b) = ELEM ↔ a = 1 ∧ b ≤ 2)) ∧
    ∀ a b, ¬ (a < g.width ∧ b < g.height) → (blinker g).data a b = g.data a b := by
  obtain ⟨hW0, hH0, hF0⟩ := fill_data g 0
  have hcell : ∀ a, a < g.width → ∀ b, b < g.height → (fill g 0).data a b = 0 := by
    intro a ha b hb
    rw [hF0 a b, if_pos ⟨ha, hb⟩]
    rfl
  have hz0 : ZeroTrait (fill g 0) := by
    intro a ha b hb
    rw [hW0] at ha
    rw [hH0] at hb
    rw [hcell a ha b hb]
    decide
  have hs0 : Small (fill g 0) := by
    intro a ha b hb
    rw [hW0] at ha
    rw [hH0] at hb
    rw [hcell a ha b hb]
    decide
  have hp0 : ∀ a, a < (fill g 0).width → ∀ b, b < (fill g 0).height →
      (ELEM_TAG ((fill g 0).data a b) = ELEM ↔ False) := by
    intro a ha b hb
    rw [hW0] at ha
    rw [hH0] at hb
    rw [hcell a ha b hb]
    decide
  have hout0 : ∀ a b, ¬ (a < g.width ∧ b < g.height) → (fill g 0).data a b = g.data a b := by
    intro a b hab
    rw [hF0 a b, if_neg hab]
  obtain ⟨hW1, hH1, hc1, hz1, hs1, hp1, hout1⟩ :=
    toggle_on (fill g 0) (fill_zero_consistent g) hz0 hs0 1 0 (by omega) (by omega)
      (fun _ _ => False) hp0 (fun h => h)
  obtain ⟨hW2, hH2, hc2, hz2, hs2, hp2, hout2⟩ :=
    toggle_on (toggle_cell (fill g 0) 1 0) hc1 hz1 hs1 1 1 (by omega) (by omega)
      (fun a b => (a = 1 ∧ b = 0) ∨ False)
      (fun a ha b hb => hp1 a (by omega) b (by omega)) (by decide)
  obtain ⟨hW3, hH3, hc3, hz3, hs3, hp3, hout3⟩ :=
    toggle_on (toggle_cell (toggle_cell (fill g 0) 1 0) 1 1) hc2 hz2 hs2 1 2 (by omega)
      (by omega) (fun a b => (a = 1 ∧ b = 1) ∨ ((a = 1 ∧ b = 0) ∨ False))
      (fun a ha b hb => hp2 a (by omega) b (by omega)) (by decide)
  refine ⟨by rw [← hW0, ← hW1, ← hW2, ← hW3]; rfl, by rw [← hH0, ← hH1, ← hH2, ← hH3]; rfl,
    hc3, hz3, hs3, ?_, ?_⟩
  · intro a ha b hb
    have := hp3 a (by omega) b (by omega)
    beta_reduce at this
    unfold blinker
    rw [this]
    simp only [or_false]
    omega
  · intro a b hab
    unfold blinker
    rw [hout3 a b (by rw [hW2, hW1, hW0, hH2, hH1, hH0]; exact hab),
      hout2 a b (by rw [hW1, hW0, hH1, hH0]; exact hab),
      hout1 a b (by rw [hW0, hH0]; exact hab), hout0 a b hab]

/-- C15 (blinker). On every grid with width >= 5 and height >= 5, cleared with `fill(grid, 0)`
and with `(1,0)`, `(1,1)`, `(1,2)` switched on by `toggle_cell`, whatever the random draws:
the Alive cells are that triple; after one tick every cell is Empty or Alive and the Alive
cells are exactly `(0,1)`, `(1,1)`, `(2,1)`; after a second tick the Alive cells are exactly
`(1,0)`, `(1,1)`, `(1,2)` again and the whole grid equals the grid before the first tick. -/
theorem blinker_period_two (g : grid_t) (hw : 5 ≤ g.width) (hh : 5 ≤ g.height) (rng : Rng) :
    (∀ i, i < g.width → ∀ j, j < g.height →
      (ELEM_TAG ((blinker g).data i j) = ELEM ↔ (i, j) ∈ [(1, 0), (1, 1), (1, 2)])) ∧
    (∀ i, i < g.width → ∀ j, j < g.height →
      (ELEM_TAG ((tick (blinker g, rng)).1.data i j) = NO_ELEM ∨
        ELEM_TAG ((tick (blinker g, rng)).1.data i j) = ELEM) ∧
      (ELEM_TAG ((tick (blinker g, rng)).1.data i j) = ELEM ↔
        (i, j) ∈ [(0, 1), (1, 1), (2, 1)])) ∧
    (∀ i, i < g.width → ∀ j, j < g.height →
      (ELEM_TAG ((tick (tick (blinker g, rng))).1.data i j) = ELEM ↔
        (i, j) ∈ [(1, 0), (1, 1), (1, 2)])) ∧
    (tick (tick (blinker g, rng))).1 = blinker g := by
  obtain ⟨hW0, hH0, hc0, hz0, hs0, hp0, _⟩ := blinker_start g hw hh
  have hcol : ∀ i j : Nat, (i, j) ∈ [(1, 0), (1, 1), (1, 2)] ↔ i = 1 ∧ j ≤ 2 := by
    intro i j
    simp only [List.mem_cons, Prod.mk.injEq, List.mem_nil_iff, or_false]
    omega
  have hrow : ∀ i j : Nat, (i, j) ∈ [(0, 1), (1, 1), (2, 1)] ↔ j = 1 ∧ i ≤ 2 := by
    intro i j
    simp only [List.mem_cons, Prod.mk.injEq, List.mem_nil_iff, or_false]
    omega
  have hT1 := tick_cell (blinker g) (by omega) (by omega) hc0 rng
  have hp1 := blinker_turn (blinker g) (by omega) (by omega) hc0 rng
    (fun a ha b hb => hp0 a (by omega) b (by omega))
  have hz1 := tick_zeroTrait (blinker g) (by omega) (by omega) hc0 hz0 rng
  have hs1 := tick_small (blinker g) (by omega) (by omega) hc0 hs0 rng
  have hW1 : (tick (blinker g, rng)).1.width = g.width := by rw [hT1.1, hW0]
  have hH1 : (tick (blinker g, rng)).1.height = g.height := by rw [hT1.2.1, hH0]
  have w1 : 5 ≤ (tick (blinker g, rng)).1.width := by rw [hW1]; exact hw
  have h1 : 5 ≤ (tick (blinker g, rng)).1.height := by rw [hH1]; exact hh
  have hT2 := tick_cell (tick (blinker g, rng)).1 (by omega) (by omega) hT1.2.2.1
    (tick (blinker g, rng)).2
  have hp2 := blinker_turn_back (tick (blinker g, rng)).1 w1 h1 hT1.2.2.1
    (tick (blinker g, rng)).2 (fun a ha b hb => hp1 a (by omega) b (by omega))
  have hz2 := tick_zeroTrait (tick (blinker g, rng)).1 (by omega) (by omega) hT1.2.2.1 hz1
    (tick (blinker g, rng)).2
  have hs2 := tick_small (tick (blinker g, rng)).1 (by omega) (by omega) hT1.2.2.1 hs1
    (tick (blinker g, rng)).2
  have hW2 : (tick (tick (blinker g, rng))).1.width = g.width := by
    rw [← hW1]
    exact hT2.1
  have hH2 : (tick (tick (blinker g, rng))).1.height = g.height := by
    rw [← hH1]
    exact hT2.2.1
  refine ⟨?_, ?_, ?_, ?_⟩
  · intro i hi j hj
    rw [hcol]
    exact hp0 i hi j hj
  · intro i hi j hj
    rw [hrow]
    exact ⟨(hT1.2.2.1 i (by omega) j (by omega)).1, hp1 i (by omega) j (by omega)⟩
  · intro i hi j hj
    rw [hcol]
    exact hp2 i (by omega) j (by omega)
  · apply consistent_ext _ _ (by rw [hW2, hW0]) (by rw [hH2, hH0]) hT2.2.2.1 hc0 hz2 hz0 hs2 hs0
    · intro a ha b hb
      rw [hp0 a (by omega) b (by omega)]
      exact hp2 a (by omega) b (by omega)
    · intro a b hab
      have e2 := tick_outside (tick (blinker g, rng)).1 (by omega) (by omega)
        (tick (blinker g, rng)).2 a b (by rw [hW1, hH1, ← hW0, ← hH0]; exact hab)
      have e1 := tick_outside (blinker g) (by omega) (by omega) rng a b hab
      rw [← e1]
      exact e2

/-- C15, witness: the 5 x 5 grid. -/
theorem blinker_period_two_witness :
    5 ≤ (grid_of 5 5 (fun i j => 977 * i + j)).width ∧
    5 ≤ (grid_of 5 5 (fun i j => 977 * i + j)).height ∧
    (tick (tick (blinker (grid_of 5 5 (fun i j => 977 * i + j)), ⟨fun k => k, 0⟩))).1 =
      blinker (grid_of 5 5 (fun i j => 977 * i + j)) :=
  ⟨by decide, by decide,
    (blinker_period_two (grid_of 5 5 (fun i j => 977 * i + j)) (by decide) (by decide)
      ⟨fun k => k, 0⟩).2.2.2⟩

/-! ## Claim C17 -/

theorem add_ok_arith (d : Nat) (hd : d < 4294967296) (h : d % 256 ≤ 7) :
    (d + 1) % 4294967296 = d + 1 ∧ (d + 1) % 256 = d % 256 + 1 ∧
    (d + 1) / 65536 % 256 = d / 65536 % 256 ∧ (d + 1) / 256 % 256 = d / 256 % 256 := by
  omega

theorem sub_ok_arith (d : Nat) (hd : d < 4294967296) (h : 1 ≤ d % 256) :
    (d + 4294967295) % 4294967296 = d - 1 ∧ (d - 1) % 256 + 1 = d % 256 ∧
    (d - 1) / 65536 % 256 = d / 65536 % 256 ∧ (d - 1) / 256 % 256 = d / 256 % 256 := by
  omega

theorem add1_checked_ok (g : grid_t) (i j : Nat) (h : g.data i j % 256 ≤ 7) :
    add1_checked g i j = some (add1 g i j) := by
  unfold add1_checked
  rw [ELEM_SUM_eq, MAKE_SUM_eq, if_pos h]

theorem sub1_checked_ok (g : grid_t) (i j : Nat) (h : 1 ≤ g.data i j % 256)
    (h8 : g.data i j % 256 ≤ 8) : sub1_checked g i j = some (sub1 g i j) := by
  unfold sub1_checked
  rw [ELEM_SUM_eq, MAKE_SUM_eq, MAKE_SUM_eq, if_pos ⟨h, h8⟩]

theorem add1_data (g : grid_t) (i j a b : Nat) :
    (add1 g i j).data a b = if a = i ∧ b = j then (g.data i j + 1) % U32 else g.data a b := rfl

theorem sub1_data (g : grid_t) (i j a b : Nat) :
    (sub1 g i j).data a b =
      if a = i ∧ b = j then (g.data i j + (U32 - 1)) % U32 else g.data a b := rfl

theorem addAll_cons (g : grid_t) (p : Nat × Nat) (L : List (Nat × Nat)) :
    addAll g (p :: L) = addAll (add1 g p.1 p.2) L := rfl

theorem subAll_cons (g : grid_t) (p : Nat × Nat) (L : List (Nat × Nat)) :
    subAll g (p :: L) = subAll (sub1 g p.1 p.2) L := rfl

/-- A run of checked increments goes through if every cell has room for all the increments
it receives. -/
theorem addAllChecked_eq (g : grid_t) (L : List (Nat × Nat))
    (h : ∀ c, c ∈ L → g.data c.1 c.2 % 256 + L.count c ≤ 8) :
    addAllChecked g L = some (addAll g L) := by
  induction L generalizing g with
  | nil => rfl
  | cons p L ih =>
    have hp := h p (List.mem_cons_self p L)
    rw [List.count_cons_self] at hp
    rw [addAllChecked, add1_checked_ok g p.1 p.2 (by omega), Option.some_bind, addAll_cons]
    apply ih
    intro c hc
    have hcc := h c (List.mem_cons_of_mem p hc)
    rw [List.count_cons] at hcc
    rw [add1_data]
    have hb := g.bounded p.1 p.2
    simp only [U32] at hb ⊢
    by_cases hcp : c.1 = p.1 ∧ c.2 = p.2
    · have e : c = p := Prod.ext hcp.1 hcp.2
      subst e
      simp only [and_self, if_true, beq_self_eq_true] at hcc ⊢
      omega
    · rw [if_neg hcp]
      omega

/-- A run of checked decrements goes through if every cell holds at least as much as it
loses, and at most 8. -/
theorem subAllChecked_eq (g : grid_t) (L : List (Nat × Nat))
    (h : ∀ c, c ∈ L → L.count c ≤ g.data c.1 c.2 % 256 ∧ g.data c.1 c.2 % 256 ≤ 8) :
    subAllChecked g L = some (subAll g L) := by
  induction L generalizing g with
  | nil => rfl
  | cons p L ih =>
    have hp := h p (List.mem_cons_self p L)
    rw [List.count_cons_self] at hp
    rw [subAllChecked, sub1_checked_ok g p.1 p.2 (by omega) hp.2, Option.some_bind, subAll_cons]
    apply ih
    intro c hc
    have hcc := h c (List.mem_cons_of_mem p hc)
    rw [List.count_cons] at hcc
    rw [sub1_data]
    have hb := g.bounded p.1 p.2
    simp only [U32] at hb ⊢
    by_cases hcp : c.1 = p.1 ∧ c.2 = p.2
    · have e : c = p := Prod.ext hcp.1 hcp.2
      subst e
      simp only [and_self, if_true, beq_self_eq_true] at hcc ⊢
      omega
    · rw [if_neg hcp]
      omega

theorem update_cell_checked_born (s : grid_t × Nat) (i j : Nat)
    (htag : ELEM_TAG (s.1.data i j) = BORN_ELEM) :
    update_cell_checked i j s =
      (addAllChecked s.1 (nbrsA s.1.width s.1.height i j)).bind (fun g =>
        (addAllChecked (set_cell g i j (ELEM ||| ELEM_NO_TAG (s.1.data i j)))
          (nbrsB s.1.width s.1.height i j)).bind (fun g => some (g, 1))) := by
  unfold update_cell_checked
  simp only [htag, if_true, nbrsA, nbrsB, addAllChecked, Option.bind_assoc, Option.some_bind]

theorem update_cell_checked_dead (s : grid_t × Nat) (i j : Nat)
    (htag : ELEM_TAG (s.1.data i j) = DEAD_ELEM) :
    update_cell_checked i j s =
      (subAllChecked s.1 (nbrsA s.1.width s.1.height i j)).bind (fun g =>
        (subAllChecked (set_cell g i j (NO_ELEM ||| ELEM_NO_TAG (s.1.data i j)))
          (nbrsB s.1.width s.1.height i j)).bind (fun g => some (g, 1))) := by
  have hne : DEAD_ELEM ≠ BORN_ELEM := by decide
  unfold update_cell_checked
  simp only [htag, hne, if_true, if_false, nbrsA, nbrsB, subAllChecked, Option.bind_assoc,
    Option.some_bind]

theorem update_cell_checked_other (s : grid_t × Nat) (i j : Nat)
    (h1 : ELEM_TAG (s.1.data i j) ≠ BORN_ELEM) (h2 : ELEM_TAG (s.1.data i j) ≠ DEAD_ELEM) :
    update_cell_checked i j s = some s := by
  unfold update_cell_checked
  simp only [h1, h2, if_false]

theorem toggle_cell_checked_empty (g : grid_t) (x y : Nat)
    (h : ELEM_TAG (g.data x y) = NO_ELEM) :
    toggle_cell_checked g x y =
      addAllChecked (set_cell g x y (ELEM ||| (g.data x y &&& NOT TAG_MASK)))
        (nbrs g.width g.height x y) := by
  unfold toggle_cell_checked
  simp only [h, if_true]
  rfl

theorem toggle_cell_checked_alive (g : grid_t) (x y : Nat)
    (h : ELEM_TAG (g.data x y) = ELEM) :
    toggle_cell_checked g x y =
      subAllChecked (set_cell g x y (NO_ELEM ||| (g.data x y &&& NOT TAG_MASK)))
        (nbrs g.width g.height x y) := by
  have hne : ELEM ≠ NO_ELEM := by decide
  unfold toggle_cell_checked
  simp only [h, hne, if_true, if_false]
  rfl

theorem init_count_cell_checked_alive (i j : Nat) (g : grid_t)
    (h : ELEM_TAG (g.data i j) = ELEM) :
    init_count_cell_checked i j g = addAllChecked g (nbrs g.width g.height i j) := by
  unfold init_count_cell_checked
  simp only [h, if_true]
  rfl

theorem init_count_cell_checked_other (i j : Nat) (g : grid_t)
    (h : ELEM_TAG (g.data i j) ≠ ELEM) : init_count_cell_checked i j g = some g := by
  unfold init_count_cell_checked
  simp only [h, if_false]

theorem room_arith (sd base g1d E B D sB sD sB2 sD2 m : Nat) (born dead : Prop)
    [Decidable born] [Decidable dead]
    (F : sd + sD = base + sB) (hbase : base % 256 = g1d % 256) (hs : g1d % 256 = E + D)
    (h3 : E + B + D ≤ 8) (hB : sB2 ≤ B) (hD : sD2 ≤ D)
    (eB : sB2 = sB + if born then m else 0) (eD : sD2 = sD + if dead then m else 0) :
    (born → sd % 256 + m ≤ 8) ∧ (dead → m ≤ sd % 256 ∧ sd % 256 ≤ 8) := by
  constructor
  · intro hb
    rw [if_pos hb] at eB
    split_ifs at eD <;> omega
  · intro hd
    rw [if_pos hd] at eD
    split_ifs at eB <;> omega

theorem current_tag_arith (sd g1d E B D sB sD : Nat) (F : sd + sD = g1d + sB)
    (hs : g1d % 256 = E + D) (h3 : E + B + D ≤ 8) (hB : sB ≤ B) (hD : sD ≤ D) :
    sd / 65536 % 256 * 65536 = g1d / 65536 % 256 * 65536 := by
  omega

/-- In the commit scan the cell about to be visited still carries the tag the classify scan
gave it. -/
theorem commit_current_tag (g1 : grid_t) (hmid : MidTick g1) (i j : Nat) (s : grid_t × Nat)
    (hi : i < g1.width) (hj : j < g1.height) (hP : CommitInv g1 i j s) :
    ELEM_TAG (s.1.data i j) = ELEM_TAG (g1.data i j) := by
  have Fij := hP.2.2 i hi j hj
  have hsij := hmid i hi j hj
  have h3ij := countTag_three g1 i j
  have hDij := countSeen_le g1 DEAD_ELEM i j i j
  have hBij := countSeen_le g1 BORN_ELEM i j i j
  have hbij : commitBase g1 i j i j = g1.data i j := by simp [commitBase, visited_self]
  rw [hbij] at Fij
  rw [ELEM_SUM_eq] at hsij
  rw [ELEM_TAG_eq, ELEM_TAG_eq]
  exact current_tag_arith _ _ _ _ _ _ _ Fij hsij h3ij hBij hDij

/-- In the commit scan, when `(i,j)` is about to be visited, every cell has room for the
increments a Born `(i,j)` gives it, and holds the decrements a Dying `(i,j)` takes. -/
theorem commit_room (g1 : grid_t) (hmid : MidTick g1) (i j : Nat) (s : grid_t × Nat)
    (hi : i < g1.width) (hj : j < g1.height) (hP : CommitInv g1 i j s) (a b : Nat)
    (ha : a < g1.width) (hb : b < g1.height) :
    (ELEM_TAG (g1.data i j) = BORN_ELEM →
      s.1.data a b % 256 + (nbrs g1.width g1.height i j).count (a, b) ≤ 8) ∧
    (ELEM_TAG (g1.data i j) = DEAD_ELEM →
      (nbrs g1.width g1.height i j).count (a, b) ≤ s.1.data a b % 256 ∧
        s.1.data a b % 256 ≤ 8) := by
  have F := hP.2.2 a ha b hb
  have hs := hmid a ha b hb
  rw [ELEM_SUM_eq] at hs
  have h3 := countTag_three g1 a b
  have hD := countSeen_le g1 DEAD_ELEM i (j + 1) a b
  have hB := countSeen_le g1 BORN_ELEM i (j + 1) a b
  have eD := countSeen_step g1 DEAD_ELEM i j a b
  have eB := countSeen_step g1 BORN_ELEM i j a b
  rw [← nbrs_count_symm g1.width g1.height i j a b hi hj ha hb] at eD eB
  have hbase : commitBase g1 i j a b % 256 = g1.data a b % 256 := by
    unfold commitBase
    rw [commitCell_eq]
    split_ifs <;> omega
  exact room_arith _ _ _ _ _ _ _ _ _ _ _ _ _ F hbase hs h3 hB hD eB eD

theorem half_add_arith (d cA cB : Nat) (h : d % 256 + (cA + cB) ≤ 8) :
    d % 256 + cA ≤ 8 ∧ (d + cA) % 4294967296 % 256 + cB ≤ 8 := by
  omega

theorem half_sub_arith (d cA cB : Nat) (h : cA + cB ≤ d % 256)
    (h8 : d % 256 ≤ 8) :
    (cA ≤ d % 256 ∧ d % 256 ≤ 8) ∧
      (cB ≤ (d + cA * 4294967295) % 4294967296 % 256 ∧
        (d + cA * 4294967295) % 4294967296 % 256 ≤ 8) := by
  omega

/-- In the commit scan of a mid-tick grid of at least 2 x 2 cells, every `+= 1` and `-= 1`
of a visit meets its side condition. -/
theorem update_cell_checked_ok (g1 : grid_t) (hw : 2 ≤ g1.width) (hh : 2 ≤ g1.height)
    (hmid : MidTick g1) (i j : Nat) (s : grid_t × Nat) (hi : i < g1.width)
    (hj : j < g1.height) (hP : CommitInv g1 i j s) :
    update_cell_checked i j s = some (update_cell i j s) := by
  have htag := commit_current_tag g1 hmid i j s hi hj hP
  obtain ⟨hW, hH, _⟩ := hP
  have hself := nbrs_not_self _ _ i j hw hh hi hj
  have hcount : ∀ c : Nat × Nat, (nbrs g1.width g1.height i j).count c =
      (nbrsA g1.width g1.height i j).count c + (nbrsB g1.width g1.height i j).count c := by
    intro c
    rw [nbrs_split, List.count_append]
  have hmem : ∀ c : Nat × Nat, c ∈ nbrs g1.width g1.height i j →
      c.1 < g1.width ∧ c.2 < g1.height := fun c hc => nbrs_range _ _ _ _ hi hj c hc
  by_cases h1 : ELEM_TAG (g1.data i j) = BORN_ELEM
  · have hroom : ∀ c : Nat × Nat, c ∈ nbrs g1.width g1.height i j →
        s.1.data c.1 c.2 % 256 + (nbrsA g1.width g1.height i j).count c ≤ 8 ∧
        (s.1.data c.1 c.2 + (nbrsA g1.width g1.height i j).count c) % 4294967296 % 256 +
          (nbrsB g1.width g1.height i j).count c ≤ 8 := by
      intro c hc
      have hr := hmem c hc
      have h := (commit_room g1 hmid i j s hi hj ⟨hW, hH, by assumption⟩ c.1 c.2 hr.1 hr.2).1 h1
      rw [hcount] at h
      exact half_add_arith _ _ _ h
    rw [update_cell_checked_born s i j (by rw [htag, h1]), update_cell_born s i j
      (by rw [htag, h1]), hW, hH]
    rw [addAllChecked_eq s.1 _ (fun c hc => (hroom c (by
      rw [nbrs_split]; exact List.mem_append_left _ hc)).1), Option.some_bind]
    rw [addAllChecked_eq _ _ (by
      intro c hc
      have hcn : c ∈ nbrs g1.width g1.height i j := by
        rw [nbrs_split]; exact List.mem_append_right _ hc
      have hne : ¬ (c.1 = i ∧ c.2 = j) := by
        intro h
        apply hself
        have e : c = (i, j) := Prod.ext h.1 h.2
        rw [← e]
        exact hcn
      rw [set_cell_data, if_neg hne, addAll_data]
      exact (hroom c hcn).2), Option.some_bind]
  · by_cases h2 : ELEM_TAG (g1.data i j) = DEAD_ELEM
    · have hroom : ∀ c : Nat × Nat, c ∈ nbrs g1.width g1.height i j →
          ((nbrsA g1.width g1.height i j).count c ≤ s.1.data c.1 c.2 % 256 ∧
            s.1.data c.1 c.2 % 256 ≤ 8) ∧
          ((nbrsB g1.width g1.height i j).count c ≤
            (s.1.data c.1 c.2 + (nbrsA g1.width g1.height i j).count c * 4294967295) %
              4294967296 % 256 ∧
          (s.1.data c.1 c.2 + (nbrsA g1.width g1.height i j).count c * 4294967295) %
              4294967296 % 256 ≤ 8) := by
        intro c hc
        have hr := hmem c hc
        have h := (commit_room g1 hmid i j s hi hj ⟨hW, hH, by assumption⟩ c.1 c.2 hr.1
          hr.2).2 h2
        rw [hcount] at h
        exact half_sub_arith _ _ _ h.1 h.2
      rw [update_cell_checked_dead s i j (by rw [htag, h2]), update_cell_dead s i j
        (by rw [htag, h2]), hW, hH]
      rw [subAllChecked_eq s.1 _ (fun c hc => (hroom c (by
        rw [nbrs_split]; exact List.mem_append_left _ hc)).1), Option.some_bind]
      rw [subAllChecked_eq _ _ (by
        intro c hc
        have hcn : c ∈ nbrs g1.width g1.height i j := by
          rw [nbrs_split]; exact List.mem_append_right _ hc
        have hne : ¬ (c.1 = i ∧ c.2 = j) := by
          intro h
          apply hself
          have e : c = (i, j) := Prod.ext h.1 h.2
          rw [← e]
          exact hcn
        rw [set_cell_data, if_neg hne, subAll_data]
        exact (hroom c hcn).2), Option.some_bind]
    · rw [update_cell_checked_other s i j (by rw [htag]; exact h1) (by rw [htag]; exact h2),
        update_cell_other s i j (by rw [htag]; exact h1) (by rw [htag]; exact h2)]

theorem commitInv_zero (g1 : grid_t) : CommitInv g1 0 0 (g1, 0) := by
  refine ⟨rfl, rfl, ?_⟩
  intro a _ b _
  simp [countSeen_zero, commitBase, visited_zero]

theorem commitInv_row (g1 : grid_t) (i : Nat) (s : grid_t × Nat)
    (hP : CommitInv g1 i g1.height s) : CommitInv g1 (i + 1) 0 s := by
  obtain ⟨hW, hH, hF⟩ := hP
  refine ⟨hW, hH, ?_⟩
  intro a ha b hb
  have := hF a ha b hb
  rw [countSeen_row g1 _ i a b ha hb, countSeen_row g1 _ i a b ha hb] at this
  unfold commitBase at this ⊢
  rw [← visited_row i g1.height (a, b) hb]
  exact this

theorem update_before_inv (g1 : grid_t) (hw : 2 ≤ g1.width) (hh : 2 ≤ g1.height)
    (hmid : MidTick g1) (i j : Nat) (hi : i < g1.width) (hj : j ≤ g1.height) :
    CommitInv g1 i j (update_before g1 i j) := by
  unfold update_before
  exact scan_before_inv g1.width g1.height update_cell (CommitInv g1) _ (commitInv_zero g1)
    (fun i j s hi hj hP => commit_step g1 hw hh hmid i j s hi hj hP)
    (fun i s _ hP => commitInv_row g1 i s hP) i j hi hj

/-- The commit scan of a mid-tick grid of at least 2 x 2 cells passes every check. -/
theorem update_checked_ok (g1 : grid_t) (hw : 2 ≤ g1.width) (hh : 2 ≤ g1.height)
    (hmid : MidTick g1) : update_checked g1 = some (update g1) := by
  have h := scan_inv g1.width g1.height (fun i j s => s.bind (update_cell_checked i j))
    (fun i j so => so = some (update_before g1 i j))
    (some (g1, 0)) rfl
    (by
      intro i j so hi hj hP
      subst hP
      show (some (update_before g1 i j)).bind (update_cell_checked i j) = _
      rw [Option.some_bind, update_cell_checked_ok g1 hw hh hmid i j _ hi hj
        (update_before_inv g1 hw hh hmid i j hi (by omega))]
      rfl)
    (by
      intro i so _ hP
      rw [hP]
      rfl)
  exact h

/-- On a consistent grid of at least 2 x 2 cells, `toggle_cell` at an in-range position
passes every check. -/
theorem toggle_checked_ok (g : grid_t) (hw : 2 ≤ g.width) (hh : 2 ≤ g.height)
    (hc : Consistent g) (x y : Nat) (hx : x < g.width) (hy : y < g.height) :
    toggle_cell_checked g x y = some (toggle_cell g x y) := by
  have hself := nbrs_not_self _ _ x y hw hh hx hy
  have hne : ∀ c : Nat × Nat, c ∈ nbrs g.width g.height x y → ¬ (c.1 = x ∧ c.2 = y) := by
    intro c hcn h
    apply hself
    have e : c = (x, y) := Prod.ext h.1 h.2
    rw [← e]
    exact hcn
  by_cases h1 : ELEM_TAG (g.data x y) = NO_ELEM
  · rw [toggle_cell_checked_empty g x y h1, toggle_cell_empty g x y h1]
    apply addAllChecked_eq
    intro c hcn
    have hr := nbrs_range _ _ _ _ hx hy c hcn
    have hd := (toggle_empty_data g hc x y hx hy h1 c.1 c.2 hr.1 hr.2).1
    have hs := (consistent_cell g hc c.1 c.2 hr.1 hr.2).2.1
    unfold mult at hd
    rw [← nbrs_count_symm g.width g.height x y c.1 c.2 hx hy hr.1 hr.2] at hd
    rw [set_cell_data, if_neg (hne c hcn), hs]
    exact hd
  · by_cases h2 : ELEM_TAG (g.data x y) = ELEM
    · rw [toggle_cell_checked_alive g x y h2, toggle_cell_alive g x y h2]
      apply subAllChecked_eq
      intro c hcn
      have hr := nbrs_range _ _ _ _ hx hy c hcn
      have hd := (toggle_alive_data g hc x y hx hy h2 c.1 c.2 hr.1 hr.2).1
      have hs := consistent_cell g hc c.1 c.2 hr.1 hr.2
      unfold mult at hd
      rw [← nbrs_count_symm g.width g.height x y c.1 c.2 hx hy hr.1 hr.2] at hd
      rw [set_cell_data, if_neg (hne c hcn), hs.2.1]
      exact ⟨hd, by rw [← hs.2.1]; exact hs.2.2⟩
    · rw [toggle_cell_other g x y h1 h2]
      unfold toggle_cell_checked
      simp only [h1, h2, if_false]

theorem countInv_zero (base : grid_t) : CountInv base 0 0 base := by
  refine ⟨rfl, rfl, ?_⟩
  intro a _ b _
  simp [countSeen_zero]

theorem countInv_row (base : grid_t) (i : Nat) (g : grid_t)
    (hP : CountInv base i base.height g) : CountInv base (i + 1) 0 g := by
  obtain ⟨hW, hH, hF⟩ := hP
  refine ⟨hW, hH, ?_⟩
  intro a ha b hb
  rw [← countSeen_row base ELEM i a b ha hb]
  exact hF a ha b hb

theorem countInv_current (base : grid_t)
    (hbase : ∀ a, a < base.width → ∀ b, b < base.height →
      base.data a b = 131072 ∨ base.data a b = 0)
    (i j : Nat) (g : grid_t) (hi : i < base.width) (hj : j < base.height)
    (hP : CountInv base i j g) : ELEM_TAG (g.data i j) = ELEM_TAG (base.data i j) := by
  have Fij := hP.2.2 i hi j hj
  have hcur := (count_step_arith _ _ _ 0 (hbase i hi j hj) Fij
    (by have := countSeen_le base ELEM i j i j; have := countTag_le base ELEM i j; omega)).2
  rw [ELEM_TAG_eq, ELEM_TAG_eq, hcur]

theorem countInv_step (base : grid_t)
    (hbase : ∀ a, a < base.width → ∀ b, b < base.height →
      base.data a b = 131072 ∨ base.data a b = 0)
    (i j : Nat) (g : grid_t) (hi : i < base.width) (hj : j < base.height)
    (hP : CountInv base i j g) : CountInv base i (j + 1) (init_count_cell i j g) := by
  have htag := countInv_current base hbase i j g hi hj hP
  obtain ⟨hW, hH, hF⟩ := hP
  by_cases h : ELEM_TAG (base.data i j) = ELEM
  · rw [init_count_cell_alive i j g (by rw [htag, h])]
    refine ⟨by rw [(addAll_dims _ _).1, hW], by rw [(addAll_dims _ _).2, hH], ?_⟩
    intro a ha b hb
    rw [addAll_data, hW, hH, countSeen_step, if_pos h,
      nbrs_count_symm base.width base.height i j a b hi hj ha hb]
    have hle := countSeen_le base ELEM i (j + 1) a b
    rw [countSeen_step, if_pos h] at hle
    have h8 := countTag_le base ELEM a b
    exact (count_step_arith _ _ _ _ (hbase a ha b hb) (hF a ha b hb) (by omega)).1
  · rw [init_count_cell_other i j g (by rw [htag]; exact h)]
    refine ⟨hW, hH, ?_⟩
    intro a ha b hb
    rw [countSeen_step, if_neg h, Nat.add_zero]
    exact hF a ha b hb

theorem init_count_before_inv (base : grid_t)
    (hbase : ∀ a, a < base.width → ∀ b, b < base.height →
      base.data a b = 131072 ∨ base.data a b = 0)
    (i j : Nat) (hi : i < base.width) (hj : j ≤ base.height) :
    CountInv base i j (init_count_before base i j) := by
  unfold init_count_before
  exact scan_before_inv base.width base.height init_count_cell (CountInv base) _
    (countInv_zero base)
    (fun i j g hi hj hP => countInv_step base hbase i j g hi hj hP)
    (fun i g _ hP => countInv_row base i g hP) i j hi hj

theorem count_room_arith (x y c m t : Nat) (hx : x = 131072 ∨ x = 0) (hy : y = x + c)
    (hc : c + m ≤ t) (ht : t ≤ 8) : y % 256 + m ≤ 8 := by
  omega

/-- In the second loop of `init_grid_from_string` every `+= 1` of a visit meets its side
condition. -/
theorem init_count_cell_checked_ok (base : grid_t)
    (hbase : ∀ a, a < base.width → ∀ b, b < base.height →
      base.data a b = 131072 ∨ base.data a b = 0)
    (i j : Nat) (g : grid_t) (hi : i < base.width) (hj : j < base.height)
    (hP : CountInv base i j g) :
    init_count_cell_checked i j g = some (init_count_cell i j g) := by
  have htag := countInv_current base hbase i j g hi hj hP
  obtain ⟨hW, hH, hF⟩ := hP
  by_cases h : ELEM_TAG (base.data i j) = ELEM
  · rw [init_count_cell_checked_alive i j g (by rw [htag, h]),
      init_count_cell_alive i j g (by rw [htag, h])]
    apply addAllChecked_eq
    intro c hcn
    rw [hW, hH] at hcn ⊢
    have hr := nbrs_range _ _ _ _ hi hj c hcn
    have hle := countSeen_le base ELEM i (j + 1) c.1 c.2
    rw [countSeen_step, if_pos h,
      ← nbrs_count_symm base.width base.height i j c.1 c.2 hi hj hr.1 hr.2] at hle
    exact count_room_arith _ _ _ _ _ (hbase c.1 hr.1 c.2 hr.2) (hF c.1 hr.1 c.2 hr.2) hle
      (countTag_le base ELEM c.1 c.2)
  · rw [init_count_cell_checked_other i j g (by rw [htag]; exact h),
      init_count_cell_other i j g (by rw [htag]; exact h)]

/-- The second loop of `init_grid_from_string` passes every check, on every grid and for
every sequence of draws. -/
theorem init_checked_ok (g : grid_t) (rng : Rng) :
    init_grid_from_string_checked g rng = some (init_grid_from_string g rng) := by
  obtain ⟨hW, hH, _, _, hF⟩ := fill_scan g rng
  have hbase : ∀ a, a < (forLoop g.width (fun i s => forLoop g.height
      (fun j s => init_fill_cell i j s) s) (g, rng)).1.width → ∀ b,
      b < (forLoop g.width (fun i s => forLoop g.height
        (fun j s => init_fill_cell i j s) s) (g, rng)).1.height →
      (forLoop g.width (fun i s => forLoop g.height
        (fun j s => init_fill_cell i j s) s) (g, rng)).1.data a b = 131072 ∨
      (forLoop g.width (fun i s => forLoop g.height
        (fun j s => init_fill_cell i j s) s) (g, rng)).1.data a b = 0 := by
    intro a ha b hb
    rw [hW] at ha
    rw [hH] at hb
    have F := hF a b
    simp only [visited_all g.width (a, b) ha, hb, and_self, if_true] at F
    rw [F]
    rcases initTag_cases (initDraw g.height rng a b) with h | h
    · exact Or.inl h.1
    · exact Or.inr h.1
  generalize hbdef : (forLoop g.width (fun i s => forLoop g.height
      (fun j s => init_fill_cell i j s) s) (g, rng)) = s at hW hH hbase
  have h := scan_inv s.1.width s.1.height (fun i j go => go.bind (init_count_cell_checked i j))
    (fun i j go => go = some (init_count_before s.1 i j))
    (some s.1) rfl
    (by
      intro i j go hi hj hP
      subst hP
      show (some (init_count_before s.1 i j)).bind (init_count_cell_checked i j) = _
      rw [Option.some_bind, init_count_cell_checked_ok s.1 hbase i j _ hi hj
        (init_count_before_inv s.1 hbase i j hi (by omega))]
      rfl)
    (by
      intro i go _ hP
      rw [hP]
      rfl)
  unfold init_grid_from_string_checked init_grid_from_string
  simp only
  rw [hbdef, ← hW, ← hH, h]
  rfl

/-- The checks are real: on a grid outside the invariant the checked commit scan refuses. -/
theorem update_checked_refuses : (update_checked crowdedGrid).isNone = true := by decide

theorem add1_fields (g : grid_t) (i j : Nat) (h : ELEM_SUM (g.data i j) ≤ MAKE_SUM 7) :
    ELEM_TAG ((add1 g i j).data i j) = ELEM_TAG (g.data i j) ∧
    ELEM_GENC ((add1 g i j).data i j) = ELEM_GENC (g.data i j) ∧
    ELEM_SUM ((add1 g i j).data i j) = ELEM_SUM (g.data i j) + MAKE_SUM 1 := by
  have hb := g.bounded i j
  rw [ELEM_SUM_eq, MAKE_SUM_eq] at h
  simp only [U32] at hb
  have ha := add_ok_arith _ hb h
  rw [add1_data, if_pos ⟨rfl, rfl⟩, ELEM_TAG_eq, ELEM_TAG_eq, ELEM_GENC_eq, ELEM_GENC_eq,
    ELEM_SUM_eq, ELEM_SUM_eq, MAKE_SUM_eq]
  simp only [U32]
  rw [ha.1, ha.2.1, ha.2.2.1, ha.2.2.2]
  exact ⟨rfl, rfl, rfl⟩

theorem sub1_fields (g : grid_t) (i j : Nat) (h : MAKE_SUM 1 ≤ ELEM_SUM (g.data i j)) :
    ELEM_TAG ((sub1 g i j).data i j) = ELEM_TAG (g.data i j) ∧
    ELEM_GENC ((sub1 g i j).data i j) = ELEM_GENC (g.data i j) ∧
    ELEM_SUM ((sub1 g i j).data i j) + MAKE_SUM 1 = ELEM_SUM (g.data i j) := by
  have hb := g.bounded i j
  rw [ELEM_SUM_eq, MAKE_SUM_eq] at h
  simp only [U32] at hb
  have ha := sub_ok_arith _ hb h
  rw [sub1_data, if_pos ⟨rfl, rfl⟩, ELEM_TAG_eq, ELEM_TAG_eq, ELEM_GENC_eq, ELEM_GENC_eq,
    ELEM_SUM_eq, ELEM_SUM_eq, MAKE_SUM_eq]
  simp only [U32]
  rw [ha.1, ha.2.1, ha.2.2.1, ha.2.2.2]
  exact ⟨rfl, rfl, rfl⟩

/-- C17 (no carry or borrow out of the sum field). On every grid with width >= 3 and
height >= 3 whose cells are all Empty or Alive with correct neighbour sums, whatever the
random draws: the commit scan that follows `one_step`, run with a check in front of every
raw `+= 1` (neighbour-sum field at most 7) and every raw `-= 1` (neighbour-sum field at
least 1 and at most 8), passes every check and ends in the state of `update`; so does
`toggle_cell` at every in-range position, and so does the second loop of
`init_grid_from_string` on every grid; and a `+= 1` under its check, like a `-= 1` under
its check, leaves the tag and the trait of the cell as they were and moves the
neighbour-sum field by exactly one. -/
theorem sum_field_no_carry (g : grid_t) (hw : 3 ≤ g.width) (hh : 3 ≤ g.height)
    (hc : Consistent g) (rng : Rng) :
    update_checked (one_step g rng).grid = some (update (one_step g rng).grid) ∧
    (∀ x, x < g.width → ∀ y, y < g.height →
      toggle_cell_checked g x y = some (toggle_cell g x y)) ∧
    (∀ (g0 : grid_t) (rng0 : Rng),
      init_grid_from_string_checked g0 rng0 = some (init_grid_from_string g0 rng0)) ∧
    (∀ (g2 : grid_t) (i j : Nat), ELEM_SUM (g2.data i j) ≤ MAKE_SUM 7 →
      ELEM_TAG ((add1 g2 i j).data i j) = ELEM_TAG (g2.data i j) ∧
      ELEM_GENC ((add1 g2 i j).data i j) = ELEM_GENC (g2.data i j) ∧
      ELEM_SUM ((add1 g2 i j).data i j) = ELEM_SUM (g2.data i j) + MAKE_SUM 1) ∧
    (∀ (g2 : grid_t) (i j : Nat), MAKE_SUM 1 ≤ ELEM_SUM (g2.data i j) →
      ELEM_TAG ((sub1 g2 i j).data i j) = ELEM_TAG (g2.data i j) ∧
      ELEM_GENC ((sub1 g2 i j).data i j) = ELEM_GENC (g2.data i j) ∧
      ELEM_SUM ((sub1 g2 i j).data i j) + MAKE_SUM 1 = ELEM_SUM (g2.data i j)) := by
  obtain ⟨hW, hH, _⟩ := one_step_data g rng
  refine ⟨?_, ?_, init_checked_ok, add1_fields, sub1_fields⟩
  · exact update_checked_ok (one_step g rng).grid (by omega) (by omega)
      (classify_midTick g hc rng)
  · intro x hx y hy
    exact toggle_checked_ok g (by omega) (by omega) hc x y hx hy

/-- C17, witness: the blinker on the 5 x 5 torus, where the commit scan performs both
increments and decrements. -/
theorem sum_field_no_carry_witness :
    3 ≤ blinkerGrid.width ∧ 3 ≤ blinkerGrid.height ∧ Consistent blinkerGrid ∧
    update_checked (one_step blinkerGrid ⟨fun k => k, 0⟩).grid =
      some (update (one_step blinkerGrid ⟨fun k => k, 0⟩).grid) :=
  ⟨by decide, by decide, by decide,
    (sum_field_no_carry blinkerGrid (by decide) (by decide) (by decide) ⟨fun k => k, 0⟩).1⟩

/-! ## Claim C20 -/

theorem padded_len_spec (len : Nat) :
    padded_len len % 64 = 0 ∧ len + 9 ≤ padded_len len ∧ padded_len len ≤ len + 72 := by
  unfold padded_len
  omega

theorem getD_set (l : List Nat) (i k v : Nat) :
    (l.set i v).getD k 0 = if i = k ∧ i < l.length then v else l.getD k 0 := by
  rw [List.getD_eq_getElem?_getD, List.getD_eq_getElem?_getD, List.getElem?_set]
  by_cases h : i = k
  · subst h
    by_cases h2 : i < l.length
    · simp [h2]
    · simp [h2]
      rw [List.getElem?_eq_none (by omega)]
      rfl
  · simp [h]

theorem forLoop_set_length (L : List Nat) (base : Nat) (v : Nat → Nat) (n : Nat) :
    (forLoop n (fun i p => p.set (base + i) (v i)) L).length = L.length := by
  induction n with
  | zero => rfl
  | succ n ih => rw [forLoop_succ, List.length_set, ih]

/-- A loop of stores to consecutive indices, read back. -/
theorem forLoop_set_getD (L : List Nat) (base : Nat) (v : Nat → Nat) (n k : Nat) :
    (forLoop n (fun i p => p.set (base + i) (v i)) L).getD k 0 =
      if base ≤ k ∧ k < base + n ∧ k < L.length then v (k - base) else L.getD k 0 := by
  induction n with
  | zero =>
    rw [if_neg (by omega)]
    rfl
  | succ n ih =>
    rw [forLoop_succ, getD_set, forLoop_set_length, ih]
    by_cases h : base + n = k ∧ base + n < L.length
    · rw [if_pos h, if_pos (by omega)]
      congr 1
      omega
    · rw [if_neg h]
      by_cases h2 : base ≤ k ∧ k < base + n ∧ k < L.length
      · rw [if_pos h2, if_pos (by omega)]
      · rw [if_neg h2, if_neg (by omega)]

/-- Layout of the padded message: its length, the message bytes, the marker and the zero
fill between the marker and the length bytes. -/
theorem sha_pad_layout (data : List Nat) :
    (sha_pad data).length = padded_len data.length ∧
    (∀ k, k < data.length → (sha_pad data).getD k 0 = data.getD k 0) ∧
    (sha_pad data).getD data.length 0 = 0x80 ∧
    (∀ k, data.length < k → k < padded_len data.length - 8 → (sha_pad data).getD k 0 = 0) := by
  have hp := padded_len_spec data.length
  have hlen : (data ++ (List.replicate (padded_len data.length) 0).drop data.length).length =
      padded_len data.length := by
    simp only [List.length_append, List.length_drop, List.length_replicate]
    omega
  have hbody : ∀ k, k < padded_len data.length - 8 → (sha_pad data).getD k 0 =
      if data.length = k then 0x80
      else (data ++ (List.replicate (padded_len data.length) 0).drop data.length).getD k 0 := by
    intro k hk
    unfold sha_pad
    simp only
    rw [forLoop_set_getD, if_neg (by omega), getD_set, hlen]
    by_cases h : data.length = k
    · rw [if_pos ⟨h, by omega⟩, if_pos h]
    · rw [if_neg (fun hc => h hc.1), if_neg h]
  refine ⟨?_, ?_, ?_, ?_⟩
  · unfold sha_pad
    simp only
    rw [forLoop_set_length, List.length_set]
    exact hlen
  · intro k hk
    rw [hbody k (by omega), if_neg (by omega), List.getD_eq_getElem?_getD,
      List.getD_eq_getElem?_getD, List.getElem?_append_left hk]
  · rw [hbody data.length (by omega), if_pos rfl]
  · intro k hk1 hk2
    rw [hbody k hk2, if_neg (by omega), List.getD_eq_getElem?_getD,
      List.getElem?_append_right (by omega)]
    simp only [List.getElem?_drop, List.getElem?_replicate]
    split_ifs <;> rfl

/-- The last 8 bytes of the padded message hold the bit length, most significant byte
first. -/
theorem sha_pad_length_bytes (data : List Nat) (i : Nat) (hi : i < 8) :
    (sha_pad data).getD (padded_len data.length - 8 + i) 0 =
      ((data.length * 8) >>> (56 - i * 8)) &&& 0xff := by
  have hp := padded_len_spec data.length
  have hlen : ((data ++ (List.replicate (padded_len data.length) 0).drop data.length).set
      data.length 0x80).length = padded_len data.length := by
    simp only [List.length_set, List.length_append, List.length_drop, List.length_replicate]
    omega
  unfold sha_pad
  simp only
  rw [forLoop_set_getD, hlen, if_pos (by omega)]
  congr 3
  omega

/-- C20 (SHA-256). The function `sha256` returns the standard digest on the two test
messages: for the empty message (the seed the program starts with) the 32 bytes
e3b0c442 98fc1c14 9afbf4c8 996fb924 27ae41e4 649b934c a495991b 7852b855, and for the 3-byte
message "abc" the 32 bytes ba7816bf 8f01cfea 414140de 5dae2223 b00361a3 96177a9c b410ff61
f20015ad; and for every message length `len` the padded length is a multiple of 64 and at
least `len + 9`, so that the marker at index `len` lies after the message and before the
8 length bytes at indices `padded_len - 8 .. padded_len - 1`: in the padded message of every
message the message bytes are intact, the marker is `0x80` and the last 8 bytes hold the
bit length. -/
theorem sha256_digest :
    sha256 [] =
      [0xe3, 0xb0, 0xc4, 0x42, 0x98, 0xfc, 0x1c, 0x14, 0x9a, 0xfb, 0xf4, 0xc8, 0x99, 0x6f,
       0xb9, 0x24, 0x27, 0xae, 0x41, 0xe4, 0x64, 0x9b, 0x93, 0x4c, 0xa4, 0x95, 0x99, 0x1b,
       0x78, 0x52, 0xb8, 0x55] ∧
    sha256 [0x61, 0x62, 0x63] =
      [0xba, 0x78, 0x16, 0xbf, 0x8f, 0x01, 0xcf, 0xea, 0x41, 0x41, 0x40, 0xde, 0x5d, 0xae,
       0x22, 0x23, 0xb0, 0x03, 0x61, 0xa3, 0x96, 0x17, 0x7a, 0x9c, 0xb4, 0x10, 0xff, 0x61,
       0xf2, 0x00, 0x15, 0xad] ∧
    (∀ len : Nat, padded_len len % 64 = 0 ∧ len + 9 ≤ padded_len len ∧
      len < padded_len len - 8) ∧
    (∀ data : List Nat, (sha_pad data).length = padded_len data.length ∧
      (∀ k, k < data.length → (sha_pad data).getD k 0 = data.getD k 0) ∧
      (sha_pad data).getD data.length 0 = 0x80 ∧
      (∀ i, i < 8 → (sha_pad data).getD (padded_len data.length - 8 + i) 0 =
        ((data.length * 8) >>> (56 - i * 8)) &&& 0xff)) := by
  refine ⟨by decide!, by decide!, ?_, ?_⟩
  · intro len
    have h := padded_len_spec len
    exact ⟨h.1, h.2.1, by omega⟩
  · intro data
    have h := sha_pad_layout data
    exact ⟨h.1, h.2.1, h.2.2.1, sha_pad_length_bytes data⟩

/-! ## Claim C21 -/

/-- The commit scan keeps the sizes of the grid, whatever the grid. -/
theorem update_dims (g : grid_t) :
    (update g).1.width = g.width ∧ (update g).1.height = g.height := by
  unfold update
  exact scan_inv g.width g.height update_cell
    (fun _ _ s => s.1.width = g.width ∧ s.1.height = g.height) (g, 0) ⟨rfl, rfl⟩
    (fun i j s _ _ hP => ⟨by rw [(update_cell_dims s i j).1, hP.1],
      by rw [(update_cell_dims s i j).2, hP.2]⟩)
    (fun _ _ _ hP => hP)

/-- A tick keeps the sizes of the grid, whatever the grid. -/
theorem tick_dims (s : grid_t × Rng) :
    (tick s).1.width = s.1.width ∧ (tick s).1.height = s.1.height := by
  have htick : (tick s).1 = (update (one_step s.1 s.2).grid).1 := rfl
  obtain ⟨hW, hH, _⟩ := one_step_data s.1 s.2
  rw [htick, (update_dims _).1, (update_dims _).2, hW, hH]
  exact ⟨rfl, rfl⟩

theorem tui_init_inv (env : Env) (s : Tui) (h : CursorInv s) : CursorInv (tui_init env s) := by
  obtain ⟨hW, hH, hx⟩ := h
  refine ⟨?_, ?_, hx⟩
  · show (init_grid_from_string s.grid _).1.width = GRID_WIDTH
    rw [(init_dims _ _).1, hW]
  · show (init_grid_from_string s.grid _).1.height = GRID_HEIGHT
    rw [(init_dims _ _).2, hH]

/-- Every pass through the body of the key loop keeps the cursor on the grid. -/
theorem key_event_inv (env : Env) (ch : Int) (s : Tui) (h : CursorInv s) :
    CursorInv (key_event env ch s) := by
  have h0 := h
  obtain ⟨hW, hH, hx0, hx1, hy0, hy1⟩ := h
  have eW : (GRID_WIDTH : Int) = 30 := rfl
  have eH : (GRID_HEIGHT : Int) = 20 := rfl
  rw [eW] at hx1
  rw [eH] at hy1
  unfold key_event
  by_cases h1 : ch = 9
  · rw [if_pos h1]
    exact h0
  rw [if_neg h1]
  by_cases h2 : ch = 10
  · rw [if_pos h2]
    exact ⟨by rw [← hW]; exact (tick_dims (s.grid, s.rng)).1,
      by rw [← hH]; exact (tick_dims (s.grid, s.rng)).2, hx0, by rw [eW]; exact hx1, hy0,
      by rw [eH]; exact hy1⟩
  rw [if_neg h2]
  by_cases h3 : ch = KEY_UP
  · rw [if_pos h3]
    by_cases hc : s.cursor_y > 0
    · rw [if_pos hc]
      refine ⟨hW, hH, hx0, by rw [eW]; exact hx1, ?_, ?_⟩
      · show 0 ≤ s.cursor_y - 1
        omega
      · show s.cursor_y - 1 < (GRID_HEIGHT : Int)
        rw [eH]
        omega
    · rw [if_neg hc]
      exact h0
  rw [if_neg h3]
  by_cases h4 : ch = KEY_DOWN
  · rw [if_pos h4]
    by_cases hc : s.cursor_y < (GRID_HEIGHT : Int) - 1
    · rw [if_pos hc]
      rw [eH] at hc
      refine ⟨hW, hH, hx0, by rw [eW]; exact hx1, ?_, ?_⟩
      · show 0 ≤ s.cursor_y + 1
        omega
      · show s.cursor_y + 1 < (GRID_HEIGHT : Int)
        rw [eH]
        omega
    · rw [if_neg hc]
      exact h0
  rw [if_neg h4]
  by_cases h5 : ch = KEY_LEFT
  · rw [if_pos h5]
    by_cases hc : s.cursor_x > 0
    · rw [if_pos hc]
      refine ⟨hW, hH, ?_, ?_, hy0, by rw [eH]; exact hy1⟩
      · show 0 ≤ s.cursor_x - 1
        omega
      · show s.cursor_x - 1 < (GRID_WIDTH : Int)
        rw [eW]
        omega
    · rw [if_neg hc]
      exact h0
  rw [if_neg h5]
  by_cases h6 : ch = KEY_RIGHT
  · rw [if_pos h6]
    by_cases hc : s.cursor_x < (GRID_WIDTH : Int) - 1
    · rw [if_pos hc]
      rw [eW] at hc
      refine ⟨hW, hH, ?_, ?_, hy0, by rw [eH]; exact hy1⟩
      · show 0 ≤ s.cursor_x + 1
        omega
      · show s.cursor_x + 1 < (GRID_WIDTH : Int)
        rw [eW]
        omega
    · rw [if_neg hc]
      exact h0
  rw [if_neg h6]
  by_cases h7 : ch = 45
  · rw [if_pos h7]
    exact tui_init_inv env s h0
  rw [if_neg h7]
  by_cases h8 : ch = KEY_BACKSPACE
  · rw [if_pos h8]
    by_cases hc : s.cursor_pos > 0
    · rw [if_pos hc]
      exact tui_init_inv env _ h0
    · rw [if_neg hc]
      exact h0
  rw [if_neg h8]
  by_cases h9 : ch = 43
  · rw [if_pos h9]
    exact ⟨by rw [← hW]; exact (toggle_dims s.grid _ _).1,
      by rw [← hH]; exact (toggle_dims s.grid _ _).2, hx0, by rw [eW]; exact hx1, hy0,
      by rw [eH]; exact hy1⟩
  rw [if_neg h9]
  by_cases hc : s.cursor_pos < 255 ∧ env.isprint ch = true
  · rw [if_pos hc]
    exact tui_init_inv env _ h0
  · rw [if_neg hc]
    exact h0

theorem tui_start_inv (env : Env) (mem : Nat → Nat → Nat) : CursorInv (tui_start env mem) := by
  refine ⟨?_, ?_, ?_, ?_, ?_, ?_⟩
  · show (init_grid_from_string (create_grid GRID_WIDTH GRID_HEIGHT mem) _).1.width = GRID_WIDTH
    rw [(init_dims _ _).1]
    rfl
  · show (init_grid_from_string (create_grid GRID_WIDTH GRID_HEIGHT mem) _).1.height =
      GRID_HEIGHT
    rw [(init_dims _ _).2]
    rfl
  · exact Int.le_refl 0
  · show (0 : Int) < ((30 : Nat) : Int)
    decide
  · exact Int.le_refl 0
  · show (0 : Int) < ((20 : Nat) : Int)
    decide

theorem run_keys_inv (env : Env) (keys : List Int) (s : Tui) (h : CursorInv s) :
    CursorInv (run_keys env keys s) := by
  induction keys generalizing s with
  | nil => exact h
  | cons ch rest ih =>
    unfold run_keys
    split_ifs
    · exact ih _ (key_event_inv env ch s h)
    · exact h

theorem toggle_calls_inv (env : Env) (keys : List Int) (s : Tui) (h : CursorInv s) :
    ∀ c, c ∈ toggle_calls env keys s →
      c.1.width = GRID_WIDTH ∧ c.1.height = GRID_HEIGHT ∧
      0 ≤ c.2.1 ∧ c.2.1 < (c.1.width : Int) ∧ 0 ≤ c.2.2 ∧ c.2.2 < (c.1.height : Int) := by
  induction keys generalizing s with
  | nil =>
    intro c hc
    simp [toggle_calls] at hc
  | cons ch rest ih =>
    intro c hc
    unfold toggle_calls at hc
    split_ifs at hc with hr hp
    · rw [List.mem_append, List.mem_singleton] at hc
      rcases hc with hc | hc
      · subst hc
        obtain ⟨hW, hH, hx0, hx1, hy0, hy1⟩ := h
        refine ⟨hW, hH, hx0, ?_, hy0, ?_⟩
        · show s.cursor_x < (s.grid.width : Int)
          rw [hW]
          exact hx1
        · show s.cursor_y < (s.grid.height : Int)
          rw [hH]
          exact hy1
      · exact ih _ (key_event_inv env ch s h) c hc
    · rw [List.nil_append] at hc
      exact ih _ (key_event_inv env ch s h) c hc
    · simp at hc

/-- The guards are what holds the cursor: at the right edge `KEY_RIGHT` leaves it where it
is, and one step before the edge it moves it onto the edge. -/
theorem key_right_at_edge (env : Env) (s : Tui) :
    (s.cursor_x = 29 → (key_event env KEY_RIGHT s).cursor_x = 29) ∧
    (s.cursor_x = 28 → (key_event env KEY_RIGHT s).cursor_x = 29) := by
  have e : (GRID_WIDTH : Int) - 1 = 29 := rfl
  have k1 : ¬ KEY_RIGHT = 9 := by decide
  have k2 : ¬ KEY_RIGHT = 10 := by decide
  have k3 : ¬ KEY_RIGHT = KEY_UP := by decide
  have k4 : ¬ KEY_RIGHT = KEY_DOWN := by decide
  have k5 : ¬ KEY_RIGHT = KEY_LEFT := by decide
  constructor
  · intro h
    unfold key_event
    rw [if_neg k1, if_neg k2, if_neg k3, if_neg k4, if_neg k5, if_pos rfl, e,
      if_neg (by omega)]
    exact h
  · intro h
    unfold key_event
    rw [if_neg k1, if_neg k2, if_neg k3, if_neg k4, if_neg k5, if_pos rfl, e,
      if_pos (by omega)]
    show s.cursor_x + 1 = 29
    omega

/-- C21 (the editing cursor never leaves the grid). In the key loop of `run_tui`, entered
with the cursor at `(0,0)` on the 30 x 20 grid, for every sequence of keys, whatever
`malloc`, `srand` and `isprint` deliver: afterwards the grid is still 30 x 20 and
`0 <= cursor_x < GRID_WIDTH` and `0 <= cursor_y < GRID_HEIGHT`; and every call
`toggle_cell(grid, cursor_x, cursor_y)` made on the way was made on a 30 x 20 grid with
`0 <= cursor_x < grid->width` and `0 <= cursor_y < grid->height`. -/
theorem cursor_stays_in_grid (env : Env) (mem : Nat → Nat → Nat) (keys : List Int) :
    ((run_keys env keys (tui_start env mem)).grid.width = GRID_WIDTH ∧
      (run_keys env keys (tui_start env mem)).grid.height = GRID_HEIGHT ∧
      0 ≤ (run_keys env keys (tui_start env mem)).cursor_x ∧
      (run_keys env keys (tui_start env mem)).cursor_x < (GRID_WIDTH : Int) ∧
      0 ≤ (run_keys env keys (tui_start env mem)).cursor_y ∧
      (run_keys env keys (tui_start env mem)).cursor_y < (GRID_HEIGHT : Int)) ∧
    ∀ c, c ∈ toggle_calls env keys (tui_start env mem) →
      c.1.width = GRID_WIDTH ∧ c.1.height = GRID_HEIGHT ∧
      0 ≤ c.2.1 ∧ c.2.1 < (c.1.width : Int) ∧ 0 ≤ c.2.2 ∧ c.2.2 < (c.1.height : Int) :=
  ⟨run_keys_inv env keys _ (tui_start_inv env mem),
    toggle_calls_inv env keys _ (tui_start_inv env mem)⟩

/-- C21, witness: the keys left, up, `+`, then 40 times right and 40 times down, then `+`
again, with nothing in the grid's memory. -/
theorem cursor_stays_in_grid_witness :
    (run_keys plainEnv
      ([KEY_LEFT, KEY_UP, 43] ++ List.replicate 40 KEY_RIGHT ++ List.replicate 40 KEY_DOWN ++
        [43]) (tui_start plainEnv (fun _ _ => 0))).cursor_x < (GRID_WIDTH : Int) ∧
    (run_keys plainEnv
      ([KEY_LEFT, KEY_UP, 43] ++ List.replicate 40 KEY_RIGHT ++ List.replicate 40 KEY_DOWN ++
        [43]) (tui_start plainEnv (fun _ _ => 0))).cursor_y < (GRID_HEIGHT : Int) :=
  ⟨(cursor_stays_in_grid plainEnv (fun _ _ => 0) _).1.2.2.2.1,
    (cursor_stays_in_grid plainEnv (fun _ _ => 0) _).1.2.2.2.2.2⟩

/-! ## Claim C5 -/

end Gol
